import Mathlib

/-! The influence map of the RTS demos.

Shallow embedding of `InfluenceMap` from `src/demo1/main.cpp` (wrap-around
boundary) and `src/demo2/main.cpp` (clamp-out boundary).

* A C++ `float` is modelled by the rational number it denotes; every
  arithmetic operation rounds its exact result to the nearest binary32 value
  (ties to even), the way IEEE-754 arithmetic does, and `sqrt` is the correctly
  rounded `double` square root narrowed to `float`.  Signed zeros are
  identified, and NaN / infinities are not modelled: the grid starts from
  `0.0f` and accumulates finitely many finite contributions, which cannot
  overflow binary32.  All definitions compute, so that concrete runs are
  evaluated by the kernel.
* A C++ `int` is modelled by an `Int`; where the width of a machine integer
  changes a result it is written out: the `size_t` arithmetic of demo1's
  modulo with an explicit `% 2 ^ 64`, and the `int` sum of space_trader's
  `addCargo` with an explicit wrap-around modulo `2 ^ 32`.  The conversion
  `static_cast<int>` is the mathematical truncation (its operand is assumed
  to fit an `int`).
* Reading `mapData[i]` outside the vector, and dividing an integer by zero,
  are undefined in C++: the operations return `Option`, and `none` stands for
  such a run.
* The loops `for (y ...) for (x ...)` are folds over the list `offsets` of the
  values of the loop variable, threading the grid.
* The later sections embed the units of both demos and the decision of the
  enemy unit, the bytecode interpreter of `src/demo5/main.cpp` (its `while`
  loop runs on a fuel counter, and the properties show how much fuel makes it
  return) and `Ship::addCargo` of `src/space_trader/main.cpp`.
-/

namespace Rts

/-! ## binary32 arithmetic -/

/-- Power of two with an integer exponent. -/
def pow2 (z : Int) : ℚ :=
  if 0 ≤ z then ((2 ^ z.toNat : Nat) : ℚ) else 1 / ((2 ^ (-z).toNat : Nat) : ℚ)

/-- Number of binary digits of `n`, computed with fuel `f` (`f = n` suffices). -/
def bitLen : Nat → Nat → Nat
  | 0, _ => 0
  | f + 1, n => if n = 0 then 0 else bitLen f (n / 2) + 1

/-- Binary exponent of a non-zero rational: the `e` with `2 ^ e ≤ |q| < 2 ^ (e + 1)`. -/
def ilog2 (q : ℚ) : Int :=
  let a : Int := (bitLen q.num.natAbs q.num.natAbs : Int) - (bitLen q.den q.den : Int)
  if pow2 a ≤ |q| then a else a - 1

/-- Nearest integer, ties to the even one. -/
def roundHalfEven (q : ℚ) : Int :=
  if q - ⌊q⌋ < 1 / 2 then ⌊q⌋
  else if 1 / 2 < q - ⌊q⌋ then ⌊q⌋ + 1
  else if ⌊q⌋ % 2 = 0 then ⌊q⌋ else ⌊q⌋ + 1

/-- Round to nearest, ties to even, in the binary format with `p` significant
bits and least normal exponent `emin` (subnormals included, no overflow). -/
def roundTo (p : Nat) (emin : Int) (q : ℚ) : ℚ :=
  if q = 0 then 0
  else (roundHalfEven (q / pow2 (max (ilog2 q) emin - (p - 1))) : ℚ)
    * pow2 (max (ilog2 q) emin - (p - 1))

/-- Bitwise integer square root: tries the bits `b - 1, ..., 0` on top of `r`. -/
def isqrtBits (n : Nat) : Nat → Nat → Nat
  | 0, r => r
  | b + 1, r =>
    if (r + 2 ^ b) * (r + 2 ^ b) ≤ n then isqrtBits n b (r + 2 ^ b) else isqrtBits n b r

/-- Integer square root (floor). -/
def isqrt (n : Nat) : Nat := isqrtBits n (bitLen n n / 2 + 1) 0

/-- Correctly rounded square root of a natural number in the format `(p, emin)`:
the root is bracketed to `p + 1` fractional bits, which separates it from every
rounding boundary of a value that is at least one. -/
def sqrtRound (p : Nat) (emin : Int) (n : Nat) : ℚ :=
  if isqrt (n * 4 ^ (p + 1)) * isqrt (n * 4 ^ (p + 1)) = n * 4 ^ (p + 1) then
    roundTo p emin ((isqrt (n * 4 ^ (p + 1)) : ℚ) / ((2 ^ (p + 1) : Nat) : ℚ))
  else
    roundTo p emin (((2 * isqrt (n * 4 ^ (p + 1)) + 1 : Nat) : ℚ) / ((2 ^ (p + 2) : Nat) : ℚ))

/-- Rounding to binary32 (`float`). -/
def rnd (q : ℚ) : ℚ := roundTo 24 (-126) q

/-- The `float` addition. -/
def fadd (a b : ℚ) : ℚ := rnd (a + b)

/-- The `float` multiplication. -/
def fmul (a b : ℚ) : ℚ := rnd (a * b)

/-- The `float` division (the divisor is not zero wherever it is used). -/
def fdiv (a b : ℚ) : ℚ := rnd (a / b)

/-- Conversion `int -> float`. -/
def ofInt (i : Int) : ℚ := rnd (i : ℚ)

/-- The call `sqrt(n)` on an `int` argument, stored into a `float`: the square
root is taken in `double` and the result is narrowed to binary32. -/
def sqrtf (n : Int) : ℚ := rnd (sqrtRound 53 (-1022) n.toNat)

/-- The conversion `static_cast<int>(q)`: truncation toward zero. -/
def toInt (q : ℚ) : Int := q.num.tdiv q.den

/-! ## Data model -/

/-- The `sf::Vector2f` of the graphics library: two `float` coordinates. -/
structure Vector2f where
  x : ℚ
  y : ℚ
deriving DecidableEq

/-- The fields of `class Unit` that the influence map and the health logic use. -/
structure Unit where
  health : ℚ
  alive : Bool
  position : Vector2f
  teamSign : Int
deriving DecidableEq

/-- The state of `class InfluenceMap` (the font is left out). -/
structure InfluenceMap where
  width : Int
  height : Int
  cellSize : Int
  mapData : List (List ℚ)
deriving DecidableEq

/-- Outcome of running the constructor `InfluenceMap(w, h, cSize)`. -/
inductive Construction where
  | built (m : InfluenceMap)
  | lengthError
  | undefinedBehaviour
deriving DecidableEq

/-- The constructor `InfluenceMap::InfluenceMap` (identical in both demos):
`mapData.resize(height / cellSize, std::vector<float>(width / cellSize, 0.0f))`.
The quotients are C++ `int` divisions (truncating, undefined for a zero divisor);
a negative count converted to `size_t` exceeds `max_size()` and the vector throws
`std::length_error`.  Nothing is validated. -/
def InfluenceMap.construct (w h cSize : Int) : Construction :=
  if cSize = 0 then Construction.undefinedBehaviour
  else if w.tdiv cSize < 0 ∨ h.tdiv cSize < 0 then Construction.lengthError
  else Construction.built
    { width := w, height := h, cellSize := cSize,
      mapData := List.replicate (h.tdiv cSize).toNat (List.replicate (w.tdiv cSize).toNat 0) }

/-- The local constant `int influenceRadius = 3` of `applyInfluence`. -/
def influenceRadius : Int := 3

/-- The values taken by the loop variables
`for (int y = -influenceRadius; y <= influenceRadius; ++y)`, in order. -/
def offsets : List Int :=
  (List.range (2 * influenceRadius + 1).toNat).map (fun i => -influenceRadius + (i : Int))

/-- The value of `static_cast<int>(p / cellSize)` for `cellSize != 0`, with `p` a
`float` and `cellSize` an `int`: a `float` division, then truncation. -/
def coord (p : ℚ) (cellSize : Int) : Int := toInt (fdiv p (ofInt cellSize))

/-- The expression `static_cast<int>(p / cellSize)`.  Dividing by zero yields an
infinity or a NaN, whose conversion to `int` is undefined. -/
def cellCoord (p : ℚ) (cellSize : Int) : Option Int :=
  if cellSize = 0 then none else some (coord p cellSize)

/-- The expression `mapData[0].size()`; undefined when `mapData` is empty. -/
def rowSize (g : List (List ℚ)) : Option Nat :=
  match g[0]? with
  | none => none
  | some row => some row.length

/-- The statement `mapData[cellY][cellX] += v`. -/
def addAt (g : List (List ℚ)) (cellY cellX : Nat) (v : ℚ) : Option (List (List ℚ)) :=
  match g[cellY]? with
  | none => none
  | some row =>
    match row[cellX]? with
    | none => none
    | some old => some (g.set cellY (row.set cellX (fadd old v)))

/-- The expression `mapData[y][x]`. -/
def cellAt (g : List (List ℚ)) (y x : Nat) : Option ℚ :=
  match g[y]? with
  | none => none
  | some row => row[x]?

/-- The local `float distance = sqrt(x * x + y * y)`. -/
def distance (x y : Int) : ℚ := sqrtf (x * x + y * y)

/-- The local `float influenceValue = unit->getTeamSign() * (1.0f / (1.0f + distance))`. -/
def influenceValue (teamSign x y : Int) : ℚ :=
  fmul (ofInt teamSign) (fdiv 1 (fadd 1 (distance x y)))

/-- The reset loop of `update`: `std::fill(row.begin(), row.end(), 0.0f)` on every row. -/
def resetMap (g : List (List ℚ)) : List (List ℚ) :=
  g.map (fun row => row.map (fun _ => 0))

end Rts

/-! ## demo2: clamp-out -/

namespace Rts.Demo2

/-- The body of the inner loop of demo2's `applyInfluence` for the offset `(x, y)`.
The bounds test `cellX < 0 || cellX >= mapData[0].size() || cellY < 0 ||
cellY >= mapData.size()` is evaluated left to right. -/
def applyCell (teamSign unitX unitY y : Int) (g : List (List ℚ)) (x : Int) :
    Option (List (List ℚ)) :=
  if unitX + x < 0 then some g
  else
    match rowSize g with
    | none => none
    | some cols =>
      if (cols : Int) ≤ unitX + x then some g
      else if unitY + y < 0 then some g
      else if (g.length : Int) ≤ unitY + y then some g
      else if distance x y ≤ ofInt influenceRadius then
        addAt g (unitY + y).toNat (unitX + x).toNat (influenceValue teamSign x y)
      else some g

/-- The method `InfluenceMap::applyInfluence` of demo2. -/
def applyInfluence (m : InfluenceMap) (unit : Unit) : Option InfluenceMap :=
  match cellCoord unit.position.x m.cellSize, cellCoord unit.position.y m.cellSize with
  | some unitX, some unitY =>
    (offsets.foldlM
      (fun g y => offsets.foldlM (applyCell unit.teamSign unitX unitY y) g) m.mapData).map
      (fun g => { m with mapData := g })
  | _, _ => none

/-- The method `InfluenceMap::update` of demo2. -/
def update (m : InfluenceMap) (units : List Unit) : Option InfluenceMap :=
  units.foldlM applyInfluence { m with mapData := resetMap m.mapData }

/-- The method `InfluenceMap::getInfluenceAtPosition` of demo2. -/
def getInfluenceAtPosition (m : InfluenceMap) (position : Vector2f) : Option ℚ :=
  match cellCoord position.x m.cellSize, cellCoord position.y m.cellSize with
  | some x, some y =>
    if x < 0 then some 0
    else
      match rowSize m.mapData with
      | none => none
      | some cols =>
        if (cols : Int) ≤ x then some 0
        else if y < 0 then some 0
        else if (m.mapData.length : Int) ≤ y then some 0
        else cellAt m.mapData y.toNat x.toNat
  | _, _ => none

end Rts.Demo2

/-! ## demo1: wrap-around -/

namespace Rts.Demo1

/-- The index expression `(unitX + x + mapData[0].size()) % mapData[0].size()`
stored into an `int`: the sum is formed in `size_t` (64 bits, unsigned), so a
negative `unitX + x` wraps modulo `2 ^ 64` before the remainder is taken.
Undefined when the size is zero. -/
def wrapIndex (i : Int) (size : Nat) : Option Nat :=
  if size = 0 then none else some ((((i + size) % 2 ^ 64).toNat) % size)

/-- The body of the inner loop of demo1's `applyInfluence` for the offset `(x, y)`. -/
def applyCell (teamSign unitX unitY y : Int) (g : List (List ℚ)) (x : Int) :
    Option (List (List ℚ)) :=
  match rowSize g with
  | none => none
  | some cols =>
    match wrapIndex (unitX + x) cols, wrapIndex (unitY + y) g.length with
    | some cellX, some cellY =>
      if distance x y ≤ ofInt influenceRadius then
        addAt g cellY cellX (influenceValue teamSign x y)
      else some g
    | _, _ => none

/-- The method `InfluenceMap::applyInfluence` of demo1. -/
def applyInfluence (m : InfluenceMap) (unit : Unit) : Option InfluenceMap :=
  match cellCoord unit.position.x m.cellSize, cellCoord unit.position.y m.cellSize with
  | some unitX, some unitY =>
    (offsets.foldlM
      (fun g y => offsets.foldlM (applyCell unit.teamSign unitX unitY y) g) m.mapData).map
      (fun g => { m with mapData := g })
  | _, _ => none

/-- The method `InfluenceMap::update` of demo1. -/
def update (m : InfluenceMap) (units : List Unit) : Option InfluenceMap :=
  units.foldlM applyInfluence { m with mapData := resetMap m.mapData }

/-- The expression `static_cast<int>(p / cellSize) % (extent / cellSize)` followed
by `if (x < 0) x += extent / cellSize`: `int` division and remainder truncate
toward zero and are undefined for a zero divisor. -/
def wrapCoord (p : ℚ) (extent cellSize : Int) : Option Int :=
  match cellCoord p cellSize with
  | none => none
  | some i =>
    if extent.tdiv cellSize = 0 then none
    else if i.tmod (extent.tdiv cellSize) < 0 then
      some (i.tmod (extent.tdiv cellSize) + extent.tdiv cellSize)
    else some (i.tmod (extent.tdiv cellSize))

/-- The method `InfluenceMap::getInfluenceAtPosition` of demo1. -/
def getInfluenceAtPosition (m : InfluenceMap) (position : Vector2f) : Option ℚ :=
  match wrapCoord position.x m.width m.cellSize, wrapCoord position.y m.height m.cellSize with
  | some x, some y => if x < 0 ∨ y < 0 then none else cellAt m.mapData y.toNat x.toNat
  | _, _ => none

end Rts.Demo1

/-! ## Auxiliary notions used to state and prove the properties -/

namespace Rts

/-- A grid is rectangular with `rows` rows of `cols` cells each. -/
def Rect (g : List (List ℚ)) (rows cols : Nat) : Prop :=
  g.length = rows ∧ ∀ row ∈ g, row.length = cols

/-- Number of rows fixed by the constructor: `height / cellSize`. -/
def InfluenceMap.rows (m : InfluenceMap) : Nat := (m.height.tdiv m.cellSize).toNat

/-- Number of columns fixed by the constructor: `width / cellSize`. -/
def InfluenceMap.cols (m : InfluenceMap) : Nat := (m.width.tdiv m.cellSize).toNat

/-- A state of the field that a valid configuration can reach: the three
parameters are positive C++ `int`s, and the grid has the shape the constructor
gave it.  The contents of the cells are arbitrary. -/
def InfluenceMap.Valid (m : InfluenceMap) : Prop :=
  0 < m.cellSize ∧ 0 < m.width ∧ 0 < m.height ∧ m.width < 2 ^ 31 ∧ m.height < 2 ^ 31 ∧
    Rect m.mapData m.rows m.cols

/-- One increment `mapData[cellY][cellX] += value`. -/
structure Hit where
  cellY : Nat
  cellX : Nat
  value : ℚ

/-- Performing a list of increments in order. -/
def applyHits (g : List (List ℚ)) (hs : List Hit) : Option (List (List ℚ)) :=
  hs.foldlM (fun g h => addAt g h.cellY h.cellX h.value) g

/-- The values that a list of increments adds to the cell `(r, c)`, in order. -/
def valuesAt (hs : List Hit) (r c : Nat) : List ℚ :=
  (hs.filter (fun h => decide (h.cellY = r ∧ h.cellX = c))).map (fun h => h.value)

/-- The `float` sum of a list, accumulated from `0.0f` from left to right. -/
def fsum (l : List ℚ) : ℚ := l.foldl fadd 0

end Rts

namespace Rts.Demo2

/-- The increment that demo2's loop body performs for the offset `(x, y)` on a
grid of `rows` by `cols` cells, if any. -/
def hit (teamSign unitX unitY : Int) (rows cols : Nat) (y x : Int) : Option Hit :=
  if 0 ≤ unitX + x ∧ unitX + x < cols ∧ 0 ≤ unitY + y ∧ unitY + y < rows ∧
      distance x y ≤ ofInt influenceRadius then
    some ⟨(unitY + y).toNat, (unitX + x).toNat, influenceValue teamSign x y⟩
  else none

/-- All increments of one call of demo2's `applyInfluence`, in loop order. -/
def hits (teamSign unitX unitY : Int) (rows cols : Nat) : List Hit :=
  offsets.flatMap (fun y => offsets.filterMap (hit teamSign unitX unitY rows cols y))

end Rts.Demo2

namespace Rts.Demo1

/-- The increment that demo1's loop body performs for the offset `(x, y)` on a
grid of `rows` by `cols` cells, if any. -/
def hit (teamSign unitX unitY : Int) (rows cols : Nat) (y x : Int) : Option Hit :=
  if distance x y ≤ ofInt influenceRadius then
    some ⟨((unitY + y + rows) % 2 ^ 64).toNat % rows, ((unitX + x + cols) % 2 ^ 64).toNat % cols,
      influenceValue teamSign x y⟩
  else none

/-- All increments of one call of demo1's `applyInfluence`, in loop order. -/
def hits (teamSign unitX unitY : Int) (rows cols : Nat) : List Hit :=
  offsets.flatMap (fun y => offsets.filterMap (hit teamSign unitX unitY rows cols y))

end Rts.Demo1

namespace Rts

/-- Integer division of a coordinate by the cell size, `p div cellSize`: the
floor of the `float` quotient `p / cellSize`. -/
def divCell (p : ℚ) (cellSize : Int) : Int := ⌊fdiv p (ofInt cellSize)⌋

/-- Builds a unit as the constructor `Unit(pos, team)` does: health 100, alive. -/
def mkUnit (x y : ℚ) (team : Int) : Unit :=
  { health := 100, alive := true, position := { x := x, y := y }, teamSign := team }

/-- The field of the demos, `InfluenceMap influenceMap(SCREEN_WIDTH, SCREEN_HEIGHT, 40)`
with `SCREEN_WIDTH = 800` and `SCREEN_HEIGHT = 600`: 15 rows of 20 cells. -/
def demoMap : InfluenceMap :=
  { width := 800, height := 600, cellSize := 40,
    mapData := List.replicate 15 (List.replicate 20 0) }

/-- A narrow field, `InfluenceMap(280, 120, 40)`: 3 rows of 7 cells. -/
def narrowMap : InfluenceMap :=
  { width := 280, height := 120, cellSize := 40,
    mapData := List.replicate 3 (List.replicate 7 0) }

/-- The position resolves to a cell of the grid: both cell coordinates
`static_cast<int>(p / cellSize)` are within the grid's bounds. -/
def InfluenceMap.Inside (m : InfluenceMap) (p : Vector2f) : Prop :=
  (0 ≤ coord p.x m.cellSize ∧ coord p.x m.cellSize < m.cols) ∧
    (0 ≤ coord p.y m.cellSize ∧ coord p.y m.cellSize < m.rows)

/-- A list with at most one element, which is a binary32 value. -/
def AtMostOne (l : List ℚ) : Prop := l = [] ∨ ∃ v, l = [v] ∧ rnd v = v

/-- A unit standing in the cell `(10, 7)` of the demo field whose `alive` flag is
cleared, as `takeDamage` leaves it once its health reaches zero. -/
def deadUnit : Unit :=
  { health := 0, alive := false, position := { x := 420, y := 300 }, teamSign := 1 }

/-- A field lower than one cell, `InfluenceMap(800, 30, 40)`: `30 / 40 = 0` rows. -/
def shallowMap : InfluenceMap :=
  { width := 800, height := 30, cellSize := 40, mapData := [] }

/-- A field narrower than one cell, `InfluenceMap(30, 600, 40)`: 15 rows of
`30 / 40 = 0` cells. -/
def slimMap : InfluenceMap :=
  { width := 30, height := 600, cellSize := 40, mapData := List.replicate 15 [] }

/-- The field `m'` has the parameters of `m` and a grid of the shape fixed by them. -/
def SameShape (m m' : InfluenceMap) : Prop :=
  m'.width = m.width ∧ m'.height = m.height ∧ m'.cellSize = m.cellSize ∧
    Rect m'.mapData m.rows m.cols

end Rts

/-! ## Units and the enemy's decision -/

namespace Rts

/-- The constant `SCREEN_WIDTH` of both demos. -/
def SCREEN_WIDTH : Int := 800

/-- The constant `SCREEN_HEIGHT` of both demos. -/
def SCREEN_HEIGHT : Int := 600

/-- The `float` subtraction. -/
def fsub (a b : ℚ) : ℚ := rnd (a - b)

/-- The value `std::numeric_limits<float>::max()`, `(2 ^ 24 - 1) * 2 ^ 104`. -/
def floatMax : ℚ := 340282346638528859811704183484516925440

/-- The call `sqrt(v)` on a `float` argument, in `double`: the argument is scaled by a
power of four into `[2 ^ 108, 2 ^ 110)`, so that the integer part of its root has 55
bits and separates the root from every rounding boundary of a 53-bit format.  The
arguments in the program are sums of squares; for `v ≤ 0` the model returns `0`. -/
def sqrtDouble (v : ℚ) : ℚ :=
  if v ≤ 0 then 0
  else if (isqrt ⌊v * pow2 (2 * (54 - ilog2 v / 2))⌋.toNat : ℚ)
      * (isqrt ⌊v * pow2 (2 * (54 - ilog2 v / 2))⌋.toNat : ℚ)
      = v * pow2 (2 * (54 - ilog2 v / 2)) then
    roundTo 53 (-1022) ((isqrt ⌊v * pow2 (2 * (54 - ilog2 v / 2))⌋.toNat : ℚ)
      * pow2 (-(54 - ilog2 v / 2)))
  else
    roundTo 53 (-1022) (((2 * isqrt ⌊v * pow2 (2 * (54 - ilog2 v / 2))⌋.toNat + 1 : Nat) : ℚ)
      / 2 * pow2 (-(54 - ilog2 v / 2)))

/-- The call `sqrt(v)` on a `float` argument, stored into a `float`. -/
def fsqrt (v : ℚ) : ℚ := rnd (sqrtDouble v)

/-- The `sf::Vector2f` sum `a + b`. -/
def Vector2f.add (a b : Vector2f) : Vector2f := { x := fadd a.x b.x, y := fadd a.y b.y }

/-- The `sf::Vector2f` difference `a - b`. -/
def Vector2f.sub (a b : Vector2f) : Vector2f := { x := fsub a.x b.x, y := fsub a.y b.y }

/-- The `sf::Vector2f` product `a * k` with a `float`. -/
def Vector2f.scale (a : Vector2f) (k : ℚ) : Vector2f := { x := fmul a.x k, y := fmul a.y k }

/-- The two statements `if (p < 0) p += extent; if (p >= extent) p -= extent;` on one
coordinate, with `extent` an `int` constant converted to `float`. -/
def wrapStep (p : ℚ) (extent : Int) : ℚ :=
  if ofInt extent ≤ (if p < 0 then fadd p (ofInt extent) else p) then
    fsub (if p < 0 then fadd p (ofInt extent) else p) (ofInt extent)
  else (if p < 0 then fadd p (ofInt extent) else p)

/-- The wraparound of `Unit::updateGraphics` (identical in both demos; the sprite,
shape and health bar are left out). -/
def Unit.updateGraphics (u : Unit) : Unit :=
  { u with position :=
      { x := wrapStep u.position.x SCREEN_WIDTH, y := wrapStep u.position.y SCREEN_HEIGHT } }

/-- The loop of `findTarget`, shared by both demos up to the distance function: the
state is `(minDistance, closestUnit)`. -/
def closestLoop (dist : Vector2f → Vector2f → ℚ) (position : Vector2f) (teamSign : Int)
    (units : List Unit) : ℚ × Option Unit :=
  units.foldl
    (fun acc unit =>
      if unit.teamSign ≠ teamSign ∧ unit.alive = true then
        if dist position unit.position < acc.1 then (dist position unit.position, some unit)
        else acc
      else acc)
    (floatMax, none)

end Rts

namespace Rts.Demo2

/-- The `enum State` of demo2's `EnemyUnit`. -/
inductive State where
  | Idle
  | Attack
  | Evade
deriving DecidableEq

/-- The fields of demo2's `class EnemyUnit : public Unit` that the decision logic uses. -/
structure EnemyUnit extends Unit where
  targetPosition : Vector2f
  state : State
  autonomous : Bool
deriving DecidableEq

/-- The method `EnemyUnit::calculateDistance` of demo2. -/
def calculateDistance (pos1 pos2 : Vector2f) : ℚ :=
  fsqrt (fadd (fmul (Vector2f.sub pos2 pos1).x (Vector2f.sub pos2 pos1).x)
    (fmul (Vector2f.sub pos2 pos1).y (Vector2f.sub pos2 pos1).y))

/-- The method `EnemyUnit::findTarget` of demo2. -/
def findTarget (e : EnemyUnit) (units : List Unit) : EnemyUnit :=
  match (closestLoop calculateDistance e.position e.teamSign units).2 with
  | some closestUnit => { e with targetPosition := closestUnit.position }
  | none => e

/-- The method `EnemyUnit::makeDecision` of demo2.  The field is read through a
`const` reference; `none` stands for a sample with undefined behaviour. -/
def makeDecision (e : EnemyUnit) (units : List Unit) (influenceMap : InfluenceMap) :
    Option EnemyUnit :=
  match getInfluenceAtPosition influenceMap e.position with
  | none => none
  | some currentInfluence =>
    if -1 / 2 < currentInfluence then some { e with state := State.Evade }
    else if currentInfluence < -1 then some (findTarget { e with state := State.Attack } units)
    else some { e with state := State.Idle }

end Rts.Demo2

namespace Rts.Demo1

/-- The `enum State` of demo1's `EnemyUnit`. -/
inductive State where
  | Idle
  | Attack
  | Retreat
deriving DecidableEq

/-- The fields of demo1's `class EnemyUnit : public Unit` that the decision logic uses. -/
structure EnemyUnit extends Unit where
  targetPosition : Vector2f
  state : State
deriving DecidableEq

/-- One coordinate of the adjustment in `calculateWrappedDistance`:
`if (d > extent / 2) d -= extent; if (d < -extent / 2) d += extent;` with `int`
quotients. -/
def wrapDelta (d : ℚ) (extent : Int) : ℚ :=
  if (if ofInt (extent.tdiv 2) < d then fsub d (ofInt extent) else d)
      < ofInt ((-extent).tdiv 2) then
    fadd (if ofInt (extent.tdiv 2) < d then fsub d (ofInt extent) else d) (ofInt extent)
  else (if ofInt (extent.tdiv 2) < d then fsub d (ofInt extent) else d)

/-- The method `EnemyUnit::calculateWrappedDistance` of demo1. -/
def calculateWrappedDistance (pos1 pos2 : Vector2f) : ℚ :=
  fsqrt (fadd
    (fmul (wrapDelta (Vector2f.sub pos2 pos1).x SCREEN_WIDTH)
      (wrapDelta (Vector2f.sub pos2 pos1).x SCREEN_WIDTH))
    (fmul (wrapDelta (Vector2f.sub pos2 pos1).y SCREEN_HEIGHT)
      (wrapDelta (Vector2f.sub pos2 pos1).y SCREEN_HEIGHT)))

/-- The method `EnemyUnit::findTarget` of demo1. -/
def findTarget (e : EnemyUnit) (units : List Unit) : EnemyUnit :=
  match (closestLoop calculateWrappedDistance e.position e.teamSign units).2 with
  | some closestUnit => { e with targetPosition := closestUnit.position }
  | none => e

/-- The local `directions` of demo1's `makeDecision`: N, NE, E, SE, S, SW, W, NW. -/
def directions : List Vector2f :=
  [{ x := 0, y := -1 }, { x := 1, y := -1 }, { x := 1, y := 0 }, { x := 1, y := 1 },
    { x := 0, y := 1 }, { x := -1, y := 1 }, { x := -1, y := 0 }, { x := -1, y := -1 }]

/-- The local `checkPos` of the loop: `position + dir * 20.0f`, wrapped once. -/
def checkPos (position dir : Vector2f) : Vector2f :=
  { x := wrapStep (Vector2f.add position (Vector2f.scale dir 20)).x SCREEN_WIDTH,
    y := wrapStep (Vector2f.add position (Vector2f.scale dir 20)).y SCREEN_HEIGHT }

/-- The body of the loop over `directions`; the state is `(minInfluence, bestDirection)`. -/
def scanDirection (influenceMap : InfluenceMap) (position : Vector2f)
    (acc : ℚ × Vector2f) (dir : Vector2f) : Option (ℚ × Vector2f) :=
  match getInfluenceAtPosition influenceMap (checkPos position dir) with
  | none => none
  | some influence => if influence < acc.1 then some (influence, dir) else some acc

/-- The method `EnemyUnit::makeDecision` of demo1.  `bestDirection` starts as the zero
vector of the default constructor and `minInfluence` as the largest `float`. -/
def makeDecision (e : EnemyUnit) (units : List Unit) (influenceMap : InfluenceMap) :
    Option EnemyUnit :=
  match getInfluenceAtPosition influenceMap e.position with
  | none => none
  | some currentInfluence =>
    if -1 / 2 < currentInfluence then
      match directions.foldlM (scanDirection influenceMap e.position)
          (floatMax, { x := 0, y := 0 }) with
      | none => none
      | some best =>
        some { e with targetPosition := Vector2f.add e.position (Vector2f.scale best.2 50) }
    else some (findTarget { e with state := State.Attack } units)

end Rts.Demo1

/-! ## demo5: the bytecode interpreter -/

namespace Demo5

/-- The `enum class OpCode`. -/
inductive OpCode where
  | DRAW_RECTANGLE
  | DRAW_CIRCLE
  | SET_COLOR
  | END
deriving DecidableEq

/-- The `struct Instruction`; the operands are `float`s. -/
structure Instruction where
  opCode : OpCode
  operands : List ℚ
deriving DecidableEq

/-- An `sf::Color`; each channel is the value of `static_cast<sf::Uint8>`, the
truncation of an operand that is assumed to fit. -/
structure Color where
  r : Int
  g : Int
  b : Int
  a : Int
deriving DecidableEq

/-- The constant `sf::Color::White`. -/
def Color.White : Color := { r := 255, g := 255, b := 255, a := 255 }

/-- A stored `sf::Drawable`: an `sf::RectangleShape` with its size, position and fill
colour, or an `sf::CircleShape` with its radius, position and fill colour. -/
inductive Shape where
  | rectangle (width height x y : ℚ) (fillColor : Color)
  | circle (radius x y : ℚ) (fillColor : Color)
deriving DecidableEq

/-- The state of `class BytecodeInterpreter`. -/
structure BytecodeInterpreter where
  program : List Instruction
  currentIndex : Nat
  currentColor : Color
  shapes : List Shape
deriving DecidableEq

/-- The constructor `BytecodeInterpreter(program)`. -/
def BytecodeInterpreter.new (program : List Instruction) : BytecodeInterpreter :=
  { program := program, currentIndex := 0, currentColor := Color.White, shapes := [] }

/-- The method `executeInstruction`.  Reading `program[currentIndex]` or an operand
outside its vector is undefined: `none`.  The `default` branch of the `switch` is
unreachable for the four values of the `enum`. -/
def executeInstruction (s : BytecodeInterpreter) : Option BytecodeInterpreter :=
  match s.program[s.currentIndex]? with
  | none => none
  | some instruction =>
    match instruction.opCode with
    | OpCode.DRAW_RECTANGLE =>
      match instruction.operands[0]?, instruction.operands[1]?, instruction.operands[2]?,
        instruction.operands[3]? with
      | some w, some h, some x, some y =>
        some { s with
          shapes := s.shapes ++ [Shape.rectangle w h x y s.currentColor],
          currentIndex := s.currentIndex + 1 }
      | _, _, _, _ => none
    | OpCode.DRAW_CIRCLE =>
      match instruction.operands[0]?, instruction.operands[1]?, instruction.operands[2]? with
      | some radius, some x, some y =>
        some { s with
          shapes := s.shapes ++ [Shape.circle radius x y s.currentColor],
          currentIndex := s.currentIndex + 1 }
      | _, _, _ => none
    | OpCode.SET_COLOR =>
      match instruction.operands[0]?, instruction.operands[1]?, instruction.operands[2]? with
      | some r, some g, some b =>
        some { s with
          currentColor := { r := Rts.toInt r, g := Rts.toInt g, b := Rts.toInt b, a := 255 },
          currentIndex := s.currentIndex + 1 }
      | _, _, _ => none
    | OpCode.END => some { s with currentIndex := s.program.length }

/-- How a run of the interpreter ends: the loop is left in state `s`, or the bound on
the number of iterations is reached in state `s` with the loop condition still true,
or an instruction reads outside a vector. -/
inductive Outcome where
  | finished (s : BytecodeInterpreter)
  | fuelExhausted (s : BytecodeInterpreter)
  | undefinedBehaviour
deriving DecidableEq

/-- The method `run`: `while (currentIndex < program.size()) executeInstruction();`,
with a bound `fuel` on the number of iterations. -/
def run : Nat → BytecodeInterpreter → Outcome
  | 0, s => if s.currentIndex < s.program.length then Outcome.fuelExhausted s
      else Outcome.finished s
  | fuel + 1, s =>
    if s.currentIndex < s.program.length then
      match executeInstruction s with
      | none => Outcome.undefinedBehaviour
      | some s' => run fuel s'
    else Outcome.finished s

end Demo5

/-! ## space_trader: the cargo of a ship -/

namespace SpaceTrader

/-- The value that an `int` (32 bits, two's complement) holds after an addition whose
mathematical result is `i`: `i` itself when it fits, and `i` wrapped around modulo
`2 ^ 32` otherwise, which is what the compiled program stores. -/
def wrapInt32 (i : Int) : Int := (i + 2 ^ 31) % 2 ^ 32 - 2 ^ 31

/-- The `struct CargoItem`; `quantity` is an `int` of 32 bits, held as the integer it
denotes, and the arithmetic on it is reduced with `wrapInt32`. -/
structure CargoItem where
  name : String
  quantity : Int
deriving DecidableEq

/-- The method `Ship::addCargo`, on the field `cargo` of the ship: the first item of
that name gets the quantity added, `item.quantity += quantity` in 32-bit `int`
arithmetic, and the method returns; without one, a new item is pushed back. -/
def addCargo : List CargoItem → String → Int → List CargoItem
  | [], name, quantity => [{ name := name, quantity := quantity }]
  | item :: rest, name, quantity =>
    if item.name = name then
      { item with quantity := wrapInt32 (item.quantity + quantity) } :: rest
    else item :: addCargo rest name quantity

end SpaceTrader

/-! ## Auxiliary notions for units, the interpreter and the cargo -/

namespace Rts

/-- The two `float` operations of one wraparound step on `p` are exact. -/
def ExactWrap (p : ℚ) (extent : Int) : Prop :=
  (p < 0 → rnd (p + extent) = p + extent) ∧ ((extent : ℚ) ≤ p → rnd (p - extent) = p - extent)

end Rts

namespace SpaceTrader

/-- The names of a cargo list, in order. -/
def names (cargo : List CargoItem) : List String := cargo.map (fun item => item.name)

/-- The quantity held under `name`: that of the first item of that name, `0` without one. -/
def quantityOf (cargo : List CargoItem) (name : String) : Int :=
  match cargo.find? (fun item => decide (item.name = name)) with
  | some item => item.quantity
  | none => 0

/-- The entries held under other names than `name`, in order. -/
def others (cargo : List CargoItem) (name : String) : List CargoItem :=
  cargo.filter (fun item => decide (item.name ≠ name))

end SpaceTrader

namespace Demo5

/-- The instructions of a program that precede its first `END`. -/
def beforeEnd (program : List Instruction) : List Instruction :=
  program.takeWhile (fun ins => decide (ins.opCode ≠ OpCode.END))

/-- The instruction has the operands that `executeInstruction` reads for its opcode. -/
def Instruction.WellFormed (ins : Instruction) : Prop :=
  match ins.opCode with
  | OpCode.DRAW_RECTANGLE => 4 ≤ ins.operands.length
  | OpCode.DRAW_CIRCLE => 3 ≤ ins.operands.length
  | OpCode.SET_COLOR => 3 ≤ ins.operands.length
  | OpCode.END => True

/-- The number of iterations of the loop of `run`: one for each instruction before the
first `END`, and one for that `END` when the program has one. -/
def iterations (program : List Instruction) : Nat :=
  (beforeEnd program).length + (if (beforeEnd program).length < program.length then 1 else 0)

/-- The colour set by the most recent `SET_COLOR` among the first `i` instructions of
the program, or white if there is none. -/
def colourBefore (program : List Instruction) (i : Nat) : Color :=
  match (program.take i).reverse.find? (fun ins => decide (ins.opCode = OpCode.SET_COLOR)) with
  | some ins =>
    { r := Rts.toInt (ins.operands.getD 0 0), g := Rts.toInt (ins.operands.getD 1 0),
      b := Rts.toInt (ins.operands.getD 2 0), a := 255 }
  | none => Color.White

/-- The shape that the instruction at index `i` stands for, if it is a drawing
instruction: its geometry from the operands, its fill colour `colourBefore program i`. -/
def shapeAt (program : List Instruction) (i : Nat) : Option Shape :=
  match program[i]? with
  | none => none
  | some ins =>
    match ins.opCode with
    | OpCode.DRAW_RECTANGLE =>
      some (Shape.rectangle (ins.operands.getD 0 0) (ins.operands.getD 1 0)
        (ins.operands.getD 2 0) (ins.operands.getD 3 0) (colourBefore program i))
    | OpCode.DRAW_CIRCLE =>
      some (Shape.circle (ins.operands.getD 0 0) (ins.operands.getD 1 0)
        (ins.operands.getD 2 0) (colourBefore program i))
    | OpCode.SET_COLOR => none
    | OpCode.END => none

/-- The state in which the interpreter is about to execute the instruction at index
`k`, having executed those before it. -/
def stateAt (program : List Instruction) (k : Nat) : BytecodeInterpreter :=
  { program := program, currentIndex := k, currentColor := colourBefore program k,
    shapes := (List.range k).filterMap (shapeAt program) }


/-- The state in which the loop of `run` is left: the instructions before the first
`END` have been executed and `currentIndex` is the size of the program. -/
def finalState (program : List Instruction) : BytecodeInterpreter :=
  { stateAt program (beforeEnd program).length with currentIndex := program.length }


/-- A small program: a red rectangle and a red circle, then `END`, followed by an
instruction without operands that is never reached. -/
def sampleProgram : List Instruction :=
  [{ opCode := OpCode.SET_COLOR, operands := [255, 0, 0] },
    { opCode := OpCode.DRAW_RECTANGLE, operands := [100, 50, 10, 20] },
    { opCode := OpCode.DRAW_CIRCLE, operands := [30, 200, 200] },
    { opCode := OpCode.END, operands := [] },
    { opCode := OpCode.DRAW_CIRCLE, operands := [] }]

end Demo5

namespace Rts.Demo2

/-- Builds an enemy as the constructor `EnemyUnit(pos)` of demo2 does: a unit of team
`-1` with health 100, alive, idle, not autonomous, its target its own position. -/
def mkEnemyUnit (x y : ℚ) : EnemyUnit :=
  { toUnit := mkUnit x y (-1), targetPosition := { x := x, y := y }, state := State.Idle,
    autonomous := false }

end Rts.Demo2

namespace Rts.Demo1

/-- Builds an enemy as the constructor `EnemyUnit(pos)` of demo1 does: a unit of team
`-1` with health 100, alive, idle, its target its own position. -/
def mkEnemyUnit (x y : ℚ) : EnemyUnit :=
  { toUnit := mkUnit x y (-1), targetPosition := { x := x, y := y }, state := State.Idle }

end Rts.Demo1

/-! # Properties -/

namespace Rts

theorem pow2_eq_zpow (z : Int) : pow2 z = (2 : ℚ) ^ z := by
  unfold pow2
  split
  · rename_i h
    obtain ⟨n, rfl⟩ := Int.eq_ofNat_of_zero_le h
    simp
  · rename_i h
    have h' : 0 ≤ -z := by omega
    obtain ⟨n, hn⟩ := Int.eq_ofNat_of_zero_le h'
    have : z = -(n : Int) := by omega
    subst this
    simp

theorem pow2_pos (z : Int) : 0 < pow2 z := by
  rw [pow2_eq_zpow]; positivity

theorem rnd_zero : rnd 0 = 0 := by simp [rnd, roundTo]

theorem fadd_comm (a b : ℚ) : fadd a b = fadd b a := by
  unfold fadd; rw [add_comm]

theorem roundHalfEven_neg (q : ℚ) : roundHalfEven (-q) = -roundHalfEven q := by
  unfold roundHalfEven
  by_cases hq : (⌊q⌋ : ℚ) = q
  · have h1 : ⌊-q⌋ = -⌊q⌋ := by
      rw [← hq, ← Int.cast_neg, Int.floor_intCast, Int.floor_intCast]
    rw [h1]
    have h2 : -q - ((-⌊q⌋ : Int) : ℚ) = 0 := by push_cast; rw [hq]; ring
    have h3 : q - (⌊q⌋ : ℚ) = 0 := by rw [hq]; ring
    rw [h2, h3]; norm_num
  · have hlt : (⌊q⌋ : ℚ) < q := lt_of_le_of_ne (Int.floor_le q) hq
    have hlt2 : q < ⌊q⌋ + 1 := Int.lt_floor_add_one q
    have h1 : ⌊-q⌋ = -⌊q⌋ - 1 := by
      rw [Int.floor_eq_iff]; push_cast; constructor <;> linarith
    rw [h1]
    push_cast
    by_cases c1 : q - ⌊q⌋ < 1 / 2
    · have c2 : ¬ (-q - (-(⌊q⌋ : ℚ) - 1) < 1 / 2) := by linarith
      have c3 : 1 / 2 < -q - (-(⌊q⌋ : ℚ) - 1) := by linarith
      rw [if_pos c1, if_neg c2, if_pos c3]; ring
    · by_cases c4 : 1 / 2 < q - ⌊q⌋
      · have c5 : -q - (-(⌊q⌋ : ℚ) - 1) < 1 / 2 := by linarith
        rw [if_neg c1, if_pos c4, if_pos c5]; ring
      · have c6 : ¬ (-q - (-(⌊q⌋ : ℚ) - 1) < 1 / 2) := by linarith
        have c7 : ¬ (1 / 2 < -q - (-(⌊q⌋ : ℚ) - 1)) := by linarith
        rw [if_neg c1, if_neg c4, if_neg c6, if_neg c7]
        by_cases c8 : ⌊q⌋ % 2 = 0
        · have c9 : ¬ ((-⌊q⌋ - 1) % 2 = 0) := by omega
          rw [if_pos c8, if_neg c9]; ring
        · have c9 : (-⌊q⌋ - 1) % 2 = 0 := by omega
          rw [if_neg c8, if_pos c9]; ring

theorem ilog2_neg (q : ℚ) : ilog2 (-q) = ilog2 q := by
  unfold ilog2
  simp [Rat.neg_num, Rat.neg_den, abs_neg]

theorem roundTo_neg (p : Nat) (emin : Int) (q : ℚ) : roundTo p emin (-q) = -roundTo p emin q := by
  unfold roundTo
  by_cases h : q = 0
  · simp [h]
  · have h' : -q ≠ 0 := neg_ne_zero.mpr h
    rw [if_neg h, if_neg h', ilog2_neg, neg_div, roundHalfEven_neg]
    push_cast; ring

theorem rnd_neg (q : ℚ) : rnd (-q) = -rnd q := roundTo_neg _ _ q

theorem roundHalfEven_nonneg {q : ℚ} (h : 0 ≤ q) : 0 ≤ roundHalfEven q := by
  have hf : 0 ≤ ⌊q⌋ := Int.floor_nonneg.mpr h
  unfold roundHalfEven
  split_ifs <;> omega

theorem rnd_nonneg {q : ℚ} (h : 0 ≤ q) : 0 ≤ rnd q := by
  unfold rnd roundTo
  split_ifs
  · exact le_refl 0
  · apply mul_nonneg
    · exact_mod_cast roundHalfEven_nonneg (div_nonneg h (pow2_pos _).le)
    · exact (pow2_pos _).le

theorem pow2_add (a b : Int) : pow2 (a + b) = pow2 a * pow2 b := by
  simp only [pow2_eq_zpow]; exact zpow_add₀ (by norm_num) a b

theorem pow2_le_pow2 {a b : Int} (h : a ≤ b) : pow2 a ≤ pow2 b := by
  simp only [pow2_eq_zpow]; exact zpow_le_zpow_right₀ (by norm_num) h

theorem pow2_lt_pow2_iff {a b : Int} : pow2 a < pow2 b ↔ a < b := by
  simp only [pow2_eq_zpow]; exact zpow_lt_zpow_iff_right₀ (by norm_num)

theorem pow2_natCast (n : Nat) : pow2 (n : Int) = ((2 ^ n : Nat) : ℚ) := by
  rw [pow2_eq_zpow]; simp

theorem bitLen_spec (f : Nat) : ∀ n : Nat, n ≤ f →
    n < 2 ^ bitLen f n ∧ (n ≠ 0 → 2 ^ bitLen f n ≤ 2 * n) := by
  induction f with
  | zero =>
    intro n hn
    have : n = 0 := by omega
    subst this
    simp [bitLen]
  | succ f ih =>
    intro n hn
    unfold bitLen
    by_cases h0 : n = 0
    · subst h0; simp
    · rw [if_neg h0]
      have hle : n / 2 ≤ f := by omega
      obtain ⟨h1, h2⟩ := ih (n / 2) hle
      rw [pow_succ]
      constructor
      · omega
      · intro _
        by_cases h3 : n / 2 = 0
        · have hn1 : n = 1 := by omega
          subst hn1
          simp [bitLen]
          cases f <;> simp [bitLen]
        · have := h2 h3
          omega

theorem ilog2_spec {q : ℚ} (hq : q ≠ 0) : pow2 (ilog2 q) ≤ |q| ∧ |q| < pow2 (ilog2 q + 1) := by
  have hn0 : q.num.natAbs ≠ 0 := by
    simpa using hq
  have hd0 : q.den ≠ 0 := q.den_nz
  obtain ⟨hn1, hn2⟩ := bitLen_spec q.num.natAbs q.num.natAbs le_rfl
  obtain ⟨hd1, hd2⟩ := bitLen_spec q.den q.den le_rfl
  have hn2 := hn2 hn0
  have hd2 := hd2 hd0
  have habs : |q| = (q.num.natAbs : ℚ) / (q.den : ℚ) := by
    conv_lhs => rw [← Rat.num_div_den q]
    rw [abs_div, Nat.abs_cast, Nat.cast_natAbs, Int.cast_abs]
  have hdpos : (0 : ℚ) < q.den := by exact_mod_cast Nat.pos_of_ne_zero hd0
  set bn := bitLen q.num.natAbs q.num.natAbs with hbn
  set bd := bitLen q.den q.den with hbd
  have hn1q : (q.num.natAbs : ℚ) < pow2 bn := by rw [pow2_natCast]; exact_mod_cast hn1
  have hn2q : pow2 bn ≤ 2 * (q.num.natAbs : ℚ) := by rw [pow2_natCast]; exact_mod_cast hn2
  have hd1q : (q.den : ℚ) < pow2 bd := by rw [pow2_natCast]; exact_mod_cast hd1
  have hd2q : pow2 bd ≤ 2 * (q.den : ℚ) := by rw [pow2_natCast]; exact_mod_cast hd2
  have hup : |q| < pow2 ((bn : Int) - bd + 1) := by
    have e : pow2 ((bn : Int) - bd + 1) * pow2 bd = 2 * pow2 bn := by
      rw [← pow2_add]
      have : (bn : Int) - bd + 1 + bd = 1 + bn := by ring
      rw [this, pow2_add]
      norm_num [pow2]
    rw [habs, div_lt_iff₀ hdpos]
    have hp := pow2_pos ((bn : Int) - bd + 1)
    nlinarith
  have hlo : pow2 ((bn : Int) - bd - 1) ≤ |q| := by
    have e : pow2 ((bn : Int) - bd - 1) * (2 * pow2 bd) = pow2 bn := by
      have h2 : (2 : ℚ) = pow2 1 := by norm_num [pow2]
      rw [h2, ← pow2_add, ← pow2_add]
      congr 1; ring
    rw [habs, le_div_iff₀ hdpos]
    have hp := pow2_pos ((bn : Int) - bd - 1)
    nlinarith
  unfold ilog2
  simp only [← hbn, ← hbd]
  split_ifs with h
  · exact ⟨h, hup⟩
  · refine ⟨hlo, ?_⟩
    have : (bn : Int) - bd - 1 + 1 = bn - bd := by ring
    rw [this]
    exact lt_of_not_le h

theorem roundHalfEven_intCast (n : Int) : roundHalfEven (n : ℚ) = n := by
  unfold roundHalfEven
  simp

theorem le_roundHalfEven {n : Int} {q : ℚ} (h : (n : ℚ) ≤ q) : n ≤ roundHalfEven q := by
  have hf : n ≤ ⌊q⌋ := Int.le_floor.mpr h
  unfold roundHalfEven
  split_ifs <;> omega

theorem roundHalfEven_le {n : Int} {q : ℚ} (h : q ≤ (n : ℚ)) : roundHalfEven q ≤ n := by
  have h' : ((-n : Int) : ℚ) ≤ -q := by push_cast; linarith
  have := le_roundHalfEven h'
  rw [roundHalfEven_neg] at this
  omega

theorem roundTo_of_repr (p : Nat) (emin m e : Int) (hm : |m| < 2 ^ p)
    (he : emin - (p - 1) ≤ e) : roundTo p emin ((m : ℚ) * pow2 e) = (m : ℚ) * pow2 e := by
  unfold roundTo
  by_cases h0 : (m : ℚ) * pow2 e = 0
  · rw [if_pos h0, h0]
  · rw [if_neg h0]
    obtain ⟨hlo, -⟩ := ilog2_spec h0
    set E := ilog2 ((m : ℚ) * pow2 e) with hE
    have hmq : |(m : ℚ)| < pow2 p := by
      rw [pow2_natCast]
      have : ((|m| : Int) : ℚ) < (((2 : Int) ^ p : Int) : ℚ) := Int.cast_lt.mpr hm
      simpa using this
    have hlt : pow2 E < pow2 (p + e) := by
      calc pow2 E ≤ |(m : ℚ) * pow2 e| := hlo
        _ = |(m : ℚ)| * pow2 e := by rw [abs_mul, abs_of_pos (pow2_pos e)]
        _ < pow2 p * pow2 e := by
            exact mul_lt_mul_of_pos_right hmq (pow2_pos e)
        _ = pow2 (p + e) := by rw [pow2_add]
    have hEe : E < p + e := pow2_lt_pow2_iff.mp hlt
    have hk : 0 ≤ e - (max E emin - (p - 1)) := by
      rcases max_cases E emin with ⟨h1, _⟩ | ⟨h1, _⟩ <;> rw [h1] <;> omega
    obtain ⟨k, hk'⟩ := Int.eq_ofNat_of_zero_le hk
    have hsplit : pow2 e = pow2 (k : Int) * pow2 (max E emin - (p - 1)) := by
      rw [← pow2_add]; congr 1; omega
    have hdiv : (m : ℚ) * pow2 e / pow2 (max E emin - (p - 1)) = ((m * 2 ^ k : Int) : ℚ) := by
      rw [hsplit, pow2_natCast]
      have := (pow2_pos (max E emin - (p - 1))).ne'
      field_simp
      ring
    rw [hdiv, roundHalfEven_intCast, hsplit, pow2_natCast]
    push_cast; ring

theorem abs_roundHalfEven_le {n : Int} {q : ℚ} (h : |q| ≤ (n : ℚ)) : |roundHalfEven q| ≤ n := by
  rw [abs_le] at h ⊢
  constructor
  · apply le_roundHalfEven; push_cast; linarith
  · apply roundHalfEven_le; linarith

theorem roundTo_idem (p : Nat) (emin : Int) (hp : 1 ≤ p) (q : ℚ) :
    roundTo p emin (roundTo p emin q) = roundTo p emin q := by
  by_cases h0 : q = 0
  · subst h0; simp [roundTo]
  · have hr : roundTo p emin q =
        (roundHalfEven (q / pow2 (max (ilog2 q) emin - (p - 1))) : ℚ)
          * pow2 (max (ilog2 q) emin - (p - 1)) := by
      unfold roundTo; rw [if_neg h0]
    obtain ⟨-, hhi⟩ := ilog2_spec h0
    set X := max (ilog2 q) emin - (p - 1) with hX
    set M := roundHalfEven (q / pow2 X) with hM
    have hXE : ilog2 q + 1 ≤ X + p := by
      have := le_max_left (ilog2 q) emin
      omega
    have hXm : emin - (p - 1) ≤ X := by
      have := le_max_right (ilog2 q) emin
      omega
    have hqX : |q / pow2 X| ≤ (((2 : Int) ^ p : Int) : ℚ) := by
      rw [abs_div, abs_of_pos (pow2_pos X), div_le_iff₀ (pow2_pos X)]
      have h1 : pow2 (ilog2 q + 1) ≤ pow2 (X + p) := pow2_le_pow2 hXE
      have h2 : pow2 (X + p) = (((2 : Int) ^ p : Int) : ℚ) * pow2 X := by
        rw [add_comm, pow2_add, pow2_natCast]; push_cast; ring
      linarith
    have hMle : |M| ≤ 2 ^ p := abs_roundHalfEven_le hqX
    rw [hr]
    rcases lt_or_eq_of_le hMle with hlt | heq
    · exact roundTo_of_repr p emin M X hlt hXm
    · -- the significand overflowed to `2 ^ p`: renormalise
      obtain ⟨p', rfl⟩ : ∃ p', p = p' + 1 := ⟨p - 1, by omega⟩
      have hMform : (M : ℚ) * pow2 X = ((M / 2 : Int) : ℚ) * pow2 (X + 1) := by
        have h2 : M = 2 * (M / 2) := by
          rcases abs_cases M with ⟨h, _⟩ | ⟨h, _⟩
          · rw [h] at heq; rw [heq, pow_succ]; omega
          · have : M = -(2 ^ (p' + 1)) := by omega
            rw [this, pow_succ]; omega
        rw [pow2_add]
        have h1 : pow2 1 = 2 := by norm_num [pow2]
        rw [h1]
        conv_lhs => rw [h2]
        push_cast; ring
      rw [hMform]
      apply roundTo_of_repr
      · have h3 : |M / 2| * 2 = |M| := by
          rcases abs_cases M with ⟨h, _⟩ | ⟨h, _⟩
          · rw [h] at heq
            have : M / 2 = 2 ^ p' := by rw [heq, pow_succ]; omega
            rw [this, h, heq, pow_succ, abs_of_pos (by positivity)]
          · have hM2 : M = -(2 ^ (p' + 1)) := by omega
            have : M / 2 = -(2 ^ p') := by rw [hM2, pow_succ]; omega
            rw [this, h, hM2, pow_succ, abs_neg, abs_of_pos (by positivity)]; ring
        rw [heq, pow_succ] at h3
        have : (0 : Int) < 2 ^ p' := by positivity
        omega
      · omega

theorem rnd_idem (q : ℚ) : rnd (rnd q) = rnd q := roundTo_idem 24 (-126) (by norm_num) q

theorem rnd_pos {q : ℚ} (h : pow2 (-149) ≤ q) : 0 < rnd q := by
  have hq : 0 < q := lt_of_lt_of_le (pow2_pos _) h
  unfold rnd roundTo
  rw [if_neg hq.ne']
  obtain ⟨hlo, -⟩ := ilog2_spec hq.ne'
  rw [abs_of_pos hq] at hlo
  have hu : pow2 (max (ilog2 q) (-126) - ((24 : Nat) - 1)) ≤ q := by
    rcases max_cases (ilog2 q) (-126) with ⟨h1, _⟩ | ⟨h1, _⟩ <;> rw [h1]
    · exact le_trans (pow2_le_pow2 (by push_cast; omega)) hlo
    · exact le_trans (pow2_le_pow2 (by norm_num)) h
  have h1 : ((1 : Int) : ℚ) ≤ q / pow2 (max (ilog2 q) (-126) - ((24 : Nat) - 1)) := by
    rw [le_div_iff₀ (pow2_pos _)]; simpa using hu
  have h2 := le_roundHalfEven h1
  apply mul_pos
  · exact_mod_cast (by omega : 0 < roundHalfEven (q / pow2 (max (ilog2 q) (-126) - ((24 : Nat) - 1))))
  · exact pow2_pos _

theorem rnd_intCast {i : Int} (h : |i| < 2 ^ 24) : rnd (i : ℚ) = i := by
  have := roundTo_of_repr 24 (-126) i 0 h (by norm_num)
  have h1 : pow2 0 = 1 := by norm_num [pow2]
  rw [h1, mul_one] at this
  exact this

theorem rnd_half_odd {i : Int} (h : |i| < 2 ^ 24) : rnd ((i : ℚ) / 2) = (i : ℚ) / 2 := by
  have := roundTo_of_repr 24 (-126) i (-1) h (by norm_num)
  have h1 : pow2 (-1) = 1 / 2 := by rw [pow2_eq_zpow]; norm_num
  rw [h1] at this
  have e : (i : ℚ) / 2 = (i : ℚ) * (1 / 2) := by ring
  rw [e]
  exact this

theorem rowSize_of_rect {g : List (List ℚ)} {rows cols : Nat} (h : Rect g rows cols)
    (hr : 0 < rows) : rowSize g = some cols := by
  obtain ⟨hl, hc⟩ := h
  unfold rowSize
  cases g with
  | nil => simp at hl; omega
  | cons row rest => simp [hc row (by simp)]

theorem cellAt_isSome_of_rect {g : List (List ℚ)} {rows cols r c : Nat} (h : Rect g rows cols)
    (hr : r < rows) (hc : c < cols) : ∃ v, cellAt g r c = some v := by
  obtain ⟨hl, hcs⟩ := h
  have hr' : r < g.length := by omega
  have hrow : g[r]? = some g[r] := List.getElem?_eq_getElem hr'
  have hlen : g[r].length = cols := hcs _ (List.getElem_mem _)
  have hc' : c < g[r].length := by omega
  exact ⟨g[r][c], by simp [cellAt, hrow, List.getElem?_eq_getElem hc']⟩

theorem cellAt_eq_none_of_row {g : List (List ℚ)} {r c : Nat} (h : g.length ≤ r) :
    cellAt g r c = none := by
  simp [cellAt, List.getElem?_eq_none h]

theorem cellAt_none_of_rect {g : List (List ℚ)} {rows cols r c : Nat} (h : Rect g rows cols)
    (hrc : rows ≤ r ∨ cols ≤ c) : cellAt g r c = none := by
  obtain ⟨hl, hcs⟩ := h
  unfold cellAt
  cases hg : g[r]? with
  | none => rfl
  | some row =>
    have hmem : row ∈ g := List.getElem?_mem hg
    have hlen := hcs row hmem
    have hr' : r < g.length := by
      by_contra hcon
      rw [List.getElem?_eq_none (by omega)] at hg
      cases hg
    rcases hrc with h1 | h1
    · omega
    · simp [List.getElem?_eq_none (by omega : row.length ≤ c)]

theorem addAt_spec {g : List (List ℚ)} {rows cols r c : Nat} (v : ℚ) (h : Rect g rows cols)
    (hr : r < rows) (hc : c < cols) :
    ∃ g', addAt g r c v = some g' ∧ Rect g' rows cols ∧
      ∀ r' c', cellAt g' r' c' =
        if r' = r ∧ c' = c then (cellAt g r c).map (fun old => fadd old v) else cellAt g r' c' := by
  obtain ⟨hl, hcs⟩ := h
  have hr' : r < g.length := by omega
  have hrow : g[r]? = some g[r] := List.getElem?_eq_getElem hr'
  have hlen : g[r].length = cols := hcs _ (List.getElem_mem _)
  have hc' : c < g[r].length := by omega
  have hcell : g[r][c]? = some g[r][c] := List.getElem?_eq_getElem hc'
  refine ⟨g.set r (g[r].set c (fadd g[r][c] v)), ?_, ?_, ?_⟩
  · simp [addAt, hrow, hcell]
  · refine ⟨by simp [hl], ?_⟩
    intro row hmem
    rcases List.mem_or_eq_of_mem_set hmem with h1 | h1
    · exact hcs row h1
    · rw [h1, List.length_set]; exact hlen
  · intro r' c'
    unfold cellAt
    by_cases e1 : r' = r
    · subst e1
      rw [List.getElem?_set_self hr', hrow]
      by_cases e2 : c' = c
      · subst e2
        simp [List.getElem?_set_self hc', hcell]
      · have : ¬ (r' = r' ∧ c' = c) := fun hh => e2 hh.2
        rw [if_neg this]
        simp [List.getElem?_set_ne (Ne.symm e2)]
    · have : ¬ (r' = r ∧ c' = c) := fun hh => e1 hh.1
      rw [if_neg this, List.getElem?_set_ne (Ne.symm e1)]

theorem applyHits_nil (g : List (List ℚ)) : applyHits g [] = some g := rfl

theorem applyHits_cons (g : List (List ℚ)) (h : Hit) (hs : List Hit) :
    applyHits g (h :: hs) = (addAt g h.cellY h.cellX h.value).bind (fun g' => applyHits g' hs) := by
  simp [applyHits, List.foldlM_cons]

theorem applyHits_append (g : List (List ℚ)) (hs hs' : List Hit) :
    applyHits g (hs ++ hs') = (applyHits g hs).bind (fun g' => applyHits g' hs') := by
  simp [applyHits, List.foldlM_append]

theorem valuesAt_nil (r c : Nat) : valuesAt [] r c = [] := rfl

theorem valuesAt_cons (h : Hit) (hs : List Hit) (r c : Nat) :
    valuesAt (h :: hs) r c =
      if h.cellY = r ∧ h.cellX = c then h.value :: valuesAt hs r c else valuesAt hs r c := by
  unfold valuesAt
  by_cases e : h.cellY = r ∧ h.cellX = c
  · simp [List.filter_cons, e]
  · simp [List.filter_cons, e]

theorem valuesAt_append (hs hs' : List Hit) (r c : Nat) :
    valuesAt (hs ++ hs') r c = valuesAt hs r c ++ valuesAt hs' r c := by
  simp [valuesAt]

theorem valuesAt_flatMap {α : Type} (l : List α) (f : α → List Hit) (r c : Nat) :
    valuesAt (l.flatMap f) r c = l.flatMap (fun a => valuesAt (f a) r c) := by
  induction l with
  | nil => rfl
  | cons a l ih => simp [List.flatMap_cons, valuesAt_append, ih]

theorem applyHits_spec (hs : List Hit) : ∀ {g : List (List ℚ)} {rows cols : Nat},
    Rect g rows cols → (∀ h ∈ hs, h.cellY < rows ∧ h.cellX < cols) →
    ∃ g', applyHits g hs = some g' ∧ Rect g' rows cols ∧
      ∀ r c, cellAt g' r c = (cellAt g r c).map (fun old => (valuesAt hs r c).foldl fadd old) := by
  induction hs with
  | nil =>
    intro g rows cols hg _
    exact ⟨g, rfl, hg, fun r c => by simp [valuesAt_nil]⟩
  | cons h hs ih =>
    intro g rows cols hg hin
    obtain ⟨hy, hx⟩ := hin h (by simp)
    obtain ⟨g1, e1, hg1, hc1⟩ := addAt_spec h.value hg hy hx
    obtain ⟨g2, e2, hg2, hc2⟩ := ih hg1 (fun h' hm => hin h' (by simp [hm]))
    refine ⟨g2, ?_, hg2, ?_⟩
    · rw [applyHits_cons, e1]; exact e2
    · intro r c
      rw [hc2, hc1, valuesAt_cons]
      by_cases e : h.cellY = r ∧ h.cellX = c
      · obtain ⟨rfl, rfl⟩ := e
        simp
        cases cellAt g h.cellY h.cellX <;> simp
      · have e' : ¬ (r = h.cellY ∧ c = h.cellX) := fun hh => e ⟨hh.1.symm, hh.2.symm⟩
        rw [if_neg e, if_neg e']

theorem foldlM_eq_applyHits {α : Type} {rows cols : Nat}
    (f : List (List ℚ) → α → Option (List (List ℚ))) (hit : α → Option Hit)
    (hf : ∀ g, Rect g rows cols → ∀ x, f g x =
      match hit x with
      | some h => addAt g h.cellY h.cellX h.value
      | none => some g)
    (hin : ∀ x h, hit x = some h → h.cellY < rows ∧ h.cellX < cols) (xs : List α) :
    ∀ g, Rect g rows cols → xs.foldlM f g = applyHits g (xs.filterMap hit) := by
  induction xs with
  | nil => intro g _; rfl
  | cons x xs ih =>
    intro g hg
    rw [List.foldlM_cons, hf g hg x]
    cases hx : hit x with
    | none =>
      simp only [List.filterMap_cons, hx]
      exact ih g hg
    | some h =>
      simp only [List.filterMap_cons, hx]
      rw [applyHits_cons]
      obtain ⟨hy, hx'⟩ := hin x h hx
      obtain ⟨g1, e1, hg1, -⟩ := addAt_spec h.value hg hy hx'
      rw [e1]
      exact ih g1 hg1

theorem foldlM_eq_applyHits_flatMap {β : Type} {rows cols : Nat}
    (F : List (List ℚ) → β → Option (List (List ℚ))) (H : β → List Hit)
    (hF : ∀ g, Rect g rows cols → ∀ y, F g y = applyHits g (H y))
    (hin : ∀ y, ∀ h ∈ H y, h.cellY < rows ∧ h.cellX < cols) (ys : List β) :
    ∀ g, Rect g rows cols → ys.foldlM F g = applyHits g (ys.flatMap H) := by
  induction ys with
  | nil => intro g _; rfl
  | cons y ys ih =>
    intro g hg
    rw [List.foldlM_cons, hF g hg y, List.flatMap_cons, applyHits_append]
    obtain ⟨g1, e1, hg1, -⟩ := applyHits_spec (H y) hg (hin y)
    rw [e1]
    exact ih g1 hg1

theorem resetMap_rect {g : List (List ℚ)} {rows cols : Nat} (h : Rect g rows cols) :
    Rect (resetMap g) rows cols := by
  obtain ⟨hl, hcs⟩ := h
  refine ⟨by simp [resetMap, hl], ?_⟩
  intro row hmem
  simp only [resetMap, List.mem_map] at hmem
  obtain ⟨row0, h0, rfl⟩ := hmem
  simp [hcs row0 h0]

theorem cellAt_resetMap {g : List (List ℚ)} {rows cols r c : Nat} (h : Rect g rows cols)
    (hr : r < rows) (hc : c < cols) : cellAt (resetMap g) r c = some 0 := by
  obtain ⟨hl, hcs⟩ := h
  have hr' : r < g.length := by omega
  have hlen : g[r].length = cols := hcs _ (List.getElem_mem _)
  have hc' : c < g[r].length := by omega
  simp [cellAt, resetMap, List.getElem?_eq_getElem hr', List.getElem?_replicate, hc']

theorem foldlM_units_eq {rows cols : Nat} (m : InfluenceMap)
    (apply : InfluenceMap → Unit → Option InfluenceMap) (H : Unit → List Hit)
    (hA : ∀ g, Rect g rows cols → ∀ u, apply { m with mapData := g } u =
      (applyHits g (H u)).map (fun g' => { m with mapData := g' }))
    (hin : ∀ u, ∀ h ∈ H u, h.cellY < rows ∧ h.cellX < cols) (units : List Unit) :
    ∀ g, Rect g rows cols → units.foldlM apply { m with mapData := g } =
      (applyHits g (units.flatMap H)).map (fun g' => { m with mapData := g' }) := by
  induction units with
  | nil => intro g _; rfl
  | cons u units ih =>
    intro g hg
    rw [List.foldlM_cons, hA g hg u, List.flatMap_cons, applyHits_append]
    obtain ⟨g1, e1, hg1, -⟩ := applyHits_spec (H u) hg (hin u)
    rw [e1]
    exact ih g1 hg1

end Rts

namespace Rts.Demo2

theorem hit_inRange_clamp {teamSign unitX unitY : Int} {rows cols : Nat} {y x : Int} {h : Hit}
    (e : hit teamSign unitX unitY rows cols y x = some h) : h.cellY < rows ∧ h.cellX < cols := by
  unfold hit at e
  split_ifs at e with hc
  cases e
  simp only
  omega

theorem hits_inRange_clamp (teamSign unitX unitY : Int) (rows cols : Nat) :
    ∀ h ∈ hits teamSign unitX unitY rows cols, h.cellY < rows ∧ h.cellX < cols := by
  intro h hm
  simp only [hits, List.mem_flatMap, List.mem_filterMap] at hm
  obtain ⟨y, -, x, -, e⟩ := hm
  exact hit_inRange_clamp e

theorem applyCell_eq_clamp {g : List (List ℚ)} {rows cols : Nat} (hg : Rect g rows cols)
    (hr : 0 < rows) (teamSign unitX unitY y x : Int) :
    applyCell teamSign unitX unitY y g x =
      match hit teamSign unitX unitY rows cols y x with
      | some h => addAt g h.cellY h.cellX h.value
      | none => some g := by
  unfold applyCell hit
  rw [rowSize_of_rect hg hr, hg.1]
  by_cases h1 : unitX + x < 0
  · rw [if_pos h1, if_neg (by omega)]
  · rw [if_neg h1]
    simp only
    by_cases h2 : (cols : Int) ≤ unitX + x
    · rw [if_pos h2, if_neg (by omega)]
    · rw [if_neg h2]
      by_cases h3 : unitY + y < 0
      · rw [if_pos h3, if_neg (by omega)]
      · rw [if_neg h3]
        by_cases h4 : (rows : Int) ≤ unitY + y
        · rw [if_pos h4, if_neg (by omega)]
        · rw [if_neg h4]
          by_cases h5 : distance x y ≤ ofInt influenceRadius
          · rw [if_pos h5, if_pos ⟨by omega, by omega, by omega, by omega, h5⟩]
          · rw [if_neg h5, if_neg (fun hh => h5 hh.2.2.2.2)]

theorem applyInfluence_eq_clamp (m : InfluenceMap) {rows cols : Nat} (hr : 0 < rows)
    (hcs : m.cellSize ≠ 0) (g : List (List ℚ)) (hg : Rect g rows cols) (u : Unit) :
    applyInfluence { m with mapData := g } u =
      (applyHits g (hits u.teamSign (coord u.position.x m.cellSize)
        (coord u.position.y m.cellSize) rows cols)).map (fun g' => { m with mapData := g' }) := by
  unfold applyInfluence cellCoord
  simp only [if_neg hcs]
  congr 1
  unfold hits
  apply foldlM_eq_applyHits_flatMap _ _ _ _ offsets g hg
  · intro g1 hg1 y
    exact foldlM_eq_applyHits _ _ (fun g2 hg2 x => applyCell_eq_clamp hg2 hr _ _ _ y x)
      (fun x h e => hit_inRange_clamp e) offsets g1 hg1
  · intro y h hm
    simp only [List.mem_filterMap] at hm
    obtain ⟨x, -, e⟩ := hm
    exact hit_inRange_clamp e

/-- All increments of one call of demo2's `update`, in order. -/
theorem update_eq_clamp (m : InfluenceMap) {rows cols : Nat} (hr : 0 < rows)
    (hcs : m.cellSize ≠ 0) (hg : Rect m.mapData rows cols) (units : List Unit) :
    update m units =
      (applyHits (resetMap m.mapData) (units.flatMap (fun u =>
        hits u.teamSign (coord u.position.x m.cellSize) (coord u.position.y m.cellSize)
          rows cols))).map (fun g' => { m with mapData := g' }) := by
  unfold update
  exact foldlM_units_eq m applyInfluence _
    (fun g hg1 u => applyInfluence_eq_clamp m hr hcs g hg1 u)
    (fun u => hits_inRange_clamp _ _ _ _ _) units _ (resetMap_rect hg)

end Rts.Demo2

namespace Rts

theorem offsets_eq : offsets = [-3, -2, -1, 0, 1, 2, 3] := by decide

theorem mem_offsets {x : Int} : x ∈ offsets ↔ -3 ≤ x ∧ x ≤ 3 := by
  rw [offsets_eq]
  simp only [List.mem_cons, List.mem_singleton, List.not_mem_nil, or_false]
  omega

theorem offsets_nodup : offsets.Nodup := by
  rw [offsets_eq]; decide

/-- The radius test and the least increment, checked on the 49 offsets of the loops. -/
theorem offsets_table :
    ∀ x ∈ offsets, ∀ y ∈ offsets,
      (distance x y ≤ ofInt influenceRadius ↔ x * x + y * y ≤ 9) ∧
        (distance x y ≤ ofInt influenceRadius → 1 / 4 ≤ influenceValue 1 x y) := by
  decide!

theorem distance_le_iff_all :
    ∀ x ∈ offsets, ∀ y ∈ offsets,
      (distance x y ≤ ofInt influenceRadius ↔ x * x + y * y ≤ 9) :=
  fun x hx y hy => (offsets_table x hx y hy).1

theorem filterMap_single {α γ : Type} [DecidableEq α] (l : List α) (hl : l.Nodup) (a : α)
    (Q : α → Prop) [DecidablePred Q] (g : α → γ) :
    l.filterMap (fun x => if x = a ∧ Q x then some (g x) else none) =
      if a ∈ l ∧ Q a then [g a] else [] := by
  induction l with
  | nil => simp
  | cons x l ih =>
    rw [List.nodup_cons] at hl
    rw [List.filterMap_cons, ih hl.2]
    by_cases hx : x = a
    · subst hx
      by_cases hq : Q x
      · simp [hq, hl.1]
      · simp [hq]
    · have : ¬ (x = a ∧ Q x) := fun h => hx h.1
      simp only [if_neg this, List.mem_cons]
      have hne : ¬ a = x := fun h => hx h.symm
      simp [hne]

theorem flatMap_single {β γ : Type} [DecidableEq β] (l : List β) (hl : l.Nodup) (b : β)
    (F : β → List γ) :
    l.flatMap (fun y => if y = b then F y else []) = if b ∈ l then F b else [] := by
  induction l with
  | nil => simp
  | cons y l ih =>
    rw [List.nodup_cons] at hl
    rw [List.flatMap_cons, ih hl.2]
    by_cases hy : y = b
    · subst hy
      simp [hl.1]
    · have hne : ¬ b = y := fun h => hy h.symm
      simp [hy, hne]

theorem flatMap_filterMap_single {α β γ : Type} [DecidableEq α] [DecidableEq β]
    (l : List β) (l' : List α) (hl : l.Nodup) (hl' : l'.Nodup) (a : α) (b : β)
    (P : α → β → Prop) [∀ x y, Decidable (P x y)] (f : α → β → γ) :
    l.flatMap (fun y => l'.filterMap
      (fun x => if x = a ∧ y = b ∧ P x y then some (f x y) else none)) =
      if a ∈ l' ∧ b ∈ l ∧ P a b then [f a b] else [] := by
  have h1 : ∀ y, l'.filterMap (fun x => if x = a ∧ y = b ∧ P x y then some (f x y) else none) =
      if y = b then (if a ∈ l' ∧ P a y then [f a y] else []) else [] := by
    intro y
    rw [filterMap_single l' hl' a (fun x => y = b ∧ P x y) (fun x => f x y)]
    by_cases hy : y = b
    · simp [hy]
    · simp [hy]
  simp only [h1]
  rw [flatMap_single l hl b (fun y => if a ∈ l' ∧ P a y then [f a y] else [])]
  by_cases hb : b ∈ l
  · by_cases ha : a ∈ l' <;> simp [hb, ha]
  · simp [hb]

theorem valuesAt_filterMap {α : Type} (l : List α) (f : α → Option Hit) (r c : Nat) :
    valuesAt (l.filterMap f) r c =
      l.filterMap (fun x => (f x).bind
        (fun h => if h.cellY = r ∧ h.cellX = c then some h.value else none)) := by
  induction l with
  | nil => rfl
  | cons x l ih =>
    simp only [List.filterMap_cons]
    cases hx : f x with
    | none => simpa using ih
    | some h =>
      simp only [Option.some_bind]
      rw [valuesAt_cons, ih]
      by_cases e : h.cellY = r ∧ h.cellX = c
      · simp [e]
      · simp [e]

theorem distance_le_iff {x y : Int} :
    (x ∈ offsets ∧ y ∈ offsets ∧ distance x y ≤ ofInt influenceRadius) ↔ x * x + y * y ≤ 9 := by
  constructor
  · rintro ⟨hx, hy, hd⟩
    exact (distance_le_iff_all x hx y hy).mp hd
  · intro h
    have hx : x ∈ offsets := by rw [mem_offsets]; constructor <;> nlinarith
    have hy : y ∈ offsets := by rw [mem_offsets]; constructor <;> nlinarith
    exact ⟨hx, hy, (distance_le_iff_all x hx y hy).mpr h⟩

end Rts

namespace Rts.Demo2

/-- The values that one call of demo2's `applyInfluence` adds to a cell of the grid. -/
theorem valuesAt_hits_clamp (teamSign unitX unitY : Int) {rows cols r c : Nat}
    (hr : r < rows) (hc : c < cols) :
    valuesAt (hits teamSign unitX unitY rows cols) r c =
      if ((c : Int) - unitX) * ((c : Int) - unitX) + ((r : Int) - unitY) * ((r : Int) - unitY) ≤ 9
      then [influenceValue teamSign ((c : Int) - unitX) ((r : Int) - unitY)] else [] := by
  unfold hits
  rw [valuesAt_flatMap]
  simp only [valuesAt_filterMap]
  have hpt : ∀ y x : Int, (hit teamSign unitX unitY rows cols y x).bind
      (fun h => if h.cellY = r ∧ h.cellX = c then some h.value else none) =
      if x = (c : Int) - unitX ∧ y = (r : Int) - unitY ∧ distance x y ≤ ofInt influenceRadius
      then some (influenceValue teamSign x y) else none := by
    intro y x
    unfold hit
    by_cases hb : 0 ≤ unitX + x ∧ unitX + x < cols ∧ 0 ≤ unitY + y ∧ unitY + y < rows ∧
        distance x y ≤ ofInt influenceRadius
    · rw [if_pos hb]
      simp only [Option.some_bind]
      by_cases ht : (unitY + y).toNat = r ∧ (unitX + x).toNat = c
      · rw [if_pos ht, if_pos ⟨by omega, by omega, hb.2.2.2.2⟩]
      · rw [if_neg ht, if_neg]
        rintro ⟨h1, h2, -⟩
        apply ht
        constructor <;> omega
    · rw [if_neg hb]
      simp only [Option.none_bind]
      rw [if_neg]
      rintro ⟨h1, h2, h3⟩
      apply hb
      exact ⟨by omega, by omega, by omega, by omega, h3⟩
  simp only [hpt]
  rw [flatMap_filterMap_single offsets offsets offsets_nodup offsets_nodup ((c : Int) - unitX)
    ((r : Int) - unitY) (fun x y => distance x y ≤ ofInt influenceRadius)
    (fun x y => influenceValue teamSign x y)]
  simp only [distance_le_iff]

end Rts.Demo2

namespace Rts

theorem toInt_of_nonneg {q : ℚ} (h : 0 ≤ q) : toInt q = ⌊q⌋ := by
  unfold toInt
  rw [Rat.floor_def]
  have hn : 0 ≤ q.num := Rat.num_nonneg.mpr h
  exact Int.tdiv_eq_ediv hn (by positivity)

theorem coord_eq_divCell {p : ℚ} {cellSize : Int} (hp : 0 ≤ p) (hc : 0 ≤ cellSize) :
    coord p cellSize = divCell p cellSize := by
  unfold coord divCell
  apply toInt_of_nonneg
  unfold fdiv
  apply rnd_nonneg
  apply div_nonneg hp
  unfold ofInt
  apply rnd_nonneg
  exact_mod_cast hc

theorem flatMap_ite_singleton {α β : Type} (l : List α) (P : α → Prop) [DecidablePred P]
    (f : α → β) :
    l.flatMap (fun u => if P u then [f u] else []) = (l.filter (fun u => decide (P u))).map f := by
  induction l with
  | nil => rfl
  | cons a l ih =>
    rw [List.flatMap_cons, ih, List.filter_cons]
    by_cases h : P a <;> simp [h]

theorem InfluenceMap.Valid.rect {m : InfluenceMap} (h : m.Valid) :
    Rect m.mapData m.rows m.cols := h.2.2.2.2.2

theorem InfluenceMap.Valid.cellSize_ne {m : InfluenceMap} (h : m.Valid) : m.cellSize ≠ 0 :=
  ne_of_gt h.1

theorem demoMap_valid : demoMap.Valid := by
  refine ⟨by decide, by decide, by decide, by decide, by decide, by decide, ?_⟩
  intro row hrow
  simp only [demoMap, List.mem_replicate] at hrow
  rw [hrow.2]; rfl

end Rts

namespace Rts.Demo2

/-- The grid after demo2's `update`, cell by cell, on any rectangular grid with a row. -/
theorem update_spec_clamp (m : InfluenceMap) {rows cols : Nat} (hr : 0 < rows)
    (hcs : m.cellSize ≠ 0) (hg : Rect m.mapData rows cols) (units : List Unit) :
    ∃ g, update m units = some { m with mapData := g } ∧ Rect g rows cols ∧
      ∀ r c, r < rows → c < cols → cellAt g r c = some (fsum (units.flatMap (fun u =>
        valuesAt (hits u.teamSign (coord u.position.x m.cellSize)
          (coord u.position.y m.cellSize) rows cols) r c))) := by
  rw [update_eq_clamp m hr hcs hg units]
  obtain ⟨g, e, hg', hcell⟩ := applyHits_spec
    (units.flatMap (fun u => hits u.teamSign (coord u.position.x m.cellSize)
      (coord u.position.y m.cellSize) rows cols)) (resetMap_rect hg)
    (by
      intro h hm
      simp only [List.mem_flatMap] at hm
      obtain ⟨u, -, hu⟩ := hm
      exact hits_inRange_clamp _ _ _ _ _ h hu)
  refine ⟨g, by rw [e]; rfl, hg', ?_⟩
  intro r c hr' hc'
  rw [hcell, cellAt_resetMap hg hr' hc', valuesAt_flatMap]
  rfl

end Rts.Demo2

namespace Rts

theorem pow2_zero : pow2 0 = 1 := by norm_num [pow2]

theorem pow2_neg_mul (z : Int) : pow2 (-z) * pow2 z = 1 := by
  rw [← pow2_add, neg_add_cancel, pow2_zero]

theorem roundHalfEven_le_of_lt_half {n : Int} {q : ℚ} (h : q < (n : ℚ) + 1 / 2) :
    roundHalfEven q ≤ n := by
  have hf : ⌊q⌋ ≤ n := by
    have h1 : (⌊q⌋ : ℚ) ≤ q := Int.floor_le q
    have h2 : (⌊q⌋ : ℚ) < (n : ℚ) + 1 := by linarith
    have h3 : ⌊q⌋ < n + 1 := by exact_mod_cast h2
    omega
  unfold roundHalfEven
  by_cases c1 : q - ⌊q⌋ < 1 / 2
  · rw [if_pos c1]; exact hf
  · rw [if_neg c1]
    have hne : ⌊q⌋ ≠ n := by
      intro e
      rw [e] at c1
      apply c1; linarith
    have hlt : ⌊q⌋ + 1 ≤ n := by omega
    split_ifs <;> omega

/-- Rounding to binary32 keeps the integer part of a positive number below `2²⁴` whose
distance to the next integer exceeds half a unit in the last place. -/
theorem floor_rnd_eq {q : ℚ} {n : Int} {X : Int} (hqpos : 0 < q) (hX : X = max (ilog2 q) (-126) - 23)
    (hX0 : X ≤ 0) (hnq : (n : ℚ) ≤ q) (hgap : pow2 X / 2 < (n : ℚ) + 1 - q) :
    ⌊rnd q⌋ = n := by
  have hr : rnd q = (roundHalfEven (q / pow2 X) : ℚ) * pow2 X := by
    unfold rnd roundTo
    rw [if_neg hqpos.ne', hX]
    norm_num
  have hu := pow2_pos X
  obtain ⟨k, hk⟩ := Int.eq_ofNat_of_zero_le (by omega : 0 ≤ -X)
  have hmul : ((2 : ℚ) ^ k) * pow2 X = 1 := by
    have h1 : pow2 (-X) = ((2 ^ k : Nat) : ℚ) := by rw [hk, pow2_natCast]
    have h2 := pow2_neg_mul X
    rw [h1] at h2
    simpa using h2
  have h2k : (0 : ℚ) < 2 ^ k := by positivity
  have hdivu : q / pow2 X = q * 2 ^ k := by
    rw [div_eq_iff hu.ne', mul_assoc, hmul, mul_one]
  have hlow : (n : ℚ) ≤ rnd q := by
    have h1 : ((n * 2 ^ k : Int) : ℚ) ≤ q / pow2 X := by
      rw [hdivu]; push_cast
      exact mul_le_mul_of_nonneg_right hnq h2k.le
    have h2 := le_roundHalfEven h1
    have h3 : ((n * 2 ^ k : Int) : ℚ) ≤ (roundHalfEven (q / pow2 X) : ℚ) := by exact_mod_cast h2
    have h4 : ((n * 2 ^ k : Int) : ℚ) * pow2 X = n := by
      push_cast; rw [mul_assoc, hmul, mul_one]
    rw [hr, ← h4]
    exact mul_le_mul_of_nonneg_right h3 hu.le
  have hup : rnd q < (n : ℚ) + 1 := by
    have h4 : pow2 X / 2 * 2 ^ k = 1 / 2 := by
      rw [div_mul_eq_mul_div, mul_comm, hmul]
    have h1 : q / pow2 X < (((n + 1) * 2 ^ k - 1 : Int) : ℚ) + 1 / 2 := by
      rw [hdivu]; push_cast
      have h3 : (q + pow2 X / 2) * 2 ^ k < ((n : ℚ) + 1) * 2 ^ k :=
        mul_lt_mul_of_pos_right (by linarith) h2k
      rw [add_mul, h4] at h3
      linarith
    have h2 := roundHalfEven_le_of_lt_half h1
    have h3 : (roundHalfEven (q / pow2 X) : ℚ) ≤ (((n + 1) * 2 ^ k - 1 : Int) : ℚ) := by
      exact_mod_cast h2
    have h5 : (((n + 1) * 2 ^ k - 1 : Int) : ℚ) * pow2 X = (n : ℚ) + 1 - pow2 X := by
      push_cast
      have : ((n : ℚ) + 1) * 2 ^ k * pow2 X = (n : ℚ) + 1 := by rw [mul_assoc, hmul, mul_one]
      linarith
    rw [hr]
    calc (roundHalfEven (q / pow2 X) : ℚ) * pow2 X
        ≤ (((n + 1) * 2 ^ k - 1 : Int) : ℚ) * pow2 X := mul_le_mul_of_nonneg_right h3 hu.le
      _ = (n : ℚ) + 1 - pow2 X := h5
      _ < (n : ℚ) + 1 := by linarith
  rw [Int.floor_eq_iff]
  exact ⟨hlow, hup⟩

/-- For a non-negative binary32 position below `2²⁴` (a dyadic number with a significand
of at most 24 bits) and a cell size below `2²⁴`, the floor of the `float` quotient is the
floor of the exact quotient: the rounding of the division never reaches the next integer. -/
theorem divCell_eq_floor {mx j : Nat} {cellSize : Int} (hm : mx < 2 ^ 24) (hc0 : 0 < cellSize)
    (hc1 : cellSize < 2 ^ 24) :
    divCell ((mx : ℚ) / 2 ^ j) cellSize = ⌊((mx : ℚ) / 2 ^ j) / cellSize⌋ := by
  have hcq : (0 : ℚ) < cellSize := by exact_mod_cast hc0
  have hc1q : (1 : ℚ) ≤ cellSize := by exact_mod_cast hc0
  have h2j : (0 : ℚ) < 2 ^ j := by positivity
  have h2j1 : (1 : ℚ) ≤ 2 ^ j := one_le_pow₀ (by norm_num)
  have hmq : (mx : ℚ) < 2 ^ 24 := by exact_mod_cast hm
  have hm0 : (0 : ℚ) ≤ mx := by positivity
  unfold divCell fdiv
  rw [show ofInt cellSize = cellSize from rnd_intCast (by rw [abs_of_pos hc0]; exact hc1)]
  obtain ⟨q, hq⟩ : ∃ q : ℚ, q = (mx : ℚ) / 2 ^ j / cellSize := ⟨_, rfl⟩
  rw [← hq]
  have hq0 : 0 ≤ q := by rw [hq]; positivity
  by_cases hzero : q = 0
  · rw [hzero, rnd_zero]
  have hqpos : 0 < q := lt_of_le_of_ne hq0 (Ne.symm hzero)
  have hqx : q * (2 ^ j * (cellSize : ℚ)) = mx := by
    rw [hq]; field_simp
  have hpos : (0 : ℚ) < 2 ^ j * (cellSize : ℚ) := by positivity
  have hpos1 : (1 : ℚ) ≤ 2 ^ j * (cellSize : ℚ) := by nlinarith
  have hnq : ((⌊q⌋ : Int) : ℚ) ≤ q := Int.floor_le q
  have hqn : q < ((⌊q⌋ : Int) : ℚ) + 1 := Int.lt_floor_add_one q
  have hn0 : (0 : ℚ) ≤ ((⌊q⌋ : Int) : ℚ) := by exact_mod_cast Int.floor_nonneg.mpr hq0
  have hq24 : q < 2 ^ 24 := by nlinarith
  obtain ⟨hlo, hhi⟩ := ilog2_spec hzero
  rw [abs_of_pos hqpos] at hlo hhi
  have hE : ilog2 q < 24 := by
    have h24 : pow2 24 = 2 ^ 24 := by rw [pow2_eq_zpow]; norm_num
    have : pow2 (ilog2 q) < pow2 24 := by rw [h24]; linarith
    exact pow2_lt_pow2_iff.mp this
  obtain ⟨X, hX⟩ : ∃ X : Int, X = max (ilog2 q) (-126) - 23 := ⟨_, rfl⟩
  have hX0 : X ≤ 0 := by
    rcases max_cases (ilog2 q) (-126) with ⟨h1, _⟩ | ⟨h1, _⟩ <;> rw [hX, h1] <;> omega
  apply floor_rnd_eq hqpos hX hX0 hnq
  by_cases hnorm : -126 ≤ ilog2 q
  · have hXE : ilog2 q = X + 23 := by rw [hX, max_eq_left hnorm]; ring
    have hy : (mx : ℚ) < (((⌊q⌋ + 1) * cellSize * 2 ^ j : Int) : ℚ) := by
      push_cast
      rw [← hqx]
      nlinarith
    have hy' : ((mx : Int) : ℚ) < (((⌊q⌋ + 1) * cellSize * 2 ^ j : Int) : ℚ) := by simpa using hy
    have hy1 : (mx : Int) + 1 ≤ (⌊q⌋ + 1) * cellSize * 2 ^ j := by
      have := Int.cast_lt.mp hy'
      omega
    have hy2 : (mx : ℚ) + 1 ≤ (((⌊q⌋ : Int) : ℚ) + 1) * cellSize * 2 ^ j := by exact_mod_cast hy1
    have h23 : pow2 (ilog2 q) = pow2 X * 2 ^ 23 := by
      rw [hXE, pow2_add]
      have h23' : pow2 23 = 2 ^ 23 := by rw [pow2_eq_zpow]; norm_num
      rw [h23']
    have h5 : pow2 (ilog2 q) * (2 ^ j * (cellSize : ℚ)) ≤ mx := by
      rw [← hqx]
      exact mul_le_mul_of_nonneg_right hlo hpos.le
    have h6 : pow2 X / 2 * (2 ^ j * (cellSize : ℚ)) < 1 := by
      rw [h23] at h5
      have : pow2 X * (2 ^ j * (cellSize : ℚ)) * 2 ^ 23 < 2 ^ 24 := by nlinarith
      nlinarith
    have h7 : 1 ≤ (((⌊q⌋ : Int) : ℚ) + 1 - q) * (2 ^ j * (cellSize : ℚ)) := by
      have : (((⌊q⌋ : Int) : ℚ) + 1 - q) * (2 ^ j * (cellSize : ℚ))
          = (((⌊q⌋ : Int) : ℚ) + 1) * cellSize * 2 ^ j - mx := by
        rw [sub_mul, hqx]; ring
      rw [this]; linarith
    by_contra hcon
    push_neg at hcon
    have := mul_le_mul_of_nonneg_right hcon hpos.le
    linarith
  · have hsub : ilog2 q + 1 ≤ -126 := by omega
    have hXs : X = -149 := by rw [hX, max_eq_right (by omega)]; norm_num
    have h1 : pow2 (-1) = 1 / 2 := by rw [pow2_eq_zpow]; norm_num
    have hq126 : q < 1 / 2 := by
      rw [← h1]
      exact lt_of_lt_of_le hhi (pow2_le_pow2 (by omega))
    have h149 : pow2 X ≤ 1 / 2 := by
      rw [hXs, ← h1]; exact pow2_le_pow2 (by norm_num)
    linarith

end Rts
namespace Rts.Demo2

/-- C1. demo2 (clamp-out): on a field with at least one row, whatever the cells held
and for contributors at non-negative positions, `update` succeeds, keeps the shape
of the grid, and leaves in every cell `(r, c)` the `float` sum, accumulated in list
order from `0.0f`, of `teamSign * (1 / (1 + sqrt(dx² + dy²)))` over the contributors
whose source cell `(x div cellSize, y div cellSize)` lies at squared distance
`dx² + dy² ≤ 9` from `(c, r)`; there is no cell outside the grid.  Here `x div cellSize`
is the floor of the `float` quotient that the code truncates, and it is the floor of
the exact quotient for every binary32 position `mx / 2 ^ j` below `2²⁴` when the cell
size is below `2²⁴`. -/
theorem update_cell_eq_sum (m : InfluenceMap) (units : List Unit) (hv : m.Valid)
    (hrows : 0 < m.rows)
    (hpos : ∀ u ∈ units, 0 ≤ u.position.x ∧ 0 ≤ u.position.y) :
    (∃ g, update m units = some { m with mapData := g } ∧
      (∀ r c, r < m.rows → c < m.cols →
        cellAt g r c = some (fsum
          ((units.filter (fun u => decide
              (((c : Int) - divCell u.position.x m.cellSize) ^ 2
                + ((r : Int) - divCell u.position.y m.cellSize) ^ 2 ≤ 9))).map
            (fun u => fmul (ofInt u.teamSign) (fdiv 1 (fadd 1 (sqrtf
              (((c : Int) - divCell u.position.x m.cellSize) ^ 2
                + ((r : Int) - divCell u.position.y m.cellSize) ^ 2)))))))) ∧
      (∀ r c, m.rows ≤ r ∨ m.cols ≤ c → cellAt g r c = none)) ∧
    (m.cellSize < 2 ^ 24 → ∀ mx j : Nat, mx < 2 ^ 24 →
      divCell ((mx : ℚ) / 2 ^ j) m.cellSize = ⌊((mx : ℚ) / 2 ^ j) / m.cellSize⌋) := by
  refine ⟨?_, fun hcs mx j hmx => divCell_eq_floor hmx hv.1 hcs⟩
  obtain ⟨g, e, hg, hcell⟩ := update_spec_clamp m hrows hv.cellSize_ne hv.rect units
  refine ⟨g, e, ?_, fun r c h => cellAt_none_of_rect hg h⟩
  intro r c hr hc
  rw [hcell r c hr hc]
  have hpt : ∀ u ∈ units,
      valuesAt (hits u.teamSign (coord u.position.x m.cellSize)
        (coord u.position.y m.cellSize) m.rows m.cols) r c =
      if ((c : Int) - divCell u.position.x m.cellSize) ^ 2
          + ((r : Int) - divCell u.position.y m.cellSize) ^ 2 ≤ 9
      then [fmul (ofInt u.teamSign) (fdiv 1 (fadd 1 (sqrtf
        (((c : Int) - divCell u.position.x m.cellSize) ^ 2
          + ((r : Int) - divCell u.position.y m.cellSize) ^ 2))))] else [] := by
    intro u hu
    obtain ⟨hx, hy⟩ := hpos u hu
    rw [valuesAt_hits_clamp _ _ _ hr hc, coord_eq_divCell hx hv.1.le, coord_eq_divCell hy hv.1.le]
    simp only [influenceValue, distance, pow_two]
  rw [List.flatMap_congr hpt]
  exact congrArg some (congrArg fsum (flatMap_ite_singleton units
    (fun u => ((c : Int) - divCell u.position.x m.cellSize) ^ 2
      + ((r : Int) - divCell u.position.y m.cellSize) ^ 2 ≤ 9)
    (fun u => fmul (ofInt u.teamSign) (fdiv 1 (fadd 1 (sqrtf
      (((c : Int) - divCell u.position.x m.cellSize) ^ 2
        + ((r : Int) - divCell u.position.y m.cellSize) ^ 2)))))))

theorem update_cell_eq_sum_witness :
    (∃ g, update demoMap [mkUnit 420 300 1] = some { demoMap with mapData := g } ∧
      (∀ r c, r < demoMap.rows → c < demoMap.cols →
        cellAt g r c = some (fsum
          (([mkUnit 420 300 1].filter (fun u => decide
              (((c : Int) - divCell u.position.x demoMap.cellSize) ^ 2
                + ((r : Int) - divCell u.position.y demoMap.cellSize) ^ 2 ≤ 9))).map
            (fun u => fmul (ofInt u.teamSign) (fdiv 1 (fadd 1 (sqrtf
              (((c : Int) - divCell u.position.x demoMap.cellSize) ^ 2
                + ((r : Int) - divCell u.position.y demoMap.cellSize) ^ 2)))))))) ∧
      (∀ r c, demoMap.rows ≤ r ∨ demoMap.cols ≤ c → cellAt g r c = none)) ∧
    divCell (((839 : Nat) : ℚ) / 2 ^ 1) demoMap.cellSize
      = ⌊(((839 : Nat) : ℚ) / 2 ^ 1) / demoMap.cellSize⌋ :=
  ⟨(update_cell_eq_sum demoMap [mkUnit 420 300 1] demoMap_valid (by decide)
      (by intro u hu; simp only [List.mem_singleton] at hu; subst hu; decide!)).1,
    (update_cell_eq_sum demoMap [mkUnit 420 300 1] demoMap_valid (by decide)
      (by intro u hu; simp only [List.mem_singleton] at hu; subst hu; decide!)).2
      (by decide) 839 1 (by decide)⟩

end Rts.Demo2

namespace Rts.Demo1

theorem hit_inRange_wrap {teamSign unitX unitY : Int} {rows cols : Nat} (hr : 0 < rows)
    (hc : 0 < cols) {y x : Int} {h : Hit}
    (e : hit teamSign unitX unitY rows cols y x = some h) : h.cellY < rows ∧ h.cellX < cols := by
  unfold hit at e
  split_ifs at e with hd
  cases e
  exact ⟨Nat.mod_lt _ hr, Nat.mod_lt _ hc⟩

theorem hits_inRange_wrap (teamSign unitX unitY : Int) {rows cols : Nat} (hr : 0 < rows)
    (hc : 0 < cols) :
    ∀ h ∈ hits teamSign unitX unitY rows cols, h.cellY < rows ∧ h.cellX < cols := by
  intro h hm
  simp only [hits, List.mem_flatMap, List.mem_filterMap] at hm
  obtain ⟨y, -, x, -, e⟩ := hm
  exact hit_inRange_wrap hr hc e

theorem applyCell_eq_wrap {g : List (List ℚ)} {rows cols : Nat} (hg : Rect g rows cols)
    (hr : 0 < rows) (hc : 0 < cols) (teamSign unitX unitY y x : Int) :
    applyCell teamSign unitX unitY y g x =
      match hit teamSign unitX unitY rows cols y x with
      | some h => addAt g h.cellY h.cellX h.value
      | none => some g := by
  unfold applyCell hit wrapIndex
  rw [rowSize_of_rect hg hr, hg.1]
  simp only [if_neg (Nat.pos_iff_ne_zero.mp hr), if_neg (Nat.pos_iff_ne_zero.mp hc)]
  by_cases h5 : distance x y ≤ ofInt influenceRadius
  · rw [if_pos h5, if_pos h5]
  · rw [if_neg h5, if_neg h5]

theorem applyInfluence_eq_wrap (m : InfluenceMap) {rows cols : Nat} (hr : 0 < rows) (hc : 0 < cols)
    (hcs : m.cellSize ≠ 0) (g : List (List ℚ)) (hg : Rect g rows cols) (u : Unit) :
    applyInfluence { m with mapData := g } u =
      (applyHits g (hits u.teamSign (coord u.position.x m.cellSize)
        (coord u.position.y m.cellSize) rows cols)).map (fun g' => { m with mapData := g' }) := by
  unfold applyInfluence cellCoord
  simp only [if_neg hcs]
  congr 1
  unfold hits
  apply foldlM_eq_applyHits_flatMap _ _ _ _ offsets g hg
  · intro g1 hg1 y
    exact foldlM_eq_applyHits _ _ (fun g2 hg2 x => applyCell_eq_wrap hg2 hr hc _ _ _ y x)
      (fun x h e => hit_inRange_wrap hr hc e) offsets g1 hg1
  · intro y h hm
    simp only [List.mem_filterMap] at hm
    obtain ⟨x, -, e⟩ := hm
    exact hit_inRange_wrap hr hc e

theorem update_eq_wrap (m : InfluenceMap) {rows cols : Nat} (hr : 0 < rows) (hc : 0 < cols)
    (hcs : m.cellSize ≠ 0) (hg : Rect m.mapData rows cols) (units : List Unit) :
    update m units =
      (applyHits (resetMap m.mapData) (units.flatMap (fun u =>
        hits u.teamSign (coord u.position.x m.cellSize) (coord u.position.y m.cellSize)
          rows cols))).map (fun g' => { m with mapData := g' }) := by
  unfold update
  exact foldlM_units_eq m applyInfluence _
    (fun g hg1 u => applyInfluence_eq_wrap m hr hc hcs g hg1 u)
    (fun u => hits_inRange_wrap _ _ _ hr hc) units _ (resetMap_rect hg)

/-- The grid after demo1's `update`, cell by cell, on any rectangular non-empty grid. -/
theorem update_spec_wrap (m : InfluenceMap) {rows cols : Nat} (hr : 0 < rows) (hc : 0 < cols)
    (hcs : m.cellSize ≠ 0) (hg : Rect m.mapData rows cols) (units : List Unit) :
    ∃ g, update m units = some { m with mapData := g } ∧ Rect g rows cols ∧
      ∀ r c, r < rows → c < cols → cellAt g r c = some (fsum (units.flatMap (fun u =>
        valuesAt (hits u.teamSign (coord u.position.x m.cellSize)
          (coord u.position.y m.cellSize) rows cols) r c))) := by
  rw [update_eq_wrap m hr hc hcs hg units]
  obtain ⟨g, e, hg', hcell⟩ := applyHits_spec
    (units.flatMap (fun u => hits u.teamSign (coord u.position.x m.cellSize)
      (coord u.position.y m.cellSize) rows cols)) (resetMap_rect hg)
    (by
      intro h hm
      simp only [List.mem_flatMap] at hm
      obtain ⟨u, -, hu⟩ := hm
      exact hits_inRange_wrap _ _ _ hr hc h hu)
  refine ⟨g, by rw [e]; rfl, hg', ?_⟩
  intro r c hr' hc'
  rw [hcell, cellAt_resetMap hg hr' hc', valuesAt_flatMap]
  rfl

/-- The values that one call of demo1's `applyInfluence` adds to the cell `(r, c)`. -/
theorem valuesAt_hits_wrap (teamSign unitX unitY : Int) (rows cols r c : Nat) :
    valuesAt (hits teamSign unitX unitY rows cols) r c =
      offsets.flatMap (fun y => offsets.filterMap (fun x =>
        if ((unitX + x + cols) % 2 ^ 64).toNat % cols = c ∧
            ((unitY + y + rows) % 2 ^ 64).toNat % rows = r ∧
            distance x y ≤ ofInt influenceRadius
        then some (influenceValue teamSign x y) else none)) := by
  unfold hits
  rw [valuesAt_flatMap]
  simp only [valuesAt_filterMap]
  apply List.flatMap_congr
  intro y _
  apply List.filterMap_congr
  intro x _
  unfold hit
  by_cases hd : distance x y ≤ ofInt influenceRadius
  · simp only [if_pos hd, Option.some_bind]
    by_cases h1 : ((unitY + y + rows) % 2 ^ 64).toNat % rows = r ∧
        ((unitX + x + cols) % 2 ^ 64).toNat % cols = c
    · rw [if_pos h1, if_pos ⟨h1.2, h1.1, hd⟩]
    · rw [if_neg h1, if_neg (fun hh => h1 ⟨hh.2.1, hh.1⟩)]
  · simp only [if_neg hd, Option.none_bind]
    rw [if_neg (fun hh => hd hh.2.2)]

/-- The wrapped index is the mathematical remainder when the sum does not go negative. -/
theorem wrap_eq_emod {i : Int} {size : Nat} (h1 : 0 ≤ i + size) (h2 : i + size < 2 ^ 64) :
    (((i + size) % 2 ^ 64).toNat % size : Nat) = (i % (size : Int)).toNat := by
  rw [Int.emod_eq_of_lt h1 h2]
  by_cases hs : size = 0
  · subst hs; simp
  · have hpos : (0 : Int) < size := by exact_mod_cast Nat.pos_of_ne_zero hs
    have h3 : 0 ≤ i % (size : Int) := Int.emod_nonneg _ hpos.ne'
    apply Int.ofNat_inj.mp
    rw [Int.toNat_of_nonneg h3, Int.natCast_mod, Int.toNat_of_nonneg h1,
      Int.add_emod_self]

end Rts.Demo1

namespace Rts

theorem fsum_nil : fsum [] = 0 := rfl

theorem fsum_singleton (v : ℚ) : fsum [v] = rnd v := by
  simp [fsum, fadd]

theorem fsum_pair (v w : ℚ) : fsum [v, w] = fadd (rnd v) w := by
  simp [fsum, fadd]

theorem ofInt_one : ofInt 1 = 1 := by decide!

theorem ofInt_neg_one : ofInt (-1) = -1 := by decide!

theorem rnd_influenceValue (t x y : Int) : rnd (influenceValue t x y) = influenceValue t x y := by
  unfold influenceValue fmul
  exact rnd_idem _

theorem influenceValue_one (x y : Int) :
    influenceValue 1 x y = fdiv 1 (fadd 1 (distance x y)) := by
  unfold influenceValue fmul
  rw [ofInt_one, one_mul]
  unfold fdiv
  exact rnd_idem _

theorem influenceValue_neg_one (x y : Int) :
    influenceValue (-1) x y = -influenceValue 1 x y := by
  unfold influenceValue fmul
  rw [ofInt_one, ofInt_neg_one, one_mul, neg_one_mul, rnd_neg]

theorem emod_unique {a n k : Int} (h0 : 0 ≤ k) (h1 : k < n) (q : Int) (h : a = k + n * q) :
    a % n = k := by
  rw [h, Int.add_mul_emod_self_left, Int.emod_eq_of_lt h0 h1]

end Rts

namespace Rts.Demo1

/-- For a unit inside a grid with at least seven columns, the offset `x` of the loop
lands in column `c` exactly when `x` is the wrapped difference of `c` and the unit's column. -/
theorem wrap_hit_iff {u : Int} {size c : Nat} {x : Int} (hsize : 7 ≤ size) (hb : size < 2 ^ 31)
    (hu0 : 0 ≤ u) (hu1 : u < size) (hc : c < size) (hx : x ∈ offsets) :
    ((u + x + size) % 2 ^ 64).toNat % size = c ↔ x = ((c : Int) - u + 3) % (size : Int) - 3 := by
  rw [mem_offsets] at hx
  have hpos : (0 : Int) < size := by omega
  rw [wrap_eq_emod (by omega) (by omega)]
  have hnn : 0 ≤ (u + x) % (size : Int) := Int.emod_nonneg _ hpos.ne'
  have hiff : ((u + x) % (size : Int)).toNat = c ↔ (u + x) % (size : Int) = c := by
    constructor
    · intro h; rw [← h, Int.toNat_of_nonneg hnn]
    · intro h; rw [h]; simp
  rw [hiff]
  constructor
  · intro h
    have e := Int.ediv_add_emod (u + x) size
    have : ((c : Int) - u + 3) % (size : Int) = x + 3 :=
      emod_unique (by omega) (by omega) (-((u + x) / size)) (by rw [← h]; linarith)
    omega
  · intro h
    have e := Int.ediv_add_emod ((c : Int) - u + 3) size
    exact emod_unique (by omega) (by omega) (-(((c : Int) - u + 3) / size))
      (by rw [h]; linarith)

/-- In a grid with at least seven rows and columns a unit inside the grid adds at most
one value to each cell. -/
theorem valuesAt_hits_of_wide (teamSign : Int) {unitX unitY : Int} {rows cols r c : Nat}
    (hrows : 7 ≤ rows) (hcols : 7 ≤ cols) (hrb : rows < 2 ^ 31) (hcb : cols < 2 ^ 31)
    (hx0 : 0 ≤ unitX) (hx1 : unitX < cols) (hy0 : 0 ≤ unitY) (hy1 : unitY < rows)
    (hr : r < rows) (hc : c < cols) :
    valuesAt (hits teamSign unitX unitY rows cols) r c =
      if (((c : Int) - unitX + 3) % (cols : Int) - 3) * (((c : Int) - unitX + 3) % (cols : Int) - 3)
          + (((r : Int) - unitY + 3) % (rows : Int) - 3) * (((r : Int) - unitY + 3) % (rows : Int) - 3)
          ≤ 9
      then [influenceValue teamSign (((c : Int) - unitX + 3) % (cols : Int) - 3)
        (((r : Int) - unitY + 3) % (rows : Int) - 3)]
      else [] := by
  rw [valuesAt_hits_wrap]
  have hcongr : offsets.flatMap (fun y => offsets.filterMap (fun x =>
        if ((unitX + x + cols) % 2 ^ 64).toNat % cols = c ∧
            ((unitY + y + rows) % 2 ^ 64).toNat % rows = r ∧
            distance x y ≤ ofInt influenceRadius
        then some (influenceValue teamSign x y) else none)) =
      offsets.flatMap (fun y => offsets.filterMap (fun x =>
        if x = ((c : Int) - unitX + 3) % (cols : Int) - 3 ∧
            y = ((r : Int) - unitY + 3) % (rows : Int) - 3 ∧
            distance x y ≤ ofInt influenceRadius
        then some (influenceValue teamSign x y) else none)) := by
    apply List.flatMap_congr
    intro y hy
    apply List.filterMap_congr
    intro x hx
    have e1 := wrap_hit_iff hcols hcb hx0 hx1 hc hx
    have e2 := wrap_hit_iff hrows hrb hy0 hy1 hr hy
    simp only [e1, e2]
  rw [hcongr, flatMap_filterMap_single offsets offsets offsets_nodup offsets_nodup _ _
    (fun x y => distance x y ≤ ofInt influenceRadius) (fun x y => influenceValue teamSign x y)]
  simp only [distance_le_iff]

end Rts.Demo1

namespace Rts

theorem InfluenceMap.Valid.rows_lt {m : InfluenceMap} (h : m.Valid) : m.rows < 2 ^ 31 := by
  obtain ⟨hc, hw, hh, hwb, hhb, -⟩ := h
  unfold InfluenceMap.rows
  rw [Int.tdiv_eq_ediv hh.le hc.le]
  have h1 : m.height / m.cellSize ≤ m.height := Int.ediv_le_self _ hh.le
  have h2 : 0 ≤ m.height / m.cellSize := Int.ediv_nonneg hh.le hc.le
  omega

theorem InfluenceMap.Valid.cols_lt {m : InfluenceMap} (h : m.Valid) : m.cols < 2 ^ 31 := by
  obtain ⟨hc, hw, hh, hwb, hhb, -⟩ := h
  unfold InfluenceMap.cols
  rw [Int.tdiv_eq_ediv hw.le hc.le]
  have h1 : m.width / m.cellSize ≤ m.width := Int.ediv_le_self _ hw.le
  have h2 : 0 ≤ m.width / m.cellSize := Int.ediv_nonneg hw.le hc.le
  omega

end Rts

namespace Rts.Demo1

theorem wrapOffset_eq {u d : Int} {size : Nat} (hsize : 8 ≤ size) (hd0 : -4 ≤ d) (hd1 : d ≤ 4) :
    ((((u + d) % (size : Int)).toNat : Int) - u + 3) % (size : Int) - 3 =
      if d = -4 then (size : Int) - 4 else d := by
  have hpos : (0 : Int) < size := by omega
  have hnn : 0 ≤ (u + d) % (size : Int) := Int.emod_nonneg _ hpos.ne'
  rw [Int.toNat_of_nonneg hnn]
  have e := Int.ediv_add_emod (u + d) size
  by_cases h4 : d = -4
  · rw [if_pos h4]
    have : ((u + d) % (size : Int) - u + 3) % (size : Int) = size - 1 :=
      emod_unique (by omega) (by omega) (-((u + d) / size) - 1) (by subst h4; linarith)
    omega
  · rw [if_neg h4]
    have : ((u + d) % (size : Int) - u + 3) % (size : Int) = d + 3 :=
      emod_unique (by omega) (by omega) (-((u + d) / size)) (by linarith)
    omega

theorem emod_toNat_lt (i : Int) {size : Nat} (h : 0 < size) :
    (i % (size : Int)).toNat < size := by
  have hpos : (0 : Int) < size := by omega
  have h1 := Int.emod_nonneg i hpos.ne'
  have h2 := Int.emod_lt_of_pos i hpos
  omega

theorem quarter_at_radius : fdiv 1 (fadd 1 (sqrtf (3 ^ 2 + 0 ^ 2))) = 1 / 4 := by decide!

/-- C2. demo1 (wrap): on a field with at least 8 rows and 8 columns, after `update`
on a single contributor of affiliation `+1` whose source cell `(cx, cy)` lies in the
grid, the cell `((cx + dx) mod cols, (cy + dy) mod rows)` holds
`1 / (1 + sqrt(dx² + dy²))` when `dx² + dy² ≤ 9` and `0` otherwise, for all
`dx, dy` in `[-4, 4]`; the cell at offset `(3, 0)` holds `0.25`, the one at `(4, 0)` holds `0`. -/
theorem update_single_wrap (m : InfluenceMap) (u : Unit) (cx cy : Int) (hv : m.Valid)
    (hrows : 8 ≤ m.rows) (hcols : 8 ≤ m.cols) (hteam : u.teamSign = 1)
    (hx : coord u.position.x m.cellSize = cx) (hy : coord u.position.y m.cellSize = cy)
    (hcx : 0 ≤ cx ∧ cx < m.cols) (hcy : 0 ≤ cy ∧ cy < m.rows) :
    ∃ g, update m [u] = some { m with mapData := g } ∧
      (∀ dx dy : Int, -4 ≤ dx → dx ≤ 4 → -4 ≤ dy → dy ≤ 4 →
        cellAt g ((cy + dy) % (m.rows : Int)).toNat ((cx + dx) % (m.cols : Int)).toNat =
          some (if dx ^ 2 + dy ^ 2 ≤ 9 then fdiv 1 (fadd 1 (sqrtf (dx ^ 2 + dy ^ 2))) else 0)) ∧
      cellAt g ((cy + 0) % (m.rows : Int)).toNat ((cx + 3) % (m.cols : Int)).toNat
        = some (1 / 4) ∧
      cellAt g ((cy + 0) % (m.rows : Int)).toNat ((cx + 4) % (m.cols : Int)).toNat = some 0 := by
  obtain ⟨g, e, hg, hcell⟩ :=
    update_spec_wrap m (by omega) (by omega) hv.cellSize_ne hv.rect [u]
  have main : ∀ dx dy : Int, -4 ≤ dx → dx ≤ 4 → -4 ≤ dy → dy ≤ 4 →
      cellAt g ((cy + dy) % (m.rows : Int)).toNat ((cx + dx) % (m.cols : Int)).toNat =
        some (if dx ^ 2 + dy ^ 2 ≤ 9 then fdiv 1 (fadd 1 (sqrtf (dx ^ 2 + dy ^ 2))) else 0) := by
    intro dx dy hdx0 hdx1 hdy0 hdy1
    have hr := emod_toNat_lt (cy + dy) (by omega : 0 < m.rows)
    have hc := emod_toNat_lt (cx + dx) (by omega : 0 < m.cols)
    rw [hcell _ _ hr hc]
    simp only [List.flatMap_cons, List.flatMap_nil, List.append_nil, hx, hy, hteam]
    rw [valuesAt_hits_of_wide 1 (by omega) (by omega) hv.rows_lt hv.cols_lt hcx.1 hcx.2
      hcy.1 hcy.2 hr hc,
      wrapOffset_eq hcols hdx0 hdx1, wrapOffset_eq hrows hdy0 hdy1]
    congr 1
    by_cases hin : dx ^ 2 + dy ^ 2 ≤ 9
    · have h1 : dx ≠ -4 := by rintro rfl; nlinarith
      have h2 : dy ≠ -4 := by rintro rfl; nlinarith
      rw [if_neg h1, if_neg h2, if_pos hin, if_pos (by simpa [pow_two] using hin),
        fsum_singleton, rnd_influenceValue, influenceValue_one]
      simp only [distance, pow_two]
    · rw [if_neg hin, if_neg, fsum_nil]
      intro hle
      apply hin
      by_cases h1 : dx = -4
      · rw [if_pos h1] at hle
        have : (4 : Int) ≤ (m.cols : Int) - 4 := by omega
        nlinarith [mul_self_nonneg (if dy = -4 then (m.rows : Int) - 4 else dy)]
      · by_cases h2 : dy = -4
        · rw [if_pos h2] at hle
          have : (4 : Int) ≤ (m.rows : Int) - 4 := by omega
          nlinarith [mul_self_nonneg (if dx = -4 then (m.cols : Int) - 4 else dx)]
        · rw [if_neg h1, if_neg h2] at hle
          simpa [pow_two] using hle
  refine ⟨g, e, main, ?_, ?_⟩
  · rw [main 3 0 (by norm_num) (by norm_num) (by norm_num) (by norm_num),
      if_pos (by norm_num), quarter_at_radius]
  · rw [main 4 0 (by norm_num) (by norm_num) (by norm_num) (by norm_num),
      if_neg (by norm_num)]

theorem update_single_wrap_witness :
    ∃ g, update demoMap [mkUnit 20 20 1] = some { demoMap with mapData := g } ∧
      (∀ dx dy : Int, -4 ≤ dx → dx ≤ 4 → -4 ≤ dy → dy ≤ 4 →
        cellAt g ((0 + dy) % (demoMap.rows : Int)).toNat ((0 + dx) % (demoMap.cols : Int)).toNat =
          some (if dx ^ 2 + dy ^ 2 ≤ 9 then fdiv 1 (fadd 1 (sqrtf (dx ^ 2 + dy ^ 2))) else 0)) ∧
      cellAt g ((0 + 0) % (demoMap.rows : Int)).toNat ((0 + 3) % (demoMap.cols : Int)).toNat
        = some (1 / 4) ∧
      cellAt g ((0 + 0) % (demoMap.rows : Int)).toNat ((0 + 4) % (demoMap.cols : Int)).toNat
        = some 0 :=
  update_single_wrap demoMap (mkUnit 20 20 1) 0 0 demoMap_valid (by decide) (by decide) rfl
    (by decide!) (by decide!) (by decide) (by decide)

end Rts.Demo1

namespace Rts

theorem InfluenceMap.Valid.cols_eq {m : InfluenceMap} (h : m.Valid) :
    m.width.tdiv m.cellSize = (m.cols : Int) := by
  obtain ⟨hc, hw, -⟩ := h
  unfold InfluenceMap.cols
  rw [Int.tdiv_eq_ediv hw.le hc.le]
  have h2 : 0 ≤ m.width / m.cellSize := Int.ediv_nonneg hw.le hc.le
  omega

theorem InfluenceMap.Valid.rows_eq {m : InfluenceMap} (h : m.Valid) :
    m.height.tdiv m.cellSize = (m.rows : Int) := by
  obtain ⟨hc, -, hh, -⟩ := h
  unfold InfluenceMap.rows
  rw [Int.tdiv_eq_ediv hh.le hc.le]
  have h2 : 0 ≤ m.height / m.cellSize := Int.ediv_nonneg hh.le hc.le
  omega

/-- The centre of the cell with index `c` resolves to that cell, as long as the cell
size and the index are small enough for the quotient to be exact in binary32. -/
theorem coord_centre {cellSize c : Int} (hs0 : 0 < cellSize) (hs1 : cellSize < 2 ^ 24)
    (hc0 : 0 ≤ c) (hc1 : c < 2 ^ 23) :
    coord (((c : ℚ) + 1 / 2) * cellSize) cellSize = c := by
  have hsq : (cellSize : ℚ) ≠ 0 := by exact_mod_cast hs0.ne'
  have e1 : ofInt cellSize = cellSize := rnd_intCast (by rw [abs_of_pos hs0]; exact hs1)
  have e2 : ((c : ℚ) + 1 / 2) * cellSize / cellSize = ((2 * c + 1 : Int) : ℚ) / 2 := by
    field_simp
    ring
  have e3 : fdiv (((c : ℚ) + 1 / 2) * cellSize) (ofInt cellSize) = ((2 * c + 1 : Int) : ℚ) / 2 := by
    unfold fdiv
    rw [e1, e2]
    exact rnd_half_odd (by rw [abs_of_nonneg (by omega)]; omega)
  unfold coord
  rw [e3, toInt_of_nonneg (by positivity), Int.floor_eq_iff]
  push_cast
  constructor <;> linarith

end Rts

namespace Rts.Demo1

theorem wrapCoord_of_inside {p : ℚ} {extent cellSize : Int} {size : Nat}
    (hcs : cellSize ≠ 0) (he : extent.tdiv cellSize = (size : Int))
    (h0 : 0 ≤ coord p cellSize) (h1 : coord p cellSize < size) :
    wrapCoord p extent cellSize = some (coord p cellSize) := by
  unfold wrapCoord cellCoord
  rw [if_neg hcs, he]
  simp only
  rw [if_neg (by omega), Int.tmod_eq_of_lt h0 h1, if_neg (by omega)]

/-- A sample taken inside the grid reads the cell the position resolves to. -/
theorem getInfluenceAtPosition_of_inside (m : InfluenceMap) (hv : m.Valid) (g : List (List ℚ))
    (p : Vector2f) (hx0 : 0 ≤ coord p.x m.cellSize) (hx1 : coord p.x m.cellSize < m.cols)
    (hy0 : 0 ≤ coord p.y m.cellSize) (hy1 : coord p.y m.cellSize < m.rows) :
    getInfluenceAtPosition { m with mapData := g } p =
      cellAt g (coord p.y m.cellSize).toNat (coord p.x m.cellSize).toNat := by
  unfold getInfluenceAtPosition
  simp only
  rw [wrapCoord_of_inside hv.cellSize_ne hv.cols_eq hx0 hx1,
    wrapCoord_of_inside hv.cellSize_ne hv.rows_eq hy0 hy1]
  simp only
  rw [if_neg (by omega)]

/-- With at least four columns, only the offset `0` of the loop lands on the unit's own column. -/
theorem wrap_hit_self_iff {u : Int} {size : Nat} {x : Int} (hsize : 4 ≤ size)
    (hb : size < 2 ^ 31) (hu0 : 0 ≤ u) (hu1 : u < size) (hx : x ∈ offsets) :
    ((u + x + size) % 2 ^ 64).toNat % size = u.toNat ↔ x = 0 := by
  rw [mem_offsets] at hx
  have hpos : (0 : Int) < size := by omega
  rw [wrap_eq_emod (by omega) (by omega)]
  have hnn : 0 ≤ (u + x) % (size : Int) := Int.emod_nonneg _ hpos.ne'
  constructor
  · intro h
    have h' : (u + x) % (size : Int) = u := by omega
    have e := Int.ediv_add_emod (u + x) size
    rw [h'] at e
    have hq : (size : Int) * ((u + x) / size) = x := by linarith
    rcases lt_trichotomy ((u + x) / (size : Int)) 0 with hlt | heq | hgt
    · have : (size : Int) * ((u + x) / size) ≤ (size : Int) * (-1) :=
        Int.mul_le_mul_of_nonneg_left (by omega) hpos.le
      omega
    · rw [heq] at hq; omega
    · have : (size : Int) * 1 ≤ (size : Int) * ((u + x) / size) :=
        Int.mul_le_mul_of_nonneg_left (by omega) hpos.le
      omega
  · intro h
    subst h
    rw [add_zero, Int.emod_eq_of_lt hu0 hu1]

theorem valuesAt_hits_self (teamSign : Int) {unitX unitY : Int} {rows cols : Nat}
    (hrows : 4 ≤ rows) (hcols : 4 ≤ cols) (hrb : rows < 2 ^ 31) (hcb : cols < 2 ^ 31)
    (hx0 : 0 ≤ unitX) (hx1 : unitX < cols) (hy0 : 0 ≤ unitY) (hy1 : unitY < rows) :
    valuesAt (hits teamSign unitX unitY rows cols) unitY.toNat unitX.toNat =
      [influenceValue teamSign 0 0] := by
  rw [valuesAt_hits_wrap]
  have hcongr : offsets.flatMap (fun y => offsets.filterMap (fun x =>
        if ((unitX + x + cols) % 2 ^ 64).toNat % cols = unitX.toNat ∧
            ((unitY + y + rows) % 2 ^ 64).toNat % rows = unitY.toNat ∧
            distance x y ≤ ofInt influenceRadius
        then some (influenceValue teamSign x y) else none)) =
      offsets.flatMap (fun y => offsets.filterMap (fun x =>
        if x = 0 ∧ y = 0 ∧ distance x y ≤ ofInt influenceRadius
        then some (influenceValue teamSign x y) else none)) := by
    apply List.flatMap_congr
    intro y hy
    apply List.filterMap_congr
    intro x hx
    have e1 := wrap_hit_self_iff hcols hcb hx0 hx1 hx
    have e2 := wrap_hit_self_iff hrows hrb hy0 hy1 hy
    simp only [e1, e2]
  rw [hcongr, flatMap_filterMap_single offsets offsets offsets_nodup offsets_nodup _ _
    (fun x y => distance x y ≤ ofInt influenceRadius) (fun x y => influenceValue teamSign x y)]
  simp only [distance_le_iff]
  rw [if_pos (by norm_num)]

theorem influenceValue_source : influenceValue 1 0 0 = 1 := by decide!

/-- C3 (amended). demo1 (wrap): on a field with at least 4 rows and 4 columns, after
`update` on a single contributor of affiliation `+1` whose position resolves to a cell
of the grid, `getInfluenceAtPosition` at that position returns exactly `1.0`.  This
covers the contributor at the centre of any cell `(cx, cy)`, provided the cell size is
below `2²⁴` and the indices below `2²³` (the centre's quotient by the cell size is then
exact in binary32). -/
theorem sample_at_contributor (m : InfluenceMap) (hv : m.Valid) (hrows : 4 ≤ m.rows)
    (hcols : 4 ≤ m.cols) :
    (∀ u : Unit, u.teamSign = 1 → m.Inside u.position →
      ∃ m', update m [u] = some m' ∧ getInfluenceAtPosition m' u.position = some 1) ∧
    (m.cellSize < 2 ^ 24 → ∀ cx cy : Nat, cx < m.cols → cy < m.rows → cx < 2 ^ 23 → cy < 2 ^ 23 →
      ∃ m', update m [mkUnit (((cx : ℚ) + 1 / 2) * m.cellSize)
          (((cy : ℚ) + 1 / 2) * m.cellSize) 1] = some m' ∧
        getInfluenceAtPosition m'
          { x := ((cx : ℚ) + 1 / 2) * m.cellSize, y := ((cy : ℚ) + 1 / 2) * m.cellSize }
          = some 1) := by
  have general : ∀ u : Unit, u.teamSign = 1 → m.Inside u.position →
      ∃ m', update m [u] = some m' ∧ getInfluenceAtPosition m' u.position = some 1 := by
    intro u hteam hin
    obtain ⟨hx, hy⟩ := hin
    obtain ⟨g, e, hg, hcell⟩ :=
      update_spec_wrap m (by omega) (by omega) hv.cellSize_ne hv.rect [u]
    refine ⟨_, e, ?_⟩
    rw [getInfluenceAtPosition_of_inside m hv g u.position hx.1 hx.2 hy.1 hy.2,
      hcell _ _ (by omega) (by omega)]
    simp only [List.flatMap_cons, List.flatMap_nil, List.append_nil]
    rw [valuesAt_hits_self _ hrows hcols hv.rows_lt hv.cols_lt hx.1 hx.2 hy.1 hy.2, hteam,
      fsum_singleton, rnd_influenceValue, influenceValue_source]
  refine ⟨general, ?_⟩
  intro hs cx cy hcx hcy hbx hby
  have ex := coord_centre (c := (cx : Int)) hv.1 hs (by omega) (by omega)
  have ey := coord_centre (c := (cy : Int)) hv.1 hs (by omega) (by omega)
  push_cast at ex ey
  exact general (mkUnit (((cx : ℚ) + 1 / 2) * m.cellSize) (((cy : ℚ) + 1 / 2) * m.cellSize) 1)
    rfl ⟨by simp only [mkUnit]; rw [ex]; omega, by simp only [mkUnit]; rw [ey]; omega⟩

theorem sample_at_contributor_witness :
    (∃ m', update demoMap [mkUnit 430 290 1] = some m' ∧
        getInfluenceAtPosition m' (mkUnit 430 290 1).position = some 1) ∧
      (∃ m', update demoMap [mkUnit (((10 : Nat) + 1 / 2) * demoMap.cellSize)
          (((7 : Nat) + 1 / 2) * demoMap.cellSize) 1] = some m' ∧
        getInfluenceAtPosition m'
          { x := ((10 : Nat) + 1 / 2) * demoMap.cellSize,
            y := ((7 : Nat) + 1 / 2) * demoMap.cellSize } = some 1) :=
  ⟨(sample_at_contributor demoMap demoMap_valid (by decide) (by decide)).1
      (mkUnit 430 290 1) rfl ⟨by decide!, by decide!⟩,
    (sample_at_contributor demoMap demoMap_valid (by decide) (by decide)).2
      (by decide) 10 7 (by decide) (by decide) (by decide) (by decide)⟩

/-- C3 (counterexample). `InfluenceMap(280, 120, 40)` is a valid configuration with
3 rows of 7 cells; the centre of the cell `(0, 0)` is `(20, 20)`.  With only 3 rows the
offsets `(0, -3)`, `(0, 0)` and `(0, 3)` of a contributor placed there all wrap onto the
source cell, which ends at `0.25 + 1 + 0.25 = 1.5`, not `1.0`. -/
theorem sample_at_centre_counterexample :
    InfluenceMap.construct 280 120 40 = Construction.built narrowMap ∧
      (update narrowMap [mkUnit 20 20 1]).bind
        (fun m => getInfluenceAtPosition m { x := 20, y := 20 }) = some (3 / 2) ∧
      (3 / 2 : ℚ) ≠ 1 := by
  decide!

end Rts.Demo1

namespace Rts

theorem resetMap_eq_of_rect {g : List (List ℚ)} {rows cols : Nat} (h : Rect g rows cols) :
    resetMap g = List.replicate rows (List.replicate cols 0) := by
  obtain ⟨hl, hcs⟩ := h
  unfold resetMap
  rw [← hl]
  apply List.ext_getElem
  · simp
  · intro i h1 h2
    have hi : i < g.length := by simpa using h1
    have hlen : (g.get ⟨i, hi⟩).length = cols := hcs _ (List.get_mem _ _ _)
    simp only [List.getElem_map, List.getElem_replicate]
    rw [← hlen]
    simp

theorem neg_lt_tmod (i : Int) {n : Int} (hn : 0 < n) : -n < i.tmod n := by
  obtain ⟨k, rfl⟩ := Int.eq_ofNat_of_zero_le hn.le
  cases i with
  | ofNat a =>
    have := Int.tmod_nonneg (a := Int.ofNat a) (k : Int) (Int.ofNat_nonneg a)
    omega
  | negSucc a =>
    show -(k : Int) < -(((a + 1) % k : Nat) : Int)
    have := Nat.mod_lt (a + 1) (by omega : 0 < k)
    omega

theorem tmod_wrap_range {i n : Int} (hn : 0 < n) :
    (if i.tmod n < 0 then i.tmod n + n else i.tmod n) < n ∧
      0 ≤ (if i.tmod n < 0 then i.tmod n + n else i.tmod n) := by
  have h1 : i.tmod n < n := Int.tmod_lt_of_pos i hn
  have h2 : -n < i.tmod n := neg_lt_tmod i hn
  split_ifs <;> omega

end Rts

namespace Rts.Demo2

theorem update_nil_clamp (m : InfluenceMap) :
    update m [] = some { m with mapData := resetMap m.mapData } := rfl

theorem sample_reset_clamp (m : InfluenceMap) (hv : m.Valid) (hr : 0 < m.rows) (p : Vector2f) :
    getInfluenceAtPosition { m with mapData := resetMap m.mapData } p = some 0 := by
  have hg := resetMap_rect hv.rect
  unfold getInfluenceAtPosition cellCoord
  simp only [if_neg hv.cellSize_ne]
  by_cases h1 : coord p.x m.cellSize < 0
  · rw [if_pos h1]
  · rw [if_neg h1, rowSize_of_rect hg hr]
    simp only
    by_cases h2 : (m.cols : Int) ≤ coord p.x m.cellSize
    · rw [if_pos h2]
    · rw [if_neg h2]
      by_cases h3 : coord p.y m.cellSize < 0
      · rw [if_pos h3]
      · rw [if_neg h3, hg.1]
        by_cases h4 : (m.rows : Int) ≤ coord p.y m.cellSize
        · rw [if_pos h4]
        · rw [if_neg h4]
          exact cellAt_resetMap hv.rect (by omega) (by omega)

end Rts.Demo2

namespace Rts.Demo1

theorem update_nil_wrap (m : InfluenceMap) :
    update m [] = some { m with mapData := resetMap m.mapData } := rfl

theorem wrapCoord_range {p : ℚ} {extent cellSize : Int} {size : Nat} (hcs : cellSize ≠ 0)
    (he : extent.tdiv cellSize = (size : Int)) (hs : 0 < size) :
    ∃ i : Int, wrapCoord p extent cellSize = some i ∧ 0 ≤ i ∧ i < size := by
  have hpos : (0 : Int) < size := by omega
  unfold wrapCoord cellCoord
  rw [if_neg hcs, he]
  simp only
  rw [if_neg (by omega)]
  obtain ⟨h1, h2⟩ := tmod_wrap_range (i := coord p cellSize) hpos
  by_cases hneg : (coord p cellSize).tmod size < 0
  · rw [if_pos hneg] at h1 h2 ⊢
    exact ⟨_, rfl, h2, h1⟩
  · rw [if_neg hneg] at h1 h2 ⊢
    exact ⟨_, rfl, h2, h1⟩

theorem sample_reset_wrap (m : InfluenceMap) (hv : m.Valid) (hr : 0 < m.rows) (hc : 0 < m.cols)
    (p : Vector2f) :
    getInfluenceAtPosition { m with mapData := resetMap m.mapData } p = some 0 := by
  obtain ⟨x, ex, hx0, hx1⟩ := wrapCoord_range (p := p.x) hv.cellSize_ne hv.cols_eq hc
  obtain ⟨y, ey, hy0, hy1⟩ := wrapCoord_range (p := p.y) hv.cellSize_ne hv.rows_eq hr
  unfold getInfluenceAtPosition
  simp only [ex, ey]
  rw [if_neg (by omega)]
  exact cellAt_resetMap hv.rect (by omega) (by omega)

end Rts.Demo1

namespace Rts

/-- C4, with the non-empty grid made explicit.  Both demos, on a field whose grid has
at least one row, whatever the cells held before: `update` on the empty contributor
list succeeds, and afterwards `getInfluenceAtPosition(p)` returns `0.0` for every
position `p`, in demo2 always and in demo1 when the grid also has at least one
column. -/
theorem sample_after_empty_update (m : InfluenceMap) (hv : m.Valid) (hr : 0 < m.rows)
    (p : Vector2f) :
    (0 < m.cols →
      ∃ m', Demo1.update m [] = some m' ∧ Demo1.getInfluenceAtPosition m' p = some 0) ∧
      (∃ m', Demo2.update m [] = some m' ∧ Demo2.getInfluenceAtPosition m' p = some 0) :=
  ⟨fun hc => ⟨_, Demo1.update_nil_wrap m, Demo1.sample_reset_wrap m hv hr hc p⟩,
    ⟨_, Demo2.update_nil_clamp m, Demo2.sample_reset_clamp m hv hr p⟩⟩

/-- The demo field after some earlier tick: a grid of the right shape with stale values. -/
theorem staleMap_valid :
    ({ demoMap with mapData := List.replicate 15 (List.replicate 20 (7 / 2)) } :
      InfluenceMap).Valid := by
  refine ⟨by decide, by decide, by decide, by decide, by decide, by decide, ?_⟩
  intro row hrow
  simp only [List.mem_replicate] at hrow
  rw [hrow.2]; rfl

theorem sample_after_empty_update_witness :
    (∃ m', Demo1.update { demoMap with mapData := List.replicate 15 (List.replicate 20 (7 / 2)) } []
        = some m' ∧ Demo1.getInfluenceAtPosition m' { x := -50, y := 900 } = some 0) ∧
      (∃ m', Demo2.update { demoMap with mapData := List.replicate 15 (List.replicate 20 (7 / 2)) } []
        = some m' ∧ Demo2.getInfluenceAtPosition m' { x := -50, y := 900 } = some 0) :=
  ⟨(sample_after_empty_update _ staleMap_valid (by decide) _).1 (by decide),
    (sample_after_empty_update _ staleMap_valid (by decide) _).2⟩

/-- C4 as stated fails: `InfluenceMap(800, 30, 40)` has positive parameters and no row.
`update` on the empty list completes, its loops having nothing to do, and the sample
afterwards is no value: demo2 reads `mapData[0].size()` on the empty vector and demo1
takes a remainder modulo `height / cellSize = 0`.  On `InfluenceMap(30, 600, 40)`, 15
rows without a column, `update` on the empty list completes as well and demo1's
sample takes a remainder modulo `width / cellSize = 0`. -/
theorem sample_after_empty_update_counterexample :
    ((0 : Int) < 800 ∧ (0 : Int) < 30 ∧ (0 : Int) < 40) ∧
    InfluenceMap.construct 800 30 40 = Construction.built shallowMap ∧
    Demo1.update shallowMap [] = some shallowMap ∧
    Demo1.getInfluenceAtPosition shallowMap { x := 20, y := 20 } = none ∧
    Demo2.update shallowMap [] = some shallowMap ∧
    Demo2.getInfluenceAtPosition shallowMap { x := 20, y := 20 } = none ∧
    InfluenceMap.construct 30 600 40 = Construction.built slimMap ∧
    Demo1.update slimMap [] = some slimMap ∧
    Demo1.getInfluenceAtPosition slimMap { x := 20, y := 20 } = none := by
  decide!

/-- C5. Both demos: `update` does not accumulate across calls.  On a field with a
non-empty grid, `update(S)` succeeds with a result that is the same for every prior
content of the cells, and calling `update(S)` again on that result returns it unchanged. -/
theorem update_forgets_prior (m : InfluenceMap) (units : List Unit) (prior : List (List ℚ))
    (hv : m.Valid) (hr : 0 < m.rows) (hc : 0 < m.cols) (hprior : Rect prior m.rows m.cols) :
    (∃ m1, Demo1.update m units = some m1 ∧
        Demo1.update { m with mapData := prior } units = some m1 ∧
        Demo1.update m1 units = some m1) ∧
      (∃ m1, Demo2.update m units = some m1 ∧
        Demo2.update { m with mapData := prior } units = some m1 ∧
        Demo2.update m1 units = some m1) := by
  have key1 : ∀ g, Rect g m.rows m.cols →
      Demo1.update { m with mapData := g } units = Demo1.update m units := by
    intro g hg
    unfold Demo1.update
    simp only [resetMap_eq_of_rect hg, resetMap_eq_of_rect hv.rect]
  have key2 : ∀ g, Rect g m.rows m.cols →
      Demo2.update { m with mapData := g } units = Demo2.update m units := by
    intro g hg
    unfold Demo2.update
    simp only [resetMap_eq_of_rect hg, resetMap_eq_of_rect hv.rect]
  constructor
  · obtain ⟨g1, e1, hg1, -⟩ := Demo1.update_spec_wrap m hr hc hv.cellSize_ne hv.rect units
    exact ⟨_, e1, by rw [key1 prior hprior, e1], by rw [key1 g1 hg1, e1]⟩
  · obtain ⟨g1, e1, hg1, -⟩ := Demo2.update_spec_clamp m hr hv.cellSize_ne hv.rect units
    exact ⟨_, e1, by rw [key2 prior hprior, e1], by rw [key2 g1 hg1, e1]⟩

theorem update_forgets_prior_witness :
    (∃ m1, Demo1.update demoMap [mkUnit 420 300 1, mkUnit 100 500 (-1)] = some m1 ∧
        Demo1.update { demoMap with mapData := List.replicate 15 (List.replicate 20 (7 / 2)) }
          [mkUnit 420 300 1, mkUnit 100 500 (-1)] = some m1 ∧
        Demo1.update m1 [mkUnit 420 300 1, mkUnit 100 500 (-1)] = some m1) ∧
      (∃ m1, Demo2.update demoMap [mkUnit 420 300 1, mkUnit 100 500 (-1)] = some m1 ∧
        Demo2.update { demoMap with mapData := List.replicate 15 (List.replicate 20 (7 / 2)) }
          [mkUnit 420 300 1, mkUnit 100 500 (-1)] = some m1 ∧
        Demo2.update m1 [mkUnit 420 300 1, mkUnit 100 500 (-1)] = some m1) :=
  update_forgets_prior demoMap [mkUnit 420 300 1, mkUnit 100 500 (-1)]
    (List.replicate 15 (List.replicate 20 (7 / 2))) demoMap_valid (by decide) (by decide)
    staleMap_valid.rect

theorem rect_ext {g g' : List (List ℚ)} {rows cols : Nat} (h : Rect g rows cols)
    (h' : Rect g' rows cols)
    (hcell : ∀ r c, r < rows → c < cols → cellAt g r c = cellAt g' r c) : g = g' := by
  obtain ⟨hl, hcs⟩ := h
  obtain ⟨hl', hcs'⟩ := h'
  apply List.ext_getElem (by omega)
  intro r h1 h2
  have e1 : (g.get ⟨r, h1⟩).length = cols := hcs _ (List.get_mem _ _ _)
  have e2 : (g'.get ⟨r, h2⟩).length = cols := hcs' _ (List.get_mem _ _ _)
  apply List.ext_getElem?
  intro c
  by_cases hc : c < cols
  · have := hcell r c (by omega) hc
    simpa [cellAt, List.getElem?_eq_getElem h1, List.getElem?_eq_getElem h2] using this
  · simp only [List.get_eq_getElem] at e1 e2
    rw [List.getElem?_eq_none (by omega), List.getElem?_eq_none (by omega)]

theorem rect_replicate (rows cols : Nat) (v : ℚ) :
    Rect (List.replicate rows (List.replicate cols v)) rows cols := by
  refine ⟨by simp, ?_⟩
  intro row hrow
  simp only [List.mem_replicate] at hrow
  rw [hrow.2]; simp

theorem cellAt_replicate {rows cols r c : Nat} (v : ℚ) (hr : r < rows) (hc : c < cols) :
    cellAt (List.replicate rows (List.replicate cols v)) r c = some v := by
  simp [cellAt, List.getElem?_replicate, hr, hc]

theorem atMostOne_ite (P : Prop) [Decidable P] (t x y : Int) :
    AtMostOne (if P then [influenceValue t x y] else []) := by
  by_cases h : P
  · rw [if_pos h]; exact Or.inr ⟨_, rfl, rnd_influenceValue t x y⟩
  · rw [if_neg h]; exact Or.inl rfl

theorem fsum_append_comm {la lb : List ℚ} (ha : AtMostOne la) (hb : AtMostOne lb) :
    fsum (la ++ lb) = fsum (lb ++ la) := by
  rcases ha with rfl | ⟨v, rfl, hv⟩
  · simp
  · rcases hb with rfl | ⟨w, rfl, hw⟩
    · simp
    · simp only [List.singleton_append, fsum_pair, hv, hw]
      exact fadd_comm v w

theorem fsum_cancel (P : Prop) [Decidable P] (x y : Int) :
    fsum ((if P then [influenceValue 1 x y] else []) ++
      (if P then [influenceValue (-1) x y] else [])) = 0 := by
  by_cases h : P
  · simp only [if_pos h, List.singleton_append, fsum_pair, rnd_influenceValue,
      influenceValue_neg_one]
    unfold fadd
    rw [add_neg_cancel, rnd_zero]
  · simp only [if_neg h, List.append_nil, fsum_nil]

theorem Demo2.atMostOne_values_clamp (u : Unit) (cellSize : Int) {rows cols r c : Nat}
    (hr : r < rows) (hc : c < cols) :
    AtMostOne (valuesAt (Demo2.hits u.teamSign (coord u.position.x cellSize)
      (coord u.position.y cellSize) rows cols) r c) := by
  rw [Demo2.valuesAt_hits_clamp _ _ _ hr hc]
  exact atMostOne_ite _ _ _ _

theorem Demo1.atMostOne_values_wrap (m : InfluenceMap) (u : Unit) (hv : m.Valid)
    (hrows : 7 ≤ m.rows) (hcols : 7 ≤ m.cols) (hin : m.Inside u.position) {r c : Nat}
    (hr : r < m.rows) (hc : c < m.cols) :
    AtMostOne (valuesAt (Demo1.hits u.teamSign (coord u.position.x m.cellSize)
      (coord u.position.y m.cellSize) m.rows m.cols) r c) := by
  rw [Demo1.valuesAt_hits_of_wide _ hrows hcols hv.rows_lt hv.cols_lt hin.1.1 hin.1.2
    hin.2.1 hin.2.2 hr hc]
  exact atMostOne_ite _ _ _ _

/-- C6 (amended). Swapping two contributors does not change the grid: in demo2 on every
field with a non-empty grid, and in demo1 when the grid has at least 7 rows and 7
columns and both contributors lie inside it (each cell then receives at most one
increment from each contributor, and a `float` addition commutes). -/
theorem update_swap (m : InfluenceMap) (a b : Unit) (hv : m.Valid) (hr : 0 < m.rows)
    (hc : 0 < m.cols) :
    (∃ m1, Demo2.update m [a, b] = some m1 ∧ Demo2.update m [b, a] = some m1) ∧
      (7 ≤ m.rows → 7 ≤ m.cols → m.Inside a.position → m.Inside b.position →
        ∃ m1, Demo1.update m [a, b] = some m1 ∧ Demo1.update m [b, a] = some m1) := by
  constructor
  · obtain ⟨g1, e1, hg1, hc1⟩ := Demo2.update_spec_clamp m hr hv.cellSize_ne hv.rect [a, b]
    obtain ⟨g2, e2, hg2, hc2⟩ := Demo2.update_spec_clamp m hr hv.cellSize_ne hv.rect [b, a]
    have hgg : g1 = g2 := by
      apply rect_ext hg1 hg2
      intro r c hr' hc'
      rw [hc1 r c hr' hc', hc2 r c hr' hc']
      simp only [List.flatMap_cons, List.flatMap_nil, List.append_nil]
      rw [fsum_append_comm (Demo2.atMostOne_values_clamp a m.cellSize hr' hc')
        (Demo2.atMostOne_values_clamp b m.cellSize hr' hc')]
    exact ⟨_, e1, by rw [e2, hgg]⟩
  · intro hrows hcols ha hb
    obtain ⟨g1, e1, hg1, hc1⟩ := Demo1.update_spec_wrap m hr hc hv.cellSize_ne hv.rect [a, b]
    obtain ⟨g2, e2, hg2, hc2⟩ := Demo1.update_spec_wrap m hr hc hv.cellSize_ne hv.rect [b, a]
    have hgg : g1 = g2 := by
      apply rect_ext hg1 hg2
      intro r c hr' hc'
      rw [hc1 r c hr' hc', hc2 r c hr' hc']
      simp only [List.flatMap_cons, List.flatMap_nil, List.append_nil]
      rw [fsum_append_comm (Demo1.atMostOne_values_wrap m a hv hrows hcols ha hr' hc')
        (Demo1.atMostOne_values_wrap m b hv hrows hcols hb hr' hc')]
    exact ⟨_, e1, by rw [e2, hgg]⟩

theorem update_swap_witness :
    (∃ m1, Demo2.update demoMap [mkUnit 420 300 1, mkUnit 340 220 (-1)] = some m1 ∧
        Demo2.update demoMap [mkUnit 340 220 (-1), mkUnit 420 300 1] = some m1) ∧
      (∃ m1, Demo1.update demoMap [mkUnit 420 300 1, mkUnit 340 220 (-1)] = some m1 ∧
        Demo1.update demoMap [mkUnit 340 220 (-1), mkUnit 420 300 1] = some m1) :=
  ⟨(update_swap demoMap (mkUnit 420 300 1) (mkUnit 340 220 (-1)) demoMap_valid (by decide)
      (by decide)).1,
    (update_swap demoMap (mkUnit 420 300 1) (mkUnit 340 220 (-1)) demoMap_valid (by decide)
      (by decide)).2 (by decide) (by decide) ⟨by decide!, by decide!⟩ ⟨by decide!, by decide!⟩⟩

/-- C6 (counterexample). demo2, the 20 x 15 field of the demo, three friendly
contributors in the cells `(10, 7)`, `(8, 5)` and `(8, 7)`: exchanging the last two
changes the value accumulated in the cell `(10, 5)`, sampled at `(420, 220)`, because
the three `float` additions round differently in the two orders.  And in demo1 on
`InfluenceMap(280, 120, 40)` (3 rows), where the cell `(0, 2)` collects the two
increments `0.5` and `1/3` of each contributor, already the two orders of two
contributors of cell `(0, 0)` leave different values there, sampled at `(20, 100)`. -/
theorem update_permutation_counterexample :
    [mkUnit 420 300 1, mkUnit 340 220 1, mkUnit 340 300 1].Perm
        [mkUnit 420 300 1, mkUnit 340 300 1, mkUnit 340 220 1] ∧
      (Demo2.update demoMap [mkUnit 420 300 1, mkUnit 340 220 1, mkUnit 340 300 1]).bind
        (fun m => Demo2.getInfluenceAtPosition m { x := 420, y := 220 })
          = some (15567085 / 16777216) ∧
      (Demo2.update demoMap [mkUnit 420 300 1, mkUnit 340 300 1, mkUnit 340 220 1]).bind
        (fun m => Demo2.getInfluenceAtPosition m { x := 420, y := 220 })
          = some (15567086 / 16777216) ∧
      Demo2.update demoMap [mkUnit 420 300 1, mkUnit 340 220 1, mkUnit 340 300 1] ≠
        Demo2.update demoMap [mkUnit 420 300 1, mkUnit 340 300 1, mkUnit 340 220 1] ∧
      (Demo1.update narrowMap [mkUnit 20 20 1, mkUnit 20 20 (-1)]).bind
        (fun m => Demo1.getInfluenceAtPosition m { x := 20, y := 100 })
          = some (1 / 33554432) ∧
      (Demo1.update narrowMap [mkUnit 20 20 (-1), mkUnit 20 20 1]).bind
        (fun m => Demo1.getInfluenceAtPosition m { x := 20, y := 100 })
          = some (-1 / 33554432) := by
  have hall :
      ((Demo2.update demoMap [mkUnit 420 300 1, mkUnit 340 220 1, mkUnit 340 300 1]).bind
        (fun m => Demo2.getInfluenceAtPosition m { x := 420, y := 220 })
          = some (15567085 / 16777216) ∧
      (Demo2.update demoMap [mkUnit 420 300 1, mkUnit 340 300 1, mkUnit 340 220 1]).bind
        (fun m => Demo2.getInfluenceAtPosition m { x := 420, y := 220 })
          = some (15567086 / 16777216)) ∧
      ((Demo1.update narrowMap [mkUnit 20 20 1, mkUnit 20 20 (-1)]).bind
        (fun m => Demo1.getInfluenceAtPosition m { x := 20, y := 100 })
          = some (1 / 33554432) ∧
      (Demo1.update narrowMap [mkUnit 20 20 (-1), mkUnit 20 20 1]).bind
        (fun m => Demo1.getInfluenceAtPosition m { x := 20, y := 100 })
          = some (-1 / 33554432)) := by
    decide!
  obtain ⟨⟨h1, h2⟩, h3, h4⟩ := hall
  refine ⟨List.Perm.cons _ (List.Perm.swap _ _ _), h1, h2, ?_, h3, h4⟩
  intro h
  rw [h, h2] at h1
  revert h1
  decide!

/-- C7 (amended). Two contributors of affiliation `+1` and `-1` that resolve to the same
source cell leave every cell of the grid at exactly `0`: in demo2 on every field with a
non-empty grid, and in demo1 when the grid has at least 7 rows and 7 columns and the
source cell lies in the grid. -/
theorem opposite_cancel (m : InfluenceMap) (a b : Unit) (hv : m.Valid) (hr : 0 < m.rows)
    (hc : 0 < m.cols) (ha : a.teamSign = 1) (hb : b.teamSign = -1)
    (hx : coord a.position.x m.cellSize = coord b.position.x m.cellSize)
    (hy : coord a.position.y m.cellSize = coord b.position.y m.cellSize) :
    Demo2.update m [a, b] =
        some { m with mapData := List.replicate m.rows (List.replicate m.cols 0) } ∧
      (7 ≤ m.rows → 7 ≤ m.cols → m.Inside a.position →
        Demo1.update m [a, b] =
          some { m with mapData := List.replicate m.rows (List.replicate m.cols 0) }) := by
  constructor
  · obtain ⟨g1, e1, hg1, hc1⟩ := Demo2.update_spec_clamp m hr hv.cellSize_ne hv.rect [a, b]
    have hgg : g1 = List.replicate m.rows (List.replicate m.cols 0) := by
      apply rect_ext hg1 (rect_replicate _ _ _)
      intro r c hr' hc'
      rw [hc1 r c hr' hc', cellAt_replicate 0 hr' hc']
      simp only [List.flatMap_cons, List.flatMap_nil, List.append_nil]
      rw [Demo2.valuesAt_hits_clamp _ _ _ hr' hc', Demo2.valuesAt_hits_clamp _ _ _ hr' hc', ha, hb,
        ← hx, ← hy, fsum_cancel]
    rw [e1, hgg]
  · intro hrows hcols hin
    have hinb : m.Inside b.position := by
      unfold InfluenceMap.Inside at hin ⊢
      rw [← hx, ← hy]; exact hin
    obtain ⟨g1, e1, hg1, hc1⟩ := Demo1.update_spec_wrap m hr hc hv.cellSize_ne hv.rect [a, b]
    have hgg : g1 = List.replicate m.rows (List.replicate m.cols 0) := by
      apply rect_ext hg1 (rect_replicate _ _ _)
      intro r c hr' hc'
      rw [hc1 r c hr' hc', cellAt_replicate 0 hr' hc']
      simp only [List.flatMap_cons, List.flatMap_nil, List.append_nil]
      rw [Demo1.valuesAt_hits_of_wide _ hrows hcols hv.rows_lt hv.cols_lt hin.1.1 hin.1.2
          hin.2.1 hin.2.2 hr' hc',
        Demo1.valuesAt_hits_of_wide _ hrows hcols hv.rows_lt hv.cols_lt hinb.1.1 hinb.1.2
          hinb.2.1 hinb.2.2 hr' hc', ha, hb, ← hx, ← hy, fsum_cancel]
    rw [e1, hgg]

theorem opposite_cancel_witness :
    Demo2.update demoMap [mkUnit 420 300 1, mkUnit 430 290 (-1)] =
        some { demoMap with
          mapData := List.replicate demoMap.rows (List.replicate demoMap.cols 0) } ∧
      Demo1.update demoMap [mkUnit 420 300 1, mkUnit 430 290 (-1)] =
        some { demoMap with
          mapData := List.replicate demoMap.rows (List.replicate demoMap.cols 0) } :=
  ⟨(opposite_cancel demoMap (mkUnit 420 300 1) (mkUnit 430 290 (-1)) demoMap_valid (by decide)
      (by decide) rfl rfl (by decide!) (by decide!)).1,
    (opposite_cancel demoMap (mkUnit 420 300 1) (mkUnit 430 290 (-1)) demoMap_valid (by decide)
      (by decide) rfl rfl (by decide!) (by decide!)).2 (by decide) (by decide)
      ⟨by decide!, by decide!⟩⟩

/-- C7 (counterexample). demo1 on `InfluenceMap(280, 120, 40)` (3 rows of 7 cells), both
contributors in the cell `(0, 0)`.  The cell in row 2 of column 0 receives the offsets
`(0, -1)` and `(0, 2)` of each contributor: `0.5 + 1/3` is rounded up to binary32, and
subtracting `0.5` and `1/3` again leaves `2⁻²⁵`, not `0`. -/
theorem opposite_cancel_counterexample :
    InfluenceMap.construct 280 120 40 = Construction.built narrowMap ∧
      coord 20 40 = 0 ∧
      Demo1.update narrowMap [mkUnit 20 20 1, mkUnit 20 20 (-1)] =
        some { narrowMap with mapData :=
          [[0, 0, 0, 0, 0, 0, 0], [0, 0, 0, 0, 0, 0, 0], [1 / 33554432, 0, 0, 0, 0, 0, 0]] } ∧
      (1 / 33554432 : ℚ) ≠ 0 := by
  decide!

theorem quarter_le_influenceValue :
    ∀ x ∈ offsets, ∀ y ∈ offsets,
      distance x y ≤ ofInt influenceRadius → 1 / 4 ≤ influenceValue 1 x y :=
  fun x hx y hy => (offsets_table x hx y hy).2

theorem foldl_fadd_pos (l : List ℚ) (hl : ∀ v ∈ l, 1 / 4 ≤ v) :
    ∀ acc : ℚ, 0 ≤ acc → 0 ≤ l.foldl fadd acc ∧ (l ≠ [] → 0 < l.foldl fadd acc) := by
  induction l with
  | nil => intro acc h; exact ⟨h, fun hne => absurd rfl hne⟩
  | cons v l ih =>
    intro acc hacc
    have hv : 1 / 4 ≤ v := hl v (by simp)
    have hsmall : pow2 (-149) ≤ 1 / 4 := by
      have h1 : pow2 (-2) = 1 / 4 := by rw [pow2_eq_zpow]; norm_num
      rw [← h1]
      exact pow2_le_pow2 (by norm_num)
    have hstep : 0 < fadd acc v := rnd_pos (by linarith)
    obtain ⟨h1, h2⟩ := ih (fun w hw => hl w (by simp [hw])) (fadd acc v) hstep.le
    rw [List.foldl_cons]
    refine ⟨h1, fun _ => ?_⟩
    by_cases hnil : l = []
    · subst hnil; exact hstep
    · exact h2 hnil

theorem fsum_pos {l : List ℚ} (hl : ∀ v ∈ l, 1 / 4 ≤ v) (hne : l ≠ []) : 0 < fsum l :=
  (foldl_fadd_pos l hl 0 le_rfl).2 hne

end Rts

namespace Rts.Demo1

theorem wrap_pred {size : Nat} (h0 : 0 < size) (hb : size < 2 ^ 31) :
    (((0 : Int) + -1 + size) % 2 ^ 64).toNat % size = size - 1 := by
  have e : ((0 : Int) + -1 + size) % 2 ^ 64 = ((size - 1 : Nat) : Int) := by
    rw [Int.emod_eq_of_lt (by omega) (by omega)]; omega
  rw [e, Int.toNat_ofNat, Nat.mod_eq_of_lt (by omega)]

theorem wrap_zero {size : Nat} (hb : size < 2 ^ 31) :
    (((0 : Int) + 0 + size) % 2 ^ 64).toNat % size = 0 := by
  have e : ((0 : Int) + 0 + size) % 2 ^ 64 = ((size : Nat) : Int) := by
    rw [Int.emod_eq_of_lt (by omega) (by omega)]; omega
  rw [e, Int.toNat_ofNat, Nat.mod_self]

theorem values_ge_quarter (unitX unitY : Int) (rows cols r c : Nat) :
    ∀ v ∈ valuesAt (hits 1 unitX unitY rows cols) r c, 1 / 4 ≤ v := by
  intro v hv
  rw [valuesAt_hits_wrap] at hv
  simp only [List.mem_flatMap, List.mem_filterMap] at hv
  obtain ⟨y, hy, x, hx, hxy⟩ := hv
  split_ifs at hxy with hcond
  cases hxy
  exact quarter_le_influenceValue x hx y hy hcond.2.2

/-- C8. demo1 (wrap): on a field with a non-empty grid, after `update` on a single
contributor of affiliation `+1` whose source cell is the edge cell `(0, 0)`, the
opposite-edge cell in column `cols - 1` of row 0 and the one in row `rows - 1` of
column 0 both hold a strictly positive value. -/
theorem edge_wraps_positive (m : InfluenceMap) (u : Unit) (hv : m.Valid) (hr : 0 < m.rows)
    (hc : 0 < m.cols) (hteam : u.teamSign = 1) (hx : coord u.position.x m.cellSize = 0)
    (hy : coord u.position.y m.cellSize = 0) :
    ∃ g, update m [u] = some { m with mapData := g } ∧
      (∃ v, cellAt g 0 (m.cols - 1) = some v ∧ 0 < v) ∧
      (∃ v, cellAt g (m.rows - 1) 0 = some v ∧ 0 < v) := by
  obtain ⟨g, e, hg, hcell⟩ := update_spec_wrap m hr hc hv.cellSize_ne hv.rect [u]
  have hd1 : distance (-1) 0 ≤ ofInt influenceRadius :=
    (distance_le_iff_all (-1) (by decide) 0 (by decide)).mpr (by norm_num)
  have hd2 : distance 0 (-1) ≤ ofInt influenceRadius :=
    (distance_le_iff_all 0 (by decide) (-1) (by decide)).mpr (by norm_num)
  refine ⟨g, e, ⟨_, hcell 0 (m.cols - 1) hr (by omega), ?_⟩,
    ⟨_, hcell (m.rows - 1) 0 (by omega) hc, ?_⟩⟩
  · simp only [List.flatMap_cons, List.flatMap_nil, List.append_nil, hx, hy, hteam]
    apply fsum_pos (values_ge_quarter _ _ _ _ _ _)
    apply List.ne_nil_of_mem (a := influenceValue 1 (-1) 0)
    rw [valuesAt_hits_wrap]
    simp only [List.mem_flatMap, List.mem_filterMap]
    refine ⟨0, by decide, -1, by decide, ?_⟩
    rw [if_pos ⟨wrap_pred hc hv.cols_lt, wrap_zero hv.rows_lt, hd1⟩]
  · simp only [List.flatMap_cons, List.flatMap_nil, List.append_nil, hx, hy, hteam]
    apply fsum_pos (values_ge_quarter _ _ _ _ _ _)
    apply List.ne_nil_of_mem (a := influenceValue 1 0 (-1))
    rw [valuesAt_hits_wrap]
    simp only [List.mem_flatMap, List.mem_filterMap]
    refine ⟨-1, by decide, 0, by decide, ?_⟩
    rw [if_pos ⟨wrap_zero hv.cols_lt, wrap_pred hr hv.rows_lt, hd2⟩]

theorem edge_wraps_positive_witness :
    ∃ g, update demoMap [mkUnit 20 20 1] = some { demoMap with mapData := g } ∧
      (∃ v, cellAt g 0 (demoMap.cols - 1) = some v ∧ 0 < v) ∧
      (∃ v, cellAt g (demoMap.rows - 1) 0 = some v ∧ 0 < v) :=
  edge_wraps_positive demoMap (mkUnit 20 20 1) demoMap_valid (by decide) (by decide) rfl
    (by decide!) (by decide!)

end Rts.Demo1

namespace Rts

theorem foldlM_map_units (apply : InfluenceMap → Unit → Option InfluenceMap)
    (f : Unit → Unit) (hf : ∀ m u, apply m (f u) = apply m u) (units : List Unit) :
    ∀ m, (units.map f).foldlM apply m = units.foldlM apply m := by
  induction units with
  | nil => intro m; rfl
  | cons u units ih =>
    intro m
    rw [List.map_cons, List.foldlM_cons, List.foldlM_cons, hf]
    cases apply m u with
    | none => rfl
    | some m1 => exact ih m1

/-- C9 (amended). Both demos: `update` never reads the `alive` flag.  Every contributor
of the list is applied, dead or alive, so the grid is the same whatever the flags are:
overwriting the flags with arbitrary values `flag u` leaves the result of `update`
unchanged.  Removing the dead contributors therefore leaves the grid unchanged only
when there is none to remove, which the main loop ensures by erasing dead units from
the list after every tick. -/
theorem update_ignores_alive (m : InfluenceMap) (units : List Unit) (flag : Unit → Bool) :
    (Demo1.update m (units.map (fun u => { u with alive := flag u })) = Demo1.update m units ∧
      Demo2.update m (units.map (fun u => { u with alive := flag u })) = Demo2.update m units) ∧
    ((∀ u ∈ units, u.alive = true) →
      Demo1.update m (units.filter (fun u => u.alive)) = Demo1.update m units ∧
      Demo2.update m (units.filter (fun u => u.alive)) = Demo2.update m units) := by
  refine ⟨⟨foldlM_map_units Demo1.applyInfluence (fun u => { u with alive := flag u })
      (fun _ _ => rfl) units _,
    foldlM_map_units Demo2.applyInfluence (fun u => { u with alive := flag u })
      (fun _ _ => rfl) units _⟩, ?_⟩
  intro hall
  have hf : units.filter (fun u => u.alive) = units := List.filter_eq_self.mpr hall
  rw [hf]
  exact ⟨rfl, rfl⟩

theorem update_ignores_alive_witness :
    (Demo1.update demoMap
          ([mkUnit 420 300 1, mkUnit 100 100 (-1)].map (fun u => { u with alive := false }))
        = Demo1.update demoMap [mkUnit 420 300 1, mkUnit 100 100 (-1)] ∧
      Demo2.update demoMap
          ([mkUnit 420 300 1, mkUnit 100 100 (-1)].map (fun u => { u with alive := false }))
        = Demo2.update demoMap [mkUnit 420 300 1, mkUnit 100 100 (-1)]) ∧
    (Demo1.update demoMap ([mkUnit 420 300 1, mkUnit 100 100 (-1)].filter (fun u => u.alive))
        = Demo1.update demoMap [mkUnit 420 300 1, mkUnit 100 100 (-1)] ∧
      Demo2.update demoMap ([mkUnit 420 300 1, mkUnit 100 100 (-1)].filter (fun u => u.alive))
        = Demo2.update demoMap [mkUnit 420 300 1, mkUnit 100 100 (-1)]) :=
  ⟨(update_ignores_alive demoMap [mkUnit 420 300 1, mkUnit 100 100 (-1)] (fun _ => false)).1,
    (update_ignores_alive demoMap [mkUnit 420 300 1, mkUnit 100 100 (-1)] (fun _ => false)).2
      (by decide)⟩

/-- C9 (counterexample). A dead contributor is not skipped: with the single dead unit
of cell `(10, 7)` in the list, both demos leave `1.0` in that cell, while the list
with the dead unit removed (the empty list) leaves `0.0`. -/
theorem dead_contributor_counterexample :
    deadUnit.alive = false ∧ [deadUnit].filter (fun u => u.alive) = [] ∧
      (Demo1.update demoMap [deadUnit]).bind
        (fun m => Demo1.getInfluenceAtPosition m { x := 420, y := 300 }) = some 1 ∧
      (Demo1.update demoMap ([deadUnit].filter (fun u => u.alive))).bind
        (fun m => Demo1.getInfluenceAtPosition m { x := 420, y := 300 }) = some 0 ∧
      (Demo2.update demoMap [deadUnit]).bind
        (fun m => Demo2.getInfluenceAtPosition m { x := 420, y := 300 }) = some 1 ∧
      (Demo2.update demoMap ([deadUnit].filter (fun u => u.alive))).bind
        (fun m => Demo2.getInfluenceAtPosition m { x := 420, y := 300 }) = some 0 := by
  decide!

theorem InfluenceMap.Valid.with_grid {m : InfluenceMap} (h : m.Valid) {g : List (List ℚ)}
    (hg : Rect g m.rows m.cols) : ({ m with mapData := g } : InfluenceMap).Valid :=
  ⟨h.1, h.2.1, h.2.2.1, h.2.2.2.1, h.2.2.2.2.1, hg⟩

end Rts

namespace Rts.Demo2

theorem sample_total_clamp (m : InfluenceMap) (hv : m.Valid) (hr : 0 < m.rows) (p : Vector2f) :
    ∃ v, getInfluenceAtPosition m p = some v := by
  have hg := hv.rect
  unfold getInfluenceAtPosition cellCoord
  simp only [if_neg hv.cellSize_ne]
  by_cases h1 : coord p.x m.cellSize < 0
  · exact ⟨0, by rw [if_pos h1]⟩
  · rw [if_neg h1, rowSize_of_rect hg hr]
    simp only
    by_cases h2 : (m.cols : Int) ≤ coord p.x m.cellSize
    · exact ⟨0, by rw [if_pos h2]⟩
    · rw [if_neg h2]
      by_cases h3 : coord p.y m.cellSize < 0
      · exact ⟨0, by rw [if_pos h3]⟩
      · rw [if_neg h3, hg.1]
        by_cases h4 : (m.rows : Int) ≤ coord p.y m.cellSize
        · exact ⟨0, by rw [if_pos h4]⟩
        · rw [if_neg h4]
          exact cellAt_isSome_of_rect hg (by omega) (by omega)

end Rts.Demo2

namespace Rts.Demo1

theorem sample_total_wrap (m : InfluenceMap) (hv : m.Valid) (hr : 0 < m.rows) (hc : 0 < m.cols)
    (p : Vector2f) : ∃ v, getInfluenceAtPosition m p = some v := by
  obtain ⟨x, ex, hx0, hx1⟩ := wrapCoord_range (p := p.x) hv.cellSize_ne hv.cols_eq hc
  obtain ⟨y, ey, hy0, hy1⟩ := wrapCoord_range (p := p.y) hv.cellSize_ne hv.rows_eq hr
  unfold getInfluenceAtPosition
  simp only [ex, ey]
  rw [if_neg (by omega)]
  exact cellAt_isSome_of_rect hv.rect (by omega) (by omega)

end Rts.Demo1

namespace Rts

/-- C11 (amended). On every field whose grid has at least one row, whatever the cells
hold, demo2's `update` completes for every contributor list and leaves a field of the
same shape, and `getInfluenceAtPosition` completes for every position, before and
after the update; when the grid also has at least one column the same holds for
demo1.  No run reaches an out-of-range `mapData[..]` or a zero divisor. -/
theorem update_sample_total (m : InfluenceMap) (units : List Unit) (p : Vector2f)
    (hv : m.Valid) (hr : 0 < m.rows) :
    ((∃ m', Demo2.update m units = some m' ∧ m'.Valid ∧
        ∃ v, Demo2.getInfluenceAtPosition m' p = some v) ∧
      ∃ v, Demo2.getInfluenceAtPosition m p = some v) ∧
    (0 < m.cols →
      (∃ m', Demo1.update m units = some m' ∧ m'.Valid ∧
        ∃ v, Demo1.getInfluenceAtPosition m' p = some v) ∧
      ∃ v, Demo1.getInfluenceAtPosition m p = some v) := by
  refine ⟨⟨?_, Demo2.sample_total_clamp m hv hr p⟩, fun hc => ⟨?_, Demo1.sample_total_wrap m hv hr hc p⟩⟩
  · obtain ⟨g, e, hg, -⟩ := Demo2.update_spec_clamp m hr hv.cellSize_ne hv.rect units
    exact ⟨_, e, hv.with_grid hg, Demo2.sample_total_clamp _ (hv.with_grid hg) hr p⟩
  · obtain ⟨g, e, hg, -⟩ := Demo1.update_spec_wrap m hr hc hv.cellSize_ne hv.rect units
    exact ⟨_, e, hv.with_grid hg, Demo1.sample_total_wrap _ (hv.with_grid hg) hr hc p⟩

theorem update_sample_total_witness :
    ((∃ m', Demo2.update demoMap [mkUnit 420 300 1, mkUnit (-50) 900 (-1)] = some m' ∧ m'.Valid ∧
        ∃ v, Demo2.getInfluenceAtPosition m' { x := -50, y := 900 } = some v) ∧
      ∃ v, Demo2.getInfluenceAtPosition demoMap { x := -50, y := 900 } = some v) ∧
    ((∃ m', Demo1.update demoMap [mkUnit 420 300 1, mkUnit (-50) 900 (-1)] = some m' ∧ m'.Valid ∧
        ∃ v, Demo1.getInfluenceAtPosition m' { x := -50, y := 900 } = some v) ∧
      ∃ v, Demo1.getInfluenceAtPosition demoMap { x := -50, y := 900 } = some v) :=
  ⟨(update_sample_total demoMap [mkUnit 420 300 1, mkUnit (-50) 900 (-1)] { x := -50, y := 900 }
      demoMap_valid (by decide)).1,
    (update_sample_total demoMap [mkUnit 420 300 1, mkUnit (-50) 900 (-1)] { x := -50, y := 900 }
      demoMap_valid (by decide)).2 (by decide)⟩

/-- C11 as stated fails: `InfluenceMap(800, 30, 40)` has positive parameters and no
row, so `mapData[0]` does not exist and `height / cellSize` is `0`; with one
contributor `update` reads `mapData[0].size()` in both demos, and sampling reads it
in demo2 and takes a remainder modulo `0` in demo1.  On `InfluenceMap(30, 600, 40)`,
15 rows without a column, demo1 takes a remainder modulo `mapData[0].size() = 0`. -/
theorem update_sample_total_counterexample :
    ((0 : Int) < 800 ∧ (0 : Int) < 30 ∧ (0 : Int) < 40) ∧
    InfluenceMap.construct 800 30 40 = Construction.built shallowMap ∧
    Demo2.update shallowMap [mkUnit 20 20 1] = none ∧
    Demo2.getInfluenceAtPosition shallowMap { x := 20, y := 20 } = none ∧
    Demo1.update shallowMap [mkUnit 20 20 1] = none ∧
    Demo1.getInfluenceAtPosition shallowMap { x := 20, y := 20 } = none ∧
    InfluenceMap.construct 30 600 40 = Construction.built slimMap ∧
    Demo1.update slimMap [mkUnit 20 20 1] = none ∧
    Demo1.getInfluenceAtPosition slimMap { x := 20, y := 20 } = none := by
  decide!

theorem rnd_eq (q : ℚ) (hq : q ≠ 0) :
    rnd q = (roundHalfEven (q / pow2 (max (ilog2 q) (-126) - 23)) : ℚ)
      * pow2 (max (ilog2 q) (-126) - 23) := by
  unfold rnd roundTo
  rw [if_neg hq]
  norm_num

theorem natCast_le_rnd {K : Nat} {q : ℚ} (hK : K ≤ 2 ^ 24) (h : (K : ℚ) ≤ q) :
    (K : ℚ) ≤ rnd q := by
  rcases Nat.eq_zero_or_pos K with h0 | hpos
  · subst h0
    exact_mod_cast rnd_nonneg (by exact_mod_cast h)
  have hK1 : (1 : ℚ) ≤ K := by exact_mod_cast hpos
  have hq : 0 < q := by linarith
  rw [rnd_eq q hq.ne']
  obtain ⟨hlo, hhi⟩ := ilog2_spec hq.ne'
  rw [abs_of_pos hq] at hlo hhi
  have he0 : 0 ≤ ilog2 q := by
    have : pow2 0 < pow2 (ilog2 q + 1) := by
      rw [pow2_zero]; linarith
    have := pow2_lt_pow2_iff.mp this
    omega
  have hmax : max (ilog2 q) (-126) = ilog2 q := max_eq_left (by omega)
  rw [hmax]
  have hX := pow2_pos (ilog2 q - 23)
  by_cases hc : ilog2 q - 23 ≤ 0
  · obtain ⟨k, hk⟩ := Int.eq_ofNat_of_zero_le (by omega : 0 ≤ -(ilog2 q - 23))
    have hinv : pow2 (k : Int) * pow2 (ilog2 q - 23) = 1 := by
      rw [← hk]; exact pow2_neg_mul _
    have h1 : (((K * 2 ^ k : Nat) : Int) : ℚ) ≤ q / pow2 (ilog2 q - 23) := by
      rw [le_div_iff₀ hX]
      push_cast
      have e : ((2 : ℚ) ^ k) = pow2 (k : Int) := by rw [pow2_natCast]; push_cast; rfl
      rw [e, mul_assoc, hinv, mul_one]
      exact h
    have h2 := le_roundHalfEven h1
    have h3 : (((K * 2 ^ k : Nat) : Int) : ℚ)
        ≤ (roundHalfEven (q / pow2 (ilog2 q - 23)) : ℚ) := by exact_mod_cast h2
    calc (K : ℚ) = (((K * 2 ^ k : Nat) : Int) : ℚ) * pow2 (ilog2 q - 23) := by
          push_cast
          have e : ((2 : ℚ) ^ k) = pow2 (k : Int) := by rw [pow2_natCast]; push_cast; rfl
          rw [e, mul_assoc, hinv, mul_one]
      _ ≤ _ := mul_le_mul_of_nonneg_right h3 hX.le
  · have hsplit : pow2 (ilog2 q) = pow2 23 * pow2 (ilog2 q - 23) := by
      rw [← pow2_add]; congr 1; omega
    have h1 : (((2 ^ 23 : Nat) : Int) : ℚ) ≤ q / pow2 (ilog2 q - 23) := by
      rw [le_div_iff₀ hX]
      have e : (((2 ^ 23 : Nat) : Int) : ℚ) = pow2 23 := by
        rw [show (23 : Int) = ((23 : Nat) : Int) from rfl, pow2_natCast]; push_cast; rfl
      rw [e, ← hsplit]
      exact hlo
    have h2 := le_roundHalfEven h1
    have h3 : (((2 ^ 23 : Nat) : Int) : ℚ)
        ≤ (roundHalfEven (q / pow2 (ilog2 q - 23)) : ℚ) := by exact_mod_cast h2
    have h4 : pow2 24 ≤ pow2 (ilog2 q) := pow2_le_pow2 (by omega)
    have e24 : pow2 24 = ((2 ^ 24 : Nat) : ℚ) := by
      rw [show (24 : Int) = ((24 : Nat) : Int) from rfl, pow2_natCast]
    have e23 : (((2 ^ 23 : Nat) : Int) : ℚ) = pow2 23 := by
      rw [show (23 : Int) = ((23 : Nat) : Int) from rfl, pow2_natCast]; push_cast; rfl
    calc (K : ℚ) ≤ ((2 ^ 24 : Nat) : ℚ) := by exact_mod_cast hK
      _ = pow2 24 := e24.symm
      _ ≤ pow2 (ilog2 q) := h4
      _ = (((2 ^ 23 : Nat) : Int) : ℚ) * pow2 (ilog2 q - 23) := by rw [e23, hsplit]
      _ ≤ _ := mul_le_mul_of_nonneg_right h3 hX.le

theorem rnd_nonpos {q : ℚ} (h : q ≤ 0) : rnd q ≤ 0 := by
  have := rnd_nonneg (neg_nonneg.mpr h)
  rw [rnd_neg] at this
  linarith

theorem pow2_24 : pow2 24 = 16777216 := by
  rw [pow2_eq_zpow]; norm_num

theorem rnd_le_natCast {K : Nat} {q : ℚ} (hK : K ≤ 2 ^ 24) (h : q ≤ (K : ℚ)) :
    rnd q ≤ (K : ℚ) := by
  rcases le_or_lt q 0 with hq0 | hq
  · exact le_trans (rnd_nonpos hq0) (by positivity)
  rw [rnd_eq q hq.ne']
  obtain ⟨hlo, hhi⟩ := ilog2_spec hq.ne'
  rw [abs_of_pos hq] at hlo hhi
  have hKq : (K : ℚ) ≤ 16777216 := by exact_mod_cast hK
  have he : ilog2 q ≤ 24 := by
    have : pow2 (ilog2 q) < pow2 25 := by
      have e25 : pow2 25 = 33554432 := by rw [pow2_eq_zpow]; norm_num
      rw [e25]; linarith
    have := pow2_lt_pow2_iff.mp this
    omega
  have hX := pow2_pos (max (ilog2 q) (-126) - 23)
  by_cases hc : max (ilog2 q) (-126) - 23 ≤ 0
  · obtain ⟨k, hk⟩ := Int.eq_ofNat_of_zero_le
      (by omega : 0 ≤ -(max (ilog2 q) (-126) - 23))
    have hinv : pow2 (k : Int) * pow2 (max (ilog2 q) (-126) - 23) = 1 := by
      rw [← hk]; exact pow2_neg_mul _
    have e : ((2 : ℚ) ^ k) = pow2 (k : Int) := by rw [pow2_natCast]; push_cast; rfl
    have h1 : q / pow2 (max (ilog2 q) (-126) - 23) ≤ (((K * 2 ^ k : Nat) : Int) : ℚ) := by
      rw [div_le_iff₀ hX]
      push_cast
      rw [e, mul_assoc, hinv, mul_one]
      exact h
    have h2 := roundHalfEven_le h1
    have h3 : (roundHalfEven (q / pow2 (max (ilog2 q) (-126) - 23)) : ℚ)
        ≤ (((K * 2 ^ k : Nat) : Int) : ℚ) := by exact_mod_cast h2
    calc _ ≤ (((K * 2 ^ k : Nat) : Int) : ℚ) * pow2 (max (ilog2 q) (-126) - 23) :=
          mul_le_mul_of_nonneg_right h3 hX.le
      _ = (K : ℚ) := by
          push_cast
          rw [e, mul_assoc, hinv, mul_one]
  · have he24 : ilog2 q = 24 := by
      rcases max_cases (ilog2 q) (-126) with ⟨h1, _⟩ | ⟨h1, _⟩ <;> rw [h1] at hc <;> omega
    have hmax : max (ilog2 q) (-126) - 23 = 1 := by rw [he24]; rfl
    rw [hmax]
    rw [he24, pow2_24] at hlo
    have hq24 : q = 16777216 := le_antisymm (le_trans h hKq) hlo
    have hK24 : (K : ℚ) = 16777216 := le_antisymm hKq (by rw [← hq24]; exact h)
    have e1 : pow2 1 = 2 := by rw [pow2_eq_zpow]; norm_num
    rw [hq24, hK24, e1]
    have e2 : (16777216 : ℚ) / 2 = ((8388608 : Int) : ℚ) := by norm_num
    rw [e2, roundHalfEven_intCast]
    norm_num

theorem abs_rnd_le_natCast {K : Nat} {q : ℚ} (hK : K ≤ 2 ^ 24) (h : |q| ≤ (K : ℚ)) :
    |rnd q| ≤ (K : ℚ) := by
  rw [abs_le] at h ⊢
  constructor
  · have := rnd_le_natCast hK (by linarith : -q ≤ (K : ℚ))
    rw [rnd_neg] at this
    linarith
  · exact rnd_le_natCast hK h.2

theorem rnd_le_saturated {q : ℚ} (h : q ≤ 16777217) : rnd q ≤ 16777216 := by
  rcases le_or_lt q 16777216 with h1 | h1
  · have := rnd_le_natCast (K := 2 ^ 24) (q := q) le_rfl (by norm_num; exact h1)
    norm_num at this
    exact this
  have hq : 0 < q := by linarith
  rw [rnd_eq q hq.ne']
  obtain ⟨hlo, hhi⟩ := ilog2_spec hq.ne'
  rw [abs_of_pos hq] at hlo hhi
  have he24 : ilog2 q = 24 := by
    have e25 : pow2 25 = 33554432 := by rw [pow2_eq_zpow]; norm_num
    have a : pow2 (ilog2 q) < pow2 25 := by rw [e25]; linarith
    have b : pow2 24 < pow2 (ilog2 q + 1) := by rw [pow2_24]; linarith
    have := pow2_lt_pow2_iff.mp a
    have := pow2_lt_pow2_iff.mp b
    omega
  have hmax : max (ilog2 q) (-126) - 23 = 1 := by rw [he24]; rfl
  have e1 : pow2 1 = 2 := by rw [pow2_eq_zpow]; norm_num
  rw [hmax, e1]
  have hfl : ⌊q / 2⌋ = 8388608 := by
    rw [Int.floor_eq_iff]
    constructor
    · push_cast; linarith
    · push_cast; linarith
  have hr : roundHalfEven (q / 2) ≤ 8388608 := by
    unfold roundHalfEven
    rw [hfl]
    have hfr : ¬ (1 / 2 < q / 2 - ((8388608 : Int) : ℚ)) := by
      push_cast; linarith
    rw [if_neg hfr]
    split_ifs <;> first | exact le_rfl | (exfalso; omega)
  have hr' : (roundHalfEven (q / 2) : ℚ) ≤ 8388608 := by exact_mod_cast hr
  linarith

theorem abs_rnd_le_saturated {q : ℚ} (h : |q| ≤ 16777217) : |rnd q| ≤ 16777216 := by
  rw [abs_le] at h ⊢
  constructor
  · have := rnd_le_saturated (by linarith : -q ≤ 16777217)
    rw [rnd_neg] at this
    linarith
  · exact rnd_le_saturated h.2

/-- A `float` sum of `n` terms of magnitude at most one has magnitude at most `n`
(and never exceeds `2 ^ 24`, where adding one no longer changes a `float`). -/
theorem abs_foldl_fadd_le (l : List ℚ) (hl : ∀ v ∈ l, |v| ≤ 1) :
    ∀ (acc : ℚ) (k : Nat), |acc| ≤ ((min k (2 ^ 24) : Nat) : ℚ) →
      |l.foldl fadd acc| ≤ ((min (k + l.length) (2 ^ 24) : Nat) : ℚ) := by
  induction l with
  | nil => intro acc k h; simpa using h
  | cons v l ih =>
    intro acc k h
    rw [List.foldl_cons]
    have hv : |v| ≤ 1 := hl v (List.mem_cons_self _ _)
    have hstep : |fadd acc v| ≤ ((min (k + 1) (2 ^ 24) : Nat) : ℚ) := by
      unfold fadd
      have hsum : |acc + v| ≤ ((min k (2 ^ 24) : Nat) : ℚ) + 1 :=
        le_trans (abs_add acc v) (add_le_add h hv)
      rcases Nat.lt_or_ge k (2 ^ 24) with hk | hk
      · have e1 : min k (2 ^ 24) = k := Nat.min_eq_left hk.le
        have e2 : min (k + 1) (2 ^ 24) = k + 1 := Nat.min_eq_left hk
        rw [e1] at hsum
        rw [e2]
        exact abs_rnd_le_natCast hk (by push_cast; exact hsum)
      · have e1 : min k (2 ^ 24) = 2 ^ 24 := Nat.min_eq_right hk
        have e2 : min (k + 1) (2 ^ 24) = 2 ^ 24 := Nat.min_eq_right (by omega)
        rw [e1] at hsum
        rw [e2]
        have := abs_rnd_le_saturated (q := acc + v) (by
          have e : (((2 ^ 24 : Nat) : ℚ)) = 16777216 := by norm_num
          rw [e] at hsum; linarith)
        norm_num
        exact this
    have := ih (fun w hw => hl w (List.mem_cons_of_mem _ hw)) (fadd acc v) (k + 1) hstep
    rw [List.length_cons]
    rw [show k + (l.length + 1) = k + 1 + l.length by omega]
    exact this

theorem abs_fsum_le (l : List ℚ) (hl : ∀ v ∈ l, |v| ≤ 1) : |fsum l| ≤ (l.length : ℚ) := by
  have h := abs_foldl_fadd_le l hl 0 0 (by simp)
  have h2 : ((min (0 + l.length) (2 ^ 24) : Nat) : ℚ) ≤ (l.length : ℚ) := by
    exact_mod_cast (by rw [Nat.zero_add]; exact Nat.min_le_left _ _)
  exact le_trans h h2

theorem toInt_neg (q : ℚ) : toInt (-q) = -toInt q := by
  unfold toInt
  rw [Rat.neg_num, Rat.neg_den, Int.neg_tdiv]

theorem toInt_neg_of_le {q : ℚ} (h : q ≤ -1) : toInt q < 0 := by
  have h1 : toInt (-q) = ⌊-q⌋ := toInt_of_nonneg (by linarith)
  have h2 : (1 : Int) ≤ ⌊-q⌋ := Int.le_floor.mpr (by push_cast; linarith)
  rw [toInt_neg] at h1
  omega

theorem ofInt_cellSize {cellSize : Int} (h0 : 0 < cellSize) (h1 : cellSize < 2 ^ 24) :
    ofInt cellSize = cellSize := by
  unfold ofInt
  exact rnd_intCast (by rw [abs_of_pos h0]; exact h1)

/-- A position at or beyond `-cellSize` on the negative side resolves to a negative
cell index. -/
theorem coord_neg_of_le {p : ℚ} {cellSize : Int} (h0 : 0 < cellSize) (h1 : cellSize < 2 ^ 24)
    (hp : p ≤ -(cellSize : ℚ)) : coord p cellSize < 0 := by
  unfold coord fdiv
  rw [ofInt_cellSize h0 h1]
  have hc : (0 : ℚ) < cellSize := by exact_mod_cast h0
  have hq : ((1 : Nat) : ℚ) ≤ -(p / cellSize) := by
    rw [← neg_div, le_div_iff₀ hc]
    push_cast
    linarith
  have := natCast_le_rnd (K := 1) (by norm_num) hq
  rw [rnd_neg] at this
  apply toInt_neg_of_le
  push_cast at this
  linarith

/-- A position at or beyond `K * cellSize` resolves to a cell index of at least `K`. -/
theorem le_coord_of_le {p : ℚ} {cellSize : Int} {K : Nat} (h0 : 0 < cellSize)
    (h1 : cellSize < 2 ^ 24) (hK : K ≤ 2 ^ 24) (hp : (K : ℚ) * cellSize ≤ p) :
    (K : Int) ≤ coord p cellSize := by
  unfold coord fdiv
  rw [ofInt_cellSize h0 h1]
  have hc : (0 : ℚ) < cellSize := by exact_mod_cast h0
  have hq : (K : ℚ) ≤ p / cellSize := by
    rw [le_div_iff₀ hc]; exact hp
  have h2 := natCast_le_rnd hK hq
  have h3 : (0 : ℚ) ≤ rnd (p / cellSize) := le_trans (by positivity) h2
  rw [toInt_of_nonneg h3]
  exact Int.le_floor.mpr (by exact_mod_cast h2)

theorem InfluenceMap.Valid.cols_mul_le {m : InfluenceMap} (h : m.Valid) :
    (m.cols : ℚ) * m.cellSize ≤ m.width := by
  have h1 := h.cols_eq
  have h2 : m.width.tdiv m.cellSize * m.cellSize ≤ m.width := by
    rw [Int.tdiv_eq_ediv h.2.1.le h.1.le]
    exact Int.ediv_mul_le _ h.cellSize_ne
  rw [h1] at h2
  exact_mod_cast h2

theorem InfluenceMap.Valid.rows_mul_le {m : InfluenceMap} (h : m.Valid) :
    (m.rows : ℚ) * m.cellSize ≤ m.height := by
  have h1 := h.rows_eq
  have h2 : m.height.tdiv m.cellSize * m.cellSize ≤ m.height := by
    rw [Int.tdiv_eq_ediv h.2.2.1.le h.1.le]
    exact Int.ediv_mul_le _ h.cellSize_ne
  rw [h1] at h2
  exact_mod_cast h2

end Rts

namespace Rts.Demo2

theorem sample_of_outside (m : InfluenceMap) (p : Vector2f) (hv : m.Valid) (hr : 0 < m.rows)
    (h : coord p.x m.cellSize < 0 ∨ (m.cols : Int) ≤ coord p.x m.cellSize ∨
      coord p.y m.cellSize < 0 ∨ (m.rows : Int) ≤ coord p.y m.cellSize) :
    getInfluenceAtPosition m p = some 0 := by
  have hg := hv.rect
  unfold getInfluenceAtPosition cellCoord
  simp only [if_neg hv.cellSize_ne]
  by_cases h1 : coord p.x m.cellSize < 0
  · rw [if_pos h1]
  · rw [if_neg h1, rowSize_of_rect hg hr]
    simp only
    by_cases h2 : (m.cols : Int) ≤ coord p.x m.cellSize
    · rw [if_pos h2]
    · rw [if_neg h2]
      by_cases h3 : coord p.y m.cellSize < 0
      · rw [if_pos h3]
      · rw [if_neg h3, hg.1]
        by_cases h4 : (m.rows : Int) ≤ coord p.y m.cellSize
        · rw [if_pos h4]
        · exfalso
          rcases h with h | h | h | h
          · exact h1 h
          · exact h2 h
          · exact h3 h
          · exact h4 h

/-- C12 (amended). demo2, on a field with at least one row and whatever the cells
hold: `getInfluenceAtPosition` returns `0.0` for every position whose cell indices
`static_cast<int>(p / cellSize)` fall outside the grid; when the cell size is below
`2 ^ 24` and the grid has at most `2 ^ 24` rows and columns, these are in particular
all positions with `x ≤ -cellSize`, `x ≥ width`, `y ≤ -cellSize` or `y ≥ height`.
Nothing is said of positions with `-cellSize < x < 0` or `-cellSize < y < 0`. -/
theorem sample_outside (m : InfluenceMap) (p : Vector2f) (hv : m.Valid) (hr : 0 < m.rows) :
    ((coord p.x m.cellSize < 0 ∨ (m.cols : Int) ≤ coord p.x m.cellSize ∨
        coord p.y m.cellSize < 0 ∨ (m.rows : Int) ≤ coord p.y m.cellSize) →
      getInfluenceAtPosition m p = some 0) ∧
    (m.cellSize < 2 ^ 24 → m.cols ≤ 2 ^ 24 → m.rows ≤ 2 ^ 24 →
      (p.x ≤ -(m.cellSize : ℚ) ∨ (m.width : ℚ) ≤ p.x ∨
        p.y ≤ -(m.cellSize : ℚ) ∨ (m.height : ℚ) ≤ p.y) →
      getInfluenceAtPosition m p = some 0) := by
  refine ⟨sample_of_outside m p hv hr, ?_⟩
  intro hcs hcols hrows h
  apply sample_of_outside m p hv hr
  rcases h with h | h | h | h
  · exact Or.inl (coord_neg_of_le hv.1 hcs h)
  · exact Or.inr (Or.inl (le_coord_of_le hv.1 hcs hcols (le_trans hv.cols_mul_le h)))
  · exact Or.inr (Or.inr (Or.inl (coord_neg_of_le hv.1 hcs h)))
  · exact Or.inr (Or.inr (Or.inr (le_coord_of_le hv.1 hcs hrows (le_trans hv.rows_mul_le h))))

theorem sample_outside_witness :
    getInfluenceAtPosition
        { demoMap with mapData := List.replicate 15 (List.replicate 20 (7 / 2)) }
        { x := -50, y := 300 } = some 0 ∧
      getInfluenceAtPosition
        { demoMap with mapData := List.replicate 15 (List.replicate 20 (7 / 2)) }
        { x := 100, y := 600 } = some 0 :=
  ⟨(sample_outside _ { x := -50, y := 300 } staleMap_valid (by decide)).1
      (Or.inl (by decide!)),
    (sample_outside _ { x := 100, y := 600 } staleMap_valid (by decide)).2
      (by decide) (by decide) (by decide) (Or.inr (Or.inr (Or.inr (by decide!))))⟩

/-- C12 as stated fails: the position `(-10, 20)` lies outside the world rectangle
`[0, 800) x [0, 600)`, its cell index `static_cast<int>(-10.0f / 40)` is `0` because the
conversion truncates toward zero, and after `update` with one friendly contributor
in cell `(0, 0)` the sample there is that cell's `1.0`, not `0.0`; the same holds at
`(-39, -39)`.  On the far side a grid of more than `2 ^ 24` columns can fail as well:
with `cellSize = 15` and `width = 1006633215` there are `67108881` columns, and the
position `x = 1006633216 ≥ width` has the `float` quotient `67108880`, the last column. -/
theorem sample_outside_counterexample :
    ((-10 : ℚ) < 0 ∧ coord (-10) 40 = 0) ∧
    (update demoMap [mkUnit 20 20 1]).bind
        (fun m => getInfluenceAtPosition m { x := -10, y := 20 }) = some 1 ∧
    (update demoMap [mkUnit 20 20 1]).bind
        (fun m => getInfluenceAtPosition m { x := -39, y := -39 }) = some 1 ∧
    ((1006633215 : Int).tdiv 15 = 67108881 ∧ rnd 1006633216 = 1006633216 ∧
      coord 1006633216 15 = 67108880) := by
  decide!

end Rts.Demo2

namespace Rts.Demo1

theorem tmod_wrap_eq_emod (i : Int) {n : Int} (hn : 0 < n) :
    (if i.tmod n < 0 then i.tmod n + n else i.tmod n) = i % n := by
  obtain ⟨h1, h0⟩ := tmod_wrap_range (i := i) hn
  have hd := Int.tmod_add_tdiv i n
  symm
  by_cases hneg : i.tmod n < 0
  · rw [if_pos hneg] at h0 h1 ⊢
    exact emod_unique h0 h1 (i.tdiv n - 1) (by linarith)
  · rw [if_neg hneg] at h0 h1 ⊢
    exact emod_unique h0 h1 (i.tdiv n) (by linarith)

theorem wrapCoord_eq_emod {p : ℚ} {extent cellSize : Int} {size : Nat} (hcs : cellSize ≠ 0)
    (he : extent.tdiv cellSize = (size : Int)) (hs : 0 < size) :
    wrapCoord p extent cellSize = some (coord p cellSize % (size : Int)) := by
  have hpos : (0 : Int) < size := by omega
  unfold wrapCoord cellCoord
  rw [if_neg hcs, he]
  simp only
  rw [if_neg (by omega), ← tmod_wrap_eq_emod _ hpos]
  split_ifs <;> rfl

theorem wrapIndex_eq_emod {i : Int} {size : Nat} (hs : 0 < size) (h1 : -(size : Int) ≤ i)
    (h2 : i < 2 ^ 31) (hb : size < 2 ^ 31) :
    wrapIndex (i + 0) size = some (i % (size : Int)).toNat := by
  unfold wrapIndex
  rw [if_neg (by omega), add_zero]
  congr 1
  exact wrap_eq_emod (by omega) (by omega)

theorem source_offset_in_radius : distance 0 0 ≤ ofInt influenceRadius := by decide!

/-- C13. demo1: for a position whose cell indices `(i, j) = static_cast<int>(p / cellSize)`
satisfy `-cols ≤ i` and `-rows ≤ j`, the cell that `getInfluenceAtPosition(p)` reads is
the cell to which the loop body of `applyInfluence` adds the offset-`(0, 0)`
contribution of a contributor located at `p`.  Below `-cols` (or `-rows`) the two
differ: for `p = (-840, 20)` on the 20 x 15 grid, `i = -21`, the sum
`unitX + x + mapData[0].size()` is negative and wraps modulo `2 ^ 64` in `size_t`, so
`applyInfluence` writes column `15`, while `getInfluenceAtPosition` reads column `19`;
after `update` with one friendly contributor at `p` the sample at `p` is `0.0` and
the contribution `1.0` sits in column `15`. -/
theorem sample_cell_vs_update_cell :
    (∀ (m : InfluenceMap) (p : Vector2f), m.Valid → 0 < m.rows → 0 < m.cols →
      -(m.cols : Int) ≤ coord p.x m.cellSize → coord p.x m.cellSize < 2 ^ 31 →
      -(m.rows : Int) ≤ coord p.y m.cellSize → coord p.y m.cellSize < 2 ^ 31 →
      ∃ cellX cellY : Nat,
        wrapIndex (coord p.x m.cellSize + 0) m.cols = some cellX ∧
        wrapIndex (coord p.y m.cellSize + 0) m.rows = some cellY ∧
        wrapCoord p.x m.width m.cellSize = some (cellX : Int) ∧
        wrapCoord p.y m.height m.cellSize = some (cellY : Int) ∧
        getInfluenceAtPosition m p = cellAt m.mapData cellY cellX ∧
        ∀ t : Int, applyCell t (coord p.x m.cellSize) (coord p.y m.cellSize) 0 m.mapData 0
          = addAt m.mapData cellY cellX (influenceValue t 0 0)) ∧
    (coord (-840) 40 = -21 ∧
      wrapIndex (coord (-840) 40 + 0) 20 = some 15 ∧
      wrapCoord (-840) 800 40 = some 19 ∧
      (update demoMap [mkUnit (-840) 20 1]).bind
        (fun m => getInfluenceAtPosition m { x := -840, y := 20 }) = some 0 ∧
      (update demoMap [mkUnit (-840) 20 1]).bind
        (fun m => cellAt m.mapData 0 15) = some 1) := by
  refine ⟨?_, by decide!⟩
  intro m p hv hr hc hx0 hx1 hy0 hy1
  have hcp : (0 : Int) < m.cols := by omega
  have hrp : (0 : Int) < m.rows := by omega
  have ex := wrapIndex_eq_emod hc hx0 hx1 hv.cols_lt
  have ey := wrapIndex_eq_emod hr hy0 hy1 hv.rows_lt
  have sx := wrapCoord_eq_emod (p := p.x) hv.cellSize_ne hv.cols_eq hc
  have sy := wrapCoord_eq_emod (p := p.y) hv.cellSize_ne hv.rows_eq hr
  have nx : 0 ≤ coord p.x m.cellSize % (m.cols : Int) := Int.emod_nonneg _ (by omega)
  have ny : 0 ≤ coord p.y m.cellSize % (m.rows : Int) := Int.emod_nonneg _ (by omega)
  have cx : (((coord p.x m.cellSize % (m.cols : Int)).toNat : Nat) : Int)
      = coord p.x m.cellSize % (m.cols : Int) := Int.toNat_of_nonneg nx
  have cy : (((coord p.y m.cellSize % (m.rows : Int)).toNat : Nat) : Int)
      = coord p.y m.cellSize % (m.rows : Int) := Int.toNat_of_nonneg ny
  refine ⟨_, _, ex, ey, by rw [sx, cx], by rw [sy, cy], ?_, ?_⟩
  · unfold getInfluenceAtPosition
    simp only [sx, sy]
    rw [if_neg (by omega)]
  · intro t
    unfold applyCell
    rw [rowSize_of_rect hv.rect hr]
    simp only
    rw [hv.rect.1, ex, ey]
    simp only
    rw [if_pos source_offset_in_radius]

theorem sample_cell_vs_update_cell_witness :
    ∃ cellX cellY : Nat,
      wrapIndex (coord (-50) demoMap.cellSize + 0) demoMap.cols = some cellX ∧
      wrapIndex (coord 620 demoMap.cellSize + 0) demoMap.rows = some cellY ∧
      wrapCoord (-50) demoMap.width demoMap.cellSize = some (cellX : Int) ∧
      wrapCoord 620 demoMap.height demoMap.cellSize = some (cellY : Int) ∧
      getInfluenceAtPosition demoMap { x := -50, y := 620 }
        = cellAt demoMap.mapData cellY cellX ∧
      ∀ t : Int, applyCell t (coord (-50) demoMap.cellSize) (coord 620 demoMap.cellSize) 0
          demoMap.mapData 0
        = addAt demoMap.mapData cellY cellX (influenceValue t 0 0) :=
  sample_cell_vs_update_cell.1 demoMap { x := -50, y := 620 } demoMap_valid (by decide)
    (by decide) (by decide!) (by decide!) (by decide!) (by decide!)

end Rts.Demo1

namespace Rts

theorem addAt_rect {g g' : List (List ℚ)} {rows cols r c : Nat} {v : ℚ}
    (hg : Rect g rows cols) (e : addAt g r c v = some g') : Rect g' rows cols := by
  unfold addAt at e
  cases hrow : g[r]? with
  | none => rw [hrow] at e; exact Option.noConfusion e
  | some row =>
    rw [hrow] at e
    simp only at e
    cases hold : row[c]? with
    | none => rw [hold] at e; exact Option.noConfusion e
    | some old =>
      rw [hold] at e
      simp only [Option.some.injEq] at e
      subst e
      have hmem : row ∈ g := List.getElem?_mem hrow
      refine ⟨by rw [List.length_set]; exact hg.1, ?_⟩
      intro row' hrow'
      rcases List.mem_or_eq_of_mem_set hrow' with h | h
      · exact hg.2 row' h
      · rw [h, List.length_set]; exact hg.2 row hmem

theorem foldlM_preserves {σ α : Type} (P : σ → Prop) (f : σ → α → Option σ)
    (hf : ∀ s x s', P s → f s x = some s' → P s') (xs : List α) :
    ∀ s s', P s → xs.foldlM f s = some s' → P s' := by
  induction xs with
  | nil =>
    intro s s' hs e
    simp only [List.foldlM_nil] at e
    cases e
    exact hs
  | cons x xs ih =>
    intro s s' hs e
    rw [List.foldlM_cons] at e
    cases h : f s x with
    | none => rw [h] at e; exact Option.noConfusion e
    | some s1 =>
      rw [h] at e
      exact ih s1 s' (hf s x s1 hs h) e

end Rts

namespace Rts.Demo2

theorem applyCell_rect_clamp {g g' : List (List ℚ)} {rows cols : Nat} (t ux uy y x : Int)
    (hg : Rect g rows cols) (e : applyCell t ux uy y g x = some g') : Rect g' rows cols := by
  unfold applyCell at e
  split at e
  · cases e; exact hg
  · split at e
    · exact Option.noConfusion e
    · split at e
      · cases e; exact hg
      · split at e
        · cases e; exact hg
        · split at e
          · cases e; exact hg
          · split at e
            · exact addAt_rect hg e
            · cases e; exact hg

theorem applyInfluence_sameShape_clamp {m0 m m' : InfluenceMap} (u : Unit) (h : SameShape m0 m)
    (e : applyInfluence m u = some m') : SameShape m0 m' := by
  unfold applyInfluence at e
  split at e
  · cases hf : offsets.foldlM
        (fun g y => offsets.foldlM (applyCell u.teamSign _ _ y) g) m.mapData with
    | none => rw [hf] at e; exact Option.noConfusion e
    | some g =>
      rw [hf] at e
      simp only [Option.map_some', Option.some.injEq] at e
      subst e
      refine ⟨h.1, h.2.1, h.2.2.1, ?_⟩
      refine foldlM_preserves (fun g => Rect g m0.rows m0.cols) _ ?_ offsets _ _ h.2.2.2 hf
      intro g1 y g2 hg1 e1
      exact foldlM_preserves (fun g => Rect g m0.rows m0.cols) _
        (fun g3 x g4 hg3 e3 => applyCell_rect_clamp _ _ _ _ _ hg3 e3) offsets _ _ hg1 e1
  · exact Option.noConfusion e

theorem update_sameShape_clamp {m m' : InfluenceMap} (hv : m.Valid) (units : List Unit)
    (e : update m units = some m') : SameShape m m' := by
  unfold update at e
  have h0 : SameShape m { m with mapData := resetMap m.mapData } :=
    ⟨rfl, rfl, rfl, resetMap_rect hv.rect⟩
  exact foldlM_preserves (SameShape m) _
    (fun s u s' hs es => applyInfluence_sameShape_clamp u hs es) units _ _ h0 e

end Rts.Demo2

namespace Rts.Demo1

theorem applyCell_rect_wrap {g g' : List (List ℚ)} {rows cols : Nat} (t ux uy y x : Int)
    (hg : Rect g rows cols) (e : applyCell t ux uy y g x = some g') : Rect g' rows cols := by
  unfold applyCell at e
  split at e
  · exact Option.noConfusion e
  · split at e
    · split at e
      · exact addAt_rect hg e
      · cases e; exact hg
    · exact Option.noConfusion e

theorem applyInfluence_sameShape_wrap {m0 m m' : InfluenceMap} (u : Unit) (h : SameShape m0 m)
    (e : applyInfluence m u = some m') : SameShape m0 m' := by
  unfold applyInfluence at e
  split at e
  · cases hf : offsets.foldlM
        (fun g y => offsets.foldlM (applyCell u.teamSign _ _ y) g) m.mapData with
    | none => rw [hf] at e; exact Option.noConfusion e
    | some g =>
      rw [hf] at e
      simp only [Option.map_some', Option.some.injEq] at e
      subst e
      refine ⟨h.1, h.2.1, h.2.2.1, ?_⟩
      refine foldlM_preserves (fun g => Rect g m0.rows m0.cols) _ ?_ offsets _ _ h.2.2.2 hf
      intro g1 y g2 hg1 e1
      exact foldlM_preserves (fun g => Rect g m0.rows m0.cols) _
        (fun g3 x g4 hg3 e3 => applyCell_rect_wrap _ _ _ _ _ hg3 e3) offsets _ _ hg1 e1
  · exact Option.noConfusion e

theorem update_sameShape_wrap {m m' : InfluenceMap} (hv : m.Valid) (units : List Unit)
    (e : update m units = some m') : SameShape m m' := by
  unfold update at e
  have h0 : SameShape m { m with mapData := resetMap m.mapData } :=
    ⟨rfl, rfl, rfl, resetMap_rect hv.rect⟩
  exact foldlM_preserves (SameShape m) _
    (fun s u s' hs es => applyInfluence_sameShape_wrap u hs es) units _ _ h0 e

end Rts.Demo1

namespace Rts

theorem SameShape.rows_same {m m' : InfluenceMap} (h : SameShape m m') : m'.rows = m.rows := by
  unfold InfluenceMap.rows; rw [h.2.1, h.2.2.1]

theorem SameShape.cols_same {m m' : InfluenceMap} (h : SameShape m m') : m'.cols = m.cols := by
  unfold InfluenceMap.cols; rw [h.1, h.2.2.1]

theorem SameShape.valid {m m' : InfluenceMap} (h : SameShape m m') (hv : m.Valid) : m'.Valid := by
  refine ⟨?_, ?_, ?_, ?_, ?_, ?_⟩
  · rw [h.2.2.1]; exact hv.1
  · rw [h.1]; exact hv.2.1
  · rw [h.2.1]; exact hv.2.2.1
  · rw [h.1]; exact hv.2.2.2.1
  · rw [h.2.1]; exact hv.2.2.2.2.1
  · rw [h.rows_same, h.cols_same]; exact h.2.2.2

theorem SameShape.trans {m m1 m2 : InfluenceMap} (h : SameShape m m1) (h' : SameShape m1 m2) :
    SameShape m m2 :=
  ⟨h'.1.trans h.1, h'.2.1.trans h.2.1, h'.2.2.1.trans h.2.2.1, by
    have := h'.2.2.2
    rw [h.rows_same, h.cols_same] at this
    exact this⟩

theorem construct_valid {w h cSize : Int} (hw : 0 < w) (hh : 0 < h) (hc : 0 < cSize)
    (hw' : w < 2 ^ 31) (hh' : h < 2 ^ 31) :
    ∃ m, InfluenceMap.construct w h cSize = Construction.built m ∧ m.Valid ∧
      m.rows = (h / cSize).toNat ∧ m.cols = (w / cSize).toNat := by
  have e1 : w.tdiv cSize = w / cSize := Int.tdiv_eq_ediv hw.le hc.le
  have e2 : h.tdiv cSize = h / cSize := Int.tdiv_eq_ediv hh.le hc.le
  have n1 : 0 ≤ w / cSize := Int.ediv_nonneg hw.le hc.le
  have n2 : 0 ≤ h / cSize := Int.ediv_nonneg hh.le hc.le
  refine ⟨⟨w, h, cSize,
      List.replicate (h.tdiv cSize).toNat (List.replicate (w.tdiv cSize).toNat 0)⟩,
    ?_, ⟨hc, hw, hh, hw', hh', ?_⟩, ?_, ?_⟩
  · unfold InfluenceMap.construct
    rw [if_neg hc.ne', if_neg (by rw [e1, e2]; omega)]
  · exact rect_replicate _ _ 0
  · show (h.tdiv cSize).toNat = _
    rw [e2]
  · show (w.tdiv cSize).toNat = _
    rw [e1]

/-- C14. For positive `int` parameters the constructor builds a grid of
`height / cellSize` rows, each of `width / cellSize` cells (integer division, so a
partial last row or column is dropped), and every call of `update` that a field of
this shape completes, in either demo, leaves a field with the same parameters and a
grid of the same dimensions; on a grid with at least one row (and, for demo1, one
column) every call of `update` completes. -/
theorem grid_dimensions (w h cSize : Int) (hw : 0 < w) (hh : 0 < h) (hc : 0 < cSize)
    (hw' : w < 2 ^ 31) (hh' : h < 2 ^ 31) :
    ∃ m, InfluenceMap.construct w h cSize = Construction.built m ∧
      (m.mapData.length = (h / cSize).toNat ∧
        ∀ row ∈ m.mapData, row.length = (w / cSize).toNat) ∧
      SameShape m m ∧
      (∀ (m1 : InfluenceMap) (units : List Unit) (m2 : InfluenceMap), SameShape m m1 →
        (Demo1.update m1 units = some m2 ∨ Demo2.update m1 units = some m2) →
        SameShape m m2 ∧ m2.mapData.length = (h / cSize).toNat ∧
          ∀ row ∈ m2.mapData, row.length = (w / cSize).toNat) ∧
      (∀ (m1 : InfluenceMap) (units : List Unit), SameShape m m1 → 0 < h / cSize →
        (∃ m2, Demo2.update m1 units = some m2) ∧
          (0 < w / cSize → ∃ m2, Demo1.update m1 units = some m2)) := by
  obtain ⟨m, e, hv, er, ec⟩ := construct_valid hw hh hc hw' hh'
  have hself : SameShape m m := ⟨rfl, rfl, rfl, hv.rect⟩
  refine ⟨m, e, ?_, hself, ?_, ?_⟩
  · rw [← er, ← ec]; exact hv.rect
  · intro m1 units m2 h1 hu
    have hv1 := h1.valid hv
    have h2 : SameShape m m2 := by
      rcases hu with hu | hu
      · exact h1.trans (Demo1.update_sameShape_wrap hv1 units hu)
      · exact h1.trans (Demo2.update_sameShape_clamp hv1 units hu)
    refine ⟨h2, ?_⟩
    rw [← er, ← ec]
    exact h2.2.2.2
  · intro m1 units h1 hrows
    have hv1 := h1.valid hv
    have hr1 : 0 < m1.rows := by rw [h1.rows_same, er]; omega
    constructor
    · obtain ⟨g, eg, -⟩ := Demo2.update_spec_clamp m1 hr1 hv1.cellSize_ne hv1.rect units
      exact ⟨_, eg⟩
    · intro hcols
      have hc1 : 0 < m1.cols := by rw [h1.cols_same, ec]; omega
      obtain ⟨g, eg, -⟩ := Demo1.update_spec_wrap m1 hr1 hc1 hv1.cellSize_ne hv1.rect units
      exact ⟨_, eg⟩

theorem grid_dimensions_witness :
    ∃ m, InfluenceMap.construct 810 620 40 = Construction.built m ∧
      (m.mapData.length = ((620 : Int) / 40).toNat ∧
        ∀ row ∈ m.mapData, row.length = ((810 : Int) / 40).toNat) ∧
      (∃ m2, Demo2.update m [mkUnit 20 20 1] = some m2 ∧
        SameShape m m2 ∧ m2.mapData.length = ((620 : Int) / 40).toNat ∧
          ∀ row ∈ m2.mapData, row.length = ((810 : Int) / 40).toNat) ∧
      (∃ m2, Demo1.update m [mkUnit 20 20 1] = some m2 ∧
        SameShape m m2 ∧ m2.mapData.length = ((620 : Int) / 40).toNat ∧
          ∀ row ∈ m2.mapData, row.length = ((810 : Int) / 40).toNat) := by
  obtain ⟨m, e, hdim, hself, hstep, htot⟩ :=
    grid_dimensions 810 620 40 (by decide) (by decide) (by decide) (by decide) (by decide)
  obtain ⟨m2, e2⟩ := (htot m [mkUnit 20 20 1] hself (by decide)).1
  obtain ⟨m3, e3⟩ := (htot m [mkUnit 20 20 1] hself (by decide)).2 (by decide)
  exact ⟨m, e, hdim, ⟨m2, e2, hstep m _ m2 hself (Or.inr e2)⟩,
    ⟨m3, e3, hstep m _ m3 hself (Or.inl e3)⟩⟩

theorem floor_div_eq (a : Int) {c : Int} (hc : 0 < c) : ⌊(a : ℚ) / c⌋ = a / c := by
  have hcq : (0 : ℚ) < c := by exact_mod_cast hc
  rw [Int.floor_eq_iff]
  have h1 := Int.emod_add_ediv a c
  have h2 := Int.emod_nonneg a hc.ne'
  have h3 := Int.emod_lt_of_pos a hc
  constructor
  · rw [le_div_iff₀ hcq]
    have : a / c * c ≤ a := by nlinarith
    exact_mod_cast this
  · rw [div_lt_iff₀ hcq]
    have : a < (a / c + 1) * c := by nlinarith
    exact_mod_cast this

theorem ceil_div_eq (a : Int) {c : Int} (hc : 0 < c) :
    ⌈(a : ℚ) / c⌉ = if a % c = 0 then a / c else a / c + 1 := by
  have hcq : (0 : ℚ) < c := by exact_mod_cast hc
  have h1 := Int.emod_add_ediv a c
  have h2 := Int.emod_nonneg a hc.ne'
  have h3 := Int.emod_lt_of_pos a hc
  rw [Int.ceil_eq_iff]
  split_ifs with h0
  · constructor
    · rw [lt_div_iff₀ hcq]
      have : (a / c - 1) * c < a := by nlinarith
      exact_mod_cast this
    · rw [div_le_iff₀ hcq]
      have : a ≤ a / c * c := by nlinarith
      exact_mod_cast this
  · have h4 : 0 < a % c := lt_of_le_of_ne h2 (Ne.symm h0)
    constructor
    · rw [lt_div_iff₀ hcq]
      have : (a / c + 1 - 1) * c < a := by nlinarith
      exact_mod_cast this
    · rw [div_le_iff₀ hcq]
      have : a ≤ (a / c + 1) * c := by nlinarith
      exact_mod_cast this

/-- C15 (amended). For positive parameters the constructor builds a grid of
`⌊height / cellSize⌋` rows, each of `⌊width / cellSize⌋` cells: the quotients are
rounded down, a partial last row or column gets no cell.  The number of rows is
`⌈height / cellSize⌉` exactly when `cellSize` divides `height`, and the number of
columns is `⌈width / cellSize⌉` exactly when `cellSize` divides `width`; otherwise
the grid is one row, respectively one column, short of the ceiling. -/
theorem construct_floor_dims (w h cSize : Int) (hw : 0 < w) (hh : 0 < h) (hc : 0 < cSize) :
    InfluenceMap.construct w h cSize = Construction.built
        ⟨w, h, cSize, List.replicate ⌊(h : ℚ) / cSize⌋.toNat
          (List.replicate ⌊(w : ℚ) / cSize⌋.toNat 0)⟩ ∧
      (⌊(h : ℚ) / cSize⌋.toNat = ⌈(h : ℚ) / cSize⌉.toNat ↔ cSize ∣ h) ∧
      (⌊(w : ℚ) / cSize⌋.toNat = ⌈(w : ℚ) / cSize⌉.toNat ↔ cSize ∣ w) ∧
      (¬ cSize ∣ h → ⌊(h : ℚ) / cSize⌋.toNat + 1 = ⌈(h : ℚ) / cSize⌉.toNat) ∧
      (¬ cSize ∣ w → ⌊(w : ℚ) / cSize⌋.toNat + 1 = ⌈(w : ℚ) / cSize⌉.toNat) := by
  have e1 : w.tdiv cSize = w / cSize := Int.tdiv_eq_ediv hw.le hc.le
  have e2 : h.tdiv cSize = h / cSize := Int.tdiv_eq_ediv hh.le hc.le
  have n1 : 0 ≤ w / cSize := Int.ediv_nonneg hw.le hc.le
  have n2 : 0 ≤ h / cSize := Int.ediv_nonneg hh.le hc.le
  have dh : cSize ∣ h ↔ h % cSize = 0 := Int.dvd_iff_emod_eq_zero
  have dw : cSize ∣ w ↔ w % cSize = 0 := Int.dvd_iff_emod_eq_zero
  rw [floor_div_eq h hc, floor_div_eq w hc, ceil_div_eq h hc, ceil_div_eq w hc, dh, dw]
  refine ⟨?_, ?_, ?_, ?_, ?_⟩
  · unfold InfluenceMap.construct
    rw [if_neg hc.ne', if_neg (by rw [e1, e2]; omega), e1, e2]
  · split_ifs with h0
    · simp [h0]
    · constructor
      · intro h1; exfalso; omega
      · intro h1; exact absurd h1 h0
  · split_ifs with h0
    · simp [h0]
    · constructor
      · intro h1; exfalso; omega
      · intro h1; exact absurd h1 h0
  · intro h0
    rw [if_neg h0]; omega
  · intro h0
    rw [if_neg h0]; omega

theorem construct_floor_dims_witness :
    InfluenceMap.construct 810 600 40 = Construction.built
        ⟨810, 600, 40, List.replicate ⌊((600 : Int) : ℚ) / (40 : Int)⌋.toNat
          (List.replicate ⌊((810 : Int) : ℚ) / (40 : Int)⌋.toNat 0)⟩ ∧
      ⌊((600 : Int) : ℚ) / (40 : Int)⌋.toNat = ⌈((600 : Int) : ℚ) / (40 : Int)⌉.toNat ∧
      ⌊((810 : Int) : ℚ) / (40 : Int)⌋.toNat + 1 = ⌈((810 : Int) : ℚ) / (40 : Int)⌉.toNat :=
  ⟨(construct_floor_dims 810 600 40 (by decide) (by decide) (by decide)).1,
    (construct_floor_dims 810 600 40 (by decide) (by decide) (by decide)).2.1.mpr (by decide),
    (construct_floor_dims 810 600 40 (by decide) (by decide) (by decide)).2.2.2.2 (by decide)⟩

/-- C15 as stated fails: `InfluenceMap(810, 620, 40)` has positive parameters and gets
`620 / 40 = 15` rows of `810 / 40 = 20` cells, while `⌈620 / 40⌉ = 16` and
`⌈810 / 40⌉ = 21`. -/
theorem construct_ceil_counterexample :
    InfluenceMap.construct 810 620 40 = Construction.built
        ⟨810, 620, 40, List.replicate 15 (List.replicate 20 0)⟩ ∧
      ⌈(620 : ℚ) / 40⌉ = 16 ∧ ⌈(810 : ℚ) / 40⌉ = 21 := by
  decide!

/-- The `float` square roots of the squared distances that occur within the radius. -/
theorem sqrtf_table :
    sqrtf 0 = 0 ∧ sqrtf 1 = 1 ∧ sqrtf 2 = 11863283 / 8388608 ∧ sqrtf 4 = 2 ∧
      sqrtf 5 = 9378749 / 4194304 ∧ sqrtf 8 = 11863283 / 4194304 ∧ sqrtf 9 = 3 := by
  decide!

/-- The `float` value of `1.0f / (1.0f + d)` at each distance `d` of `sqrtf_table`. -/
theorem magnitude_table :
    fdiv 1 (fadd 1 0) = 1 ∧ fdiv 1 (fadd 1 1) = 1 / 2 ∧
      fdiv 1 (fadd 1 (11863283 / 8388608)) = 3474675 / 8388608 ∧
      fdiv 1 (fadd 1 2) = 11184811 / 33554432 ∧
      fdiv 1 (fadd 1 (9378749 / 4194304)) = 5184445 / 16777216 ∧
      fdiv 1 (fadd 1 (11863283 / 4194304)) = 2191137 / 8388608 ∧
      fdiv 1 (fadd 1 3) = 1 / 4 := by
  decide!

theorem sumsq_cases {x y : Int} (h : x * x + y * y ≤ 9) :
    x * x + y * y = 0 ∨ x * x + y * y = 1 ∨ x * x + y * y = 2 ∨ x * x + y * y = 4 ∨
      x * x + y * y = 5 ∨ x * x + y * y = 8 ∨ x * x + y * y = 9 := by
  have hx0 : -3 ≤ x := by nlinarith
  have hx1 : x ≤ 3 := by nlinarith
  have hy0 : -3 ≤ y := by nlinarith
  have hy1 : y ≤ 3 := by nlinarith
  interval_cases x <;> interval_cases y <;> omega

/-- Distance and magnitude at an offset within the radius, by squared distance. -/
theorem distance_magnitude_cases {x y : Int} (h : x * x + y * y ≤ 9) :
    (x * x + y * y = 0 ∧ distance x y = 0 ∧ influenceValue 1 x y = 1) ∨
    (x * x + y * y = 1 ∧ distance x y = 1 ∧ influenceValue 1 x y = 1 / 2) ∨
    (x * x + y * y = 2 ∧ distance x y = 11863283 / 8388608 ∧
      influenceValue 1 x y = 3474675 / 8388608) ∨
    (x * x + y * y = 4 ∧ distance x y = 2 ∧ influenceValue 1 x y = 11184811 / 33554432) ∨
    (x * x + y * y = 5 ∧ distance x y = 9378749 / 4194304 ∧
      influenceValue 1 x y = 5184445 / 16777216) ∨
    (x * x + y * y = 8 ∧ distance x y = 11863283 / 4194304 ∧
      influenceValue 1 x y = 2191137 / 8388608) ∨
    (x * x + y * y = 9 ∧ distance x y = 3 ∧ influenceValue 1 x y = 1 / 4) := by
  obtain ⟨s0, s1, s2, s4, s5, s8, s9⟩ := sqrtf_table
  obtain ⟨m0, m1, m2, m4, m5, m8, m9⟩ := magnitude_table
  rw [influenceValue_one]
  unfold distance
  rcases sumsq_cases h with e | e | e | e | e | e | e <;> rw [e]
  · exact Or.inl ⟨rfl, s0, by rw [s0]; exact m0⟩
  · exact Or.inr (Or.inl ⟨rfl, s1, by rw [s1]; exact m1⟩)
  · exact Or.inr (Or.inr (Or.inl ⟨rfl, s2, by rw [s2]; exact m2⟩))
  · exact Or.inr (Or.inr (Or.inr (Or.inl ⟨rfl, s4, by rw [s4]; exact m4⟩)))
  · exact Or.inr (Or.inr (Or.inr (Or.inr (Or.inl ⟨rfl, s5, by rw [s5]; exact m5⟩))))
  · exact Or.inr (Or.inr (Or.inr (Or.inr (Or.inr (Or.inl ⟨rfl, s8, by rw [s8]; exact m8⟩)))))
  · exact Or.inr (Or.inr (Or.inr (Or.inr (Or.inr (Or.inr ⟨rfl, s9, by rw [s9]; exact m9⟩)))))

theorem influenceValue_bounds {x y : Int} (h : x * x + y * y ≤ 9) :
    1 / 4 ≤ influenceValue 1 x y ∧ influenceValue 1 x y ≤ 1 := by
  rcases distance_magnitude_cases h with
    ⟨-, -, e⟩ | ⟨-, -, e⟩ | ⟨-, -, e⟩ | ⟨-, -, e⟩ | ⟨-, -, e⟩ | ⟨-, -, e⟩ | ⟨-, -, e⟩ <;>
    rw [e] <;> norm_num

theorem abs_influenceValue_le {t x y : Int} (ht : t = 1 ∨ t = -1) (h : x * x + y * y ≤ 9) :
    |influenceValue t x y| ≤ 1 := by
  obtain ⟨h1, h2⟩ := influenceValue_bounds h
  rcases ht with rfl | rfl
  · rw [abs_le]; constructor <;> linarith
  · rw [influenceValue_neg_one, abs_neg, abs_le]; constructor <;> linarith

/-- C16. The two boundary policies differ at the edge: on the 20 x 15 grid of
`InfluenceMap(800, 600, 40)`, with one friendly contributor in the edge cell `(0, 0)`,
both demos complete `update` and produce different grids; the cell in column 19 of
row 0 holds `0.5` in demo1 (the offset `(-1, 0)` wraps around) and `0.0` in demo2
(the offset is skipped). -/
theorem wrap_differs_from_clamp :
    InfluenceMap.construct 800 600 40 = Construction.built demoMap ∧
      (coord 20 40 = 0 ∧
        Demo1.update demoMap [mkUnit 20 20 1] ≠ Demo2.update demoMap [mkUnit 20 20 1]) ∧
      (Demo1.update demoMap [mkUnit 20 20 1]).bind (fun m => cellAt m.mapData 0 19)
        = some (1 / 2) ∧
      (Demo2.update demoMap [mkUnit 20 20 1]).bind (fun m => cellAt m.mapData 0 19)
        = some 0 := by
  have h : InfluenceMap.construct 800 600 40 = Construction.built demoMap ∧
      coord 20 40 = 0 ∧
      (Demo1.update demoMap [mkUnit 20 20 1]).bind (fun m => cellAt m.mapData 0 19)
        = some (1 / 2) ∧
      (Demo2.update demoMap [mkUnit 20 20 1]).bind (fun m => cellAt m.mapData 0 19)
        = some 0 := by
    decide!
  refine ⟨h.1, ⟨h.2.1, fun e => ?_⟩, h.2.2.1, h.2.2.2⟩
  have h1 := h.2.2.1
  rw [e, h.2.2.2] at h1
  simp only [Option.some.injEq] at h1
  norm_num at h1

end Rts

namespace Rts.Demo2

/-- C17. demo2 (clamp-out): on a field with at least one row, for contributors of
affiliation `+1` or `-1`, `update` completes and the absolute value of every cell
`(r, c)` is at most the number of contributors whose source cell lies within
Euclidean distance 3 of it, `(c - unitX)² + (r - unitY)² ≤ 9`. -/
theorem cell_abs_le_count (m : InfluenceMap) (units : List Unit) (hv : m.Valid)
    (hr : 0 < m.rows) (hsign : ∀ u ∈ units, u.teamSign = 1 ∨ u.teamSign = -1) :
    ∃ g, update m units = some { m with mapData := g } ∧
      ∀ r c, r < m.rows → c < m.cols → ∃ v, cellAt g r c = some v ∧
        |v| ≤ ((units.filter (fun u => decide
          (((c : Int) - coord u.position.x m.cellSize) ^ 2
            + ((r : Int) - coord u.position.y m.cellSize) ^ 2 ≤ 9))).length : ℚ) := by
  obtain ⟨g, e, hg, hcell⟩ := update_spec_clamp m hr hv.cellSize_ne hv.rect units
  refine ⟨g, e, ?_⟩
  intro r c hr' hc'
  refine ⟨_, hcell r c hr' hc', ?_⟩
  have hpt : ∀ u ∈ units,
      valuesAt (hits u.teamSign (coord u.position.x m.cellSize)
        (coord u.position.y m.cellSize) m.rows m.cols) r c =
      if ((c : Int) - coord u.position.x m.cellSize) ^ 2
          + ((r : Int) - coord u.position.y m.cellSize) ^ 2 ≤ 9
      then [influenceValue u.teamSign ((c : Int) - coord u.position.x m.cellSize)
        ((r : Int) - coord u.position.y m.cellSize)] else [] := by
    intro u hu
    rw [valuesAt_hits_clamp _ _ _ hr' hc']
    simp only [pow_two]
  rw [List.flatMap_congr hpt, flatMap_ite_singleton units
    (fun u => ((c : Int) - coord u.position.x m.cellSize) ^ 2
      + ((r : Int) - coord u.position.y m.cellSize) ^ 2 ≤ 9)
    (fun u => influenceValue u.teamSign ((c : Int) - coord u.position.x m.cellSize)
        ((r : Int) - coord u.position.y m.cellSize))]
  refine le_trans (abs_fsum_le _ ?_) (by rw [List.length_map])
  intro v hv'
  simp only [List.mem_map, List.mem_filter, decide_eq_true_eq] at hv'
  obtain ⟨u, ⟨hu, hd⟩, rfl⟩ := hv'
  exact abs_influenceValue_le (hsign u hu) (by simpa only [pow_two] using hd)

theorem cell_abs_le_count_witness :
    ∃ g, update demoMap [mkUnit 420 300 1, mkUnit 430 290 (-1), mkUnit 340 220 1]
        = some { demoMap with mapData := g } ∧
      ∀ r c, r < demoMap.rows → c < demoMap.cols → ∃ v, cellAt g r c = some v ∧
        |v| ≤ (([mkUnit 420 300 1, mkUnit 430 290 (-1), mkUnit 340 220 1].filter
          (fun u => decide
            (((c : Int) - coord u.position.x demoMap.cellSize) ^ 2
              + ((r : Int) - coord u.position.y demoMap.cellSize) ^ 2 ≤ 9))).length : ℚ) :=
  cell_abs_le_count demoMap [mkUnit 420 300 1, mkUnit 430 290 (-1), mkUnit 340 220 1]
    demoMap_valid (by decide) (by
      intro u hu
      simp only [List.mem_cons, List.mem_singleton, List.not_mem_nil, or_false] at hu
      rcases hu with rfl | rfl | rfl
      · exact Or.inl rfl
      · exact Or.inr rfl
      · exact Or.inl rfl)

end Rts.Demo2

namespace Rts

/-- C18. With `influenceRadius = 3`, for the offsets `(x, y)` of the loops that pass the
test `distance <= influenceRadius` (exactly those with `x² + y² ≤ 9`), the magnitude
`1.0f / (1.0f + distance)` of the contribution, as computed in `float`, is exactly `1.0`
at the source cell, exactly `0.25` at the offsets of distance 3, strictly smaller at a
strictly larger Euclidean distance, and therefore always in `[0.25, 1.0]`; the
contribution of a hostile unit is the negative of that of a friendly one. -/
theorem magnitude_profile :
    (∀ x ∈ offsets, ∀ y ∈ offsets,
      (distance x y ≤ ofInt influenceRadius ↔ x * x + y * y ≤ 9)) ∧
    influenceValue 1 0 0 = 1 ∧
    (∀ x y : Int, x * x + y * y = 9 → distance x y = 3 ∧ influenceValue 1 x y = 1 / 4) ∧
    (∀ x y x' y' : Int, x' * x' + y' * y' ≤ 9 → x * x + y * y < x' * x' + y' * y' →
      distance x y < distance x' y' ∧ influenceValue 1 x' y' < influenceValue 1 x y) ∧
    (∀ x y : Int, x * x + y * y ≤ 9 →
      1 / 4 ≤ influenceValue 1 x y ∧ influenceValue 1 x y ≤ 1 ∧
        influenceValue (-1) x y = -influenceValue 1 x y) := by
  refine ⟨distance_le_iff_all, Demo1.influenceValue_source, ?_, ?_, ?_⟩
  · intro x y h
    rcases distance_magnitude_cases (le_of_eq h) with
      ⟨e, -, -⟩ | ⟨e, -, -⟩ | ⟨e, -, -⟩ | ⟨e, -, -⟩ | ⟨e, -, -⟩ | ⟨e, -, -⟩ | ⟨-, d, v⟩
    all_goals first | exact ⟨d, v⟩ | (exfalso; omega)
  · intro x y x' y' h' hlt
    have h : x * x + y * y ≤ 9 := by omega
    rcases distance_magnitude_cases h with
      ⟨e, d, v⟩ | ⟨e, d, v⟩ | ⟨e, d, v⟩ | ⟨e, d, v⟩ | ⟨e, d, v⟩ | ⟨e, d, v⟩ | ⟨e, d, v⟩ <;>
    rcases distance_magnitude_cases h' with
      ⟨e', d', v'⟩ | ⟨e', d', v'⟩ | ⟨e', d', v'⟩ | ⟨e', d', v'⟩ | ⟨e', d', v'⟩ |
        ⟨e', d', v'⟩ | ⟨e', d', v'⟩ <;>
    first
    | (exfalso; omega)
    | (rw [d, d', v, v']; constructor <;> norm_num)
  · intro x y h
    exact ⟨(influenceValue_bounds h).1, (influenceValue_bounds h).2, influenceValue_neg_one x y⟩

theorem magnitude_profile_witness :
    (distance 3 0 = 3 ∧ influenceValue 1 3 0 = 1 / 4) ∧
    (distance 1 1 < distance 2 (-1) ∧ influenceValue 1 2 (-1) < influenceValue 1 1 1) ∧
    (1 / 4 ≤ influenceValue 1 (-2) 2 ∧ influenceValue 1 (-2) 2 ≤ 1 ∧
      influenceValue (-1) (-2) 2 = -influenceValue 1 (-2) 2) :=
  ⟨magnitude_profile.2.2.1 3 0 (by decide),
    magnitude_profile.2.2.2.1 1 1 2 (-1) (by decide) (by decide),
    magnitude_profile.2.2.2.2 (-2) 2 (by decide)⟩

theorem foldl_fadd_nonneg (l : List ℚ) (hl : ∀ v ∈ l, 0 ≤ v) :
    ∀ acc : ℚ, 0 ≤ acc → 0 ≤ l.foldl fadd acc := by
  induction l with
  | nil => intro acc h; exact h
  | cons v l ih =>
    intro acc hacc
    rw [List.foldl_cons]
    exact ih (fun w hw => hl w (List.mem_cons_of_mem _ hw)) _
      (rnd_nonneg (add_nonneg hacc (hl v (List.mem_cons_self _ _))))

theorem foldl_fadd_nonpos (l : List ℚ) (hl : ∀ v ∈ l, v ≤ 0) :
    ∀ acc : ℚ, acc ≤ 0 → l.foldl fadd acc ≤ 0 := by
  induction l with
  | nil => intro acc h; exact h
  | cons v l ih =>
    intro acc hacc
    rw [List.foldl_cons]
    exact ih (fun w hw => hl w (List.mem_cons_of_mem _ hw)) _
      (rnd_nonpos (add_nonpos hacc (hl v (List.mem_cons_self _ _))))

theorem influenceValue_sign {x y : Int} (h : x * x + y * y ≤ 9) :
    0 ≤ influenceValue 1 x y ∧ influenceValue (-1) x y ≤ 0 := by
  have h1 := (influenceValue_bounds h).1
  rw [influenceValue_neg_one]
  constructor <;> linarith

end Rts

namespace Rts.Demo2

theorem values_form_clamp (t unitX unitY : Int) (rows cols r c : Nat) :
    ∀ v ∈ valuesAt (hits t unitX unitY rows cols) r c,
      ∃ x y : Int, x * x + y * y ≤ 9 ∧ v = influenceValue t x y := by
  intro v hv
  unfold valuesAt hits at hv
  simp only [List.mem_map, List.mem_filter, List.mem_flatMap, List.mem_filterMap] at hv
  obtain ⟨h, ⟨⟨y, hy, x, hx, hxy⟩, -⟩, rfl⟩ := hv
  unfold hit at hxy
  split_ifs at hxy with hcond
  cases hxy
  exact ⟨x, y, (distance_le_iff_all x hx y hy).mp hcond.2.2.2.2, rfl⟩

theorem sample_eq_cellAt_clamp (m : InfluenceMap) (hv : m.Valid) (hr : 0 < m.rows)
    (p : Vector2f) :
    getInfluenceAtPosition m p = some 0 ∨
      ∃ r c, r < m.rows ∧ c < m.cols ∧ getInfluenceAtPosition m p = cellAt m.mapData r c := by
  have hg := hv.rect
  unfold getInfluenceAtPosition cellCoord
  simp only [if_neg hv.cellSize_ne]
  by_cases h1 : coord p.x m.cellSize < 0
  · exact Or.inl (by rw [if_pos h1])
  · rw [if_neg h1, rowSize_of_rect hg hr]
    simp only
    by_cases h2 : (m.cols : Int) ≤ coord p.x m.cellSize
    · exact Or.inl (by rw [if_pos h2])
    · rw [if_neg h2]
      by_cases h3 : coord p.y m.cellSize < 0
      · exact Or.inl (by rw [if_pos h3])
      · rw [if_neg h3, hg.1]
        by_cases h4 : (m.rows : Int) ≤ coord p.y m.cellSize
        · exact Or.inl (by rw [if_pos h4])
        · rw [if_neg h4]
          exact Or.inr ⟨_, _, by omega, by omega, rfl⟩

end Rts.Demo2

namespace Rts.Demo1

theorem values_form_wrap (t unitX unitY : Int) (rows cols r c : Nat) :
    ∀ v ∈ valuesAt (hits t unitX unitY rows cols) r c,
      ∃ x y : Int, x * x + y * y ≤ 9 ∧ v = influenceValue t x y := by
  intro v hv
  rw [valuesAt_hits_wrap] at hv
  simp only [List.mem_flatMap, List.mem_filterMap] at hv
  obtain ⟨y, hy, x, hx, hxy⟩ := hv
  split_ifs at hxy with hcond
  cases hxy
  exact ⟨x, y, (distance_le_iff_all x hx y hy).mp hcond.2.2, rfl⟩

theorem sample_eq_cellAt_wrap (m : InfluenceMap) (hv : m.Valid) (hr : 0 < m.rows)
    (hc : 0 < m.cols) (p : Vector2f) :
    ∃ r c, r < m.rows ∧ c < m.cols ∧ getInfluenceAtPosition m p = cellAt m.mapData r c := by
  obtain ⟨x, ex, hx0, hx1⟩ := wrapCoord_range (p := p.x) hv.cellSize_ne hv.cols_eq hc
  obtain ⟨y, ey, hy0, hy1⟩ := wrapCoord_range (p := p.y) hv.cellSize_ne hv.rows_eq hr
  unfold getInfluenceAtPosition
  simp only [ex, ey]
  rw [if_neg (by omega)]
  exact ⟨_, _, by omega, by omega, rfl⟩

end Rts.Demo1

namespace Rts

theorem fsum_sign (units : List Unit) (vals : Unit → List ℚ)
    (hform : ∀ u ∈ units, ∀ v ∈ vals u,
      ∃ x y : Int, x * x + y * y ≤ 9 ∧ v = influenceValue u.teamSign x y) :
    ((∀ u ∈ units, u.teamSign = 1) → 0 ≤ fsum (units.flatMap vals)) ∧
      ((∀ u ∈ units, u.teamSign = -1) → fsum (units.flatMap vals) ≤ 0) := by
  constructor
  · intro hs
    apply foldl_fadd_nonneg _ _ 0 le_rfl
    intro v hv
    simp only [List.mem_flatMap] at hv
    obtain ⟨u, hu, hv⟩ := hv
    obtain ⟨x, y, hxy, rfl⟩ := hform u hu v hv
    rw [hs u hu]
    exact (influenceValue_sign hxy).1
  · intro hs
    apply foldl_fadd_nonpos _ _ 0 le_rfl
    intro v hv
    simp only [List.mem_flatMap] at hv
    obtain ⟨u, hu, hv⟩ := hv
    obtain ⟨x, y, hxy, rfl⟩ := hform u hu v hv
    rw [hs u hu]
    exact (influenceValue_sign hxy).2

/-- Every value read from a grid, and every sample that is a cell or `0.0`, satisfies
a property that holds of all cells within the grid and of zero. -/
theorem cells_of_inRange {g : List (List ℚ)} {rows cols : Nat} (hg : Rect g rows cols)
    (P : ℚ → Prop) (h : ∀ r c, r < rows → c < cols → ∃ v, cellAt g r c = some v ∧ P v) :
    ∀ r c v, cellAt g r c = some v → P v := by
  intro r c v e
  by_cases hin : r < rows ∧ c < cols
  · obtain ⟨v', e', hv'⟩ := h r c hin.1 hin.2
    rw [e] at e'
    cases e'
    exact hv'
  · rw [cellAt_none_of_rect hg (by omega)] at e
    exact Option.noConfusion e

/-- C19. Both demos, on a field with a non-empty grid: `update` completes, and if every
contributor of the list has affiliation `+1` then every cell of the resulting grid,
and so every value returned by `getInfluenceAtPosition`, is `≥ 0`; if every
contributor has affiliation `-1` then every cell and every sample is `≤ 0`. -/
theorem sign_reflects_affiliation (m : InfluenceMap) (units : List Unit) (hv : m.Valid)
    (hr : 0 < m.rows) (hc : 0 < m.cols) :
    (∃ m', Demo1.update m units = some m' ∧
      ((∀ u ∈ units, u.teamSign = 1) →
        (∀ r c v, cellAt m'.mapData r c = some v → 0 ≤ v) ∧
          ∀ p, ∃ v, Demo1.getInfluenceAtPosition m' p = some v ∧ 0 ≤ v) ∧
      ((∀ u ∈ units, u.teamSign = -1) →
        (∀ r c v, cellAt m'.mapData r c = some v → v ≤ 0) ∧
          ∀ p, ∃ v, Demo1.getInfluenceAtPosition m' p = some v ∧ v ≤ 0)) ∧
    (∃ m', Demo2.update m units = some m' ∧
      ((∀ u ∈ units, u.teamSign = 1) →
        (∀ r c v, cellAt m'.mapData r c = some v → 0 ≤ v) ∧
          ∀ p, ∃ v, Demo2.getInfluenceAtPosition m' p = some v ∧ 0 ≤ v) ∧
      ((∀ u ∈ units, u.teamSign = -1) →
        (∀ r c v, cellAt m'.mapData r c = some v → v ≤ 0) ∧
          ∀ p, ∃ v, Demo2.getInfluenceAtPosition m' p = some v ∧ v ≤ 0)) := by
  constructor
  · obtain ⟨g, e, hg, hcell⟩ := Demo1.update_spec_wrap m hr hc hv.cellSize_ne hv.rect units
    have hv' := hv.with_grid hg
    refine ⟨_, e, ?_, ?_⟩
    · intro hs
      have hin : ∀ r c, r < m.rows → c < m.cols → ∃ v, cellAt g r c = some v ∧ 0 ≤ v :=
        fun r c h1 h2 => ⟨_, hcell r c h1 h2,
          (fsum_sign units _ (fun u _ => Demo1.values_form_wrap _ _ _ _ _ r c)).1 hs⟩
      refine ⟨cells_of_inRange hg (fun v => 0 ≤ v) hin, ?_⟩
      intro p
      obtain ⟨r, c, h1, h2, es⟩ := Demo1.sample_eq_cellAt_wrap _ hv' hr hc p
      obtain ⟨v, ev, hv0⟩ := hin r c h1 h2
      exact ⟨v, by rw [es]; exact ev, hv0⟩
    · intro hs
      have hin : ∀ r c, r < m.rows → c < m.cols → ∃ v, cellAt g r c = some v ∧ v ≤ 0 :=
        fun r c h1 h2 => ⟨_, hcell r c h1 h2,
          (fsum_sign units _ (fun u _ => Demo1.values_form_wrap _ _ _ _ _ r c)).2 hs⟩
      refine ⟨cells_of_inRange hg (fun v => v ≤ 0) hin, ?_⟩
      intro p
      obtain ⟨r, c, h1, h2, es⟩ := Demo1.sample_eq_cellAt_wrap _ hv' hr hc p
      obtain ⟨v, ev, hv0⟩ := hin r c h1 h2
      exact ⟨v, by rw [es]; exact ev, hv0⟩
  · obtain ⟨g, e, hg, hcell⟩ := Demo2.update_spec_clamp m hr hv.cellSize_ne hv.rect units
    have hv' := hv.with_grid hg
    refine ⟨_, e, ?_, ?_⟩
    · intro hs
      have hin : ∀ r c, r < m.rows → c < m.cols → ∃ v, cellAt g r c = some v ∧ 0 ≤ v :=
        fun r c h1 h2 => ⟨_, hcell r c h1 h2,
          (fsum_sign units _ (fun u _ => Demo2.values_form_clamp _ _ _ _ _ r c)).1 hs⟩
      refine ⟨cells_of_inRange hg (fun v => 0 ≤ v) hin, ?_⟩
      intro p
      rcases Demo2.sample_eq_cellAt_clamp _ hv' hr p with es | ⟨r, c, h1, h2, es⟩
      · exact ⟨0, es, le_rfl⟩
      · obtain ⟨v, ev, hv0⟩ := hin r c h1 h2
        exact ⟨v, by rw [es]; exact ev, hv0⟩
    · intro hs
      have hin : ∀ r c, r < m.rows → c < m.cols → ∃ v, cellAt g r c = some v ∧ v ≤ 0 :=
        fun r c h1 h2 => ⟨_, hcell r c h1 h2,
          (fsum_sign units _ (fun u _ => Demo2.values_form_clamp _ _ _ _ _ r c)).2 hs⟩
      refine ⟨cells_of_inRange hg (fun v => v ≤ 0) hin, ?_⟩
      intro p
      rcases Demo2.sample_eq_cellAt_clamp _ hv' hr p with es | ⟨r, c, h1, h2, es⟩
      · exact ⟨0, es, le_rfl⟩
      · obtain ⟨v, ev, hv0⟩ := hin r c h1 h2
        exact ⟨v, by rw [es]; exact ev, hv0⟩

theorem sign_reflects_affiliation_witness :
    (∃ m', Demo1.update demoMap [mkUnit 420 300 1, mkUnit 20 20 1] = some m' ∧
      (∀ r c v, cellAt m'.mapData r c = some v → 0 ≤ v) ∧
        ∀ p, ∃ v, Demo1.getInfluenceAtPosition m' p = some v ∧ 0 ≤ v) ∧
    (∃ m', Demo2.update demoMap [mkUnit 420 300 (-1), mkUnit 20 20 (-1)] = some m' ∧
      (∀ r c v, cellAt m'.mapData r c = some v → v ≤ 0) ∧
        ∀ p, ∃ v, Demo2.getInfluenceAtPosition m' p = some v ∧ v ≤ 0) := by
  constructor
  · obtain ⟨m', e, h, -⟩ := (sign_reflects_affiliation demoMap
      [mkUnit 420 300 1, mkUnit 20 20 1] demoMap_valid (by decide) (by decide)).1
    refine ⟨m', e, h ?_⟩
    intro u hu
    simp only [List.mem_cons, List.mem_singleton, List.not_mem_nil, or_false] at hu
    rcases hu with rfl | rfl <;> rfl
  · obtain ⟨m', e, -, h⟩ := (sign_reflects_affiliation demoMap
      [mkUnit 420 300 (-1), mkUnit 20 20 (-1)] demoMap_valid (by decide) (by decide)).2
    refine ⟨m', e, h ?_⟩
    intro u hu
    simp only [List.mem_cons, List.mem_singleton, List.not_mem_nil, or_false] at hu
    rcases hu with rfl | rfl <;> rfl

/-- C20 (amended). The contribution decays as the reciprocal of one plus the
Euclidean distance: at every offset `(x, y)` of the loops that passes the radius test,
the magnitude is the `float` quotient `1.0f / (1.0f + d)` of the `float` distance `d`,
where `d² = x² + y²` and `magnitude * (1 + d) = 1` up to `float` rounding.  The drop
from distance 0 to distance 1 is `1/2`, the drop from distance 1 to distance 2 is
about `1/6`. -/
theorem reciprocal_decay :
    (∀ x ∈ offsets, ∀ y ∈ offsets, distance x y ≤ ofInt influenceRadius →
      influenceValue 1 x y = fdiv 1 (fadd 1 (distance x y)) ∧
      |influenceValue 1 x y * (1 + distance x y) - 1| ≤ 1 / 2 ^ 23 ∧
      |distance x y * distance x y - ((x * x + y * y : Int) : ℚ)| ≤ 1 / 2 ^ 21) ∧
    (influenceValue 1 0 0 - influenceValue 1 1 0 = 1 / 2 ∧
      influenceValue 1 1 0 - influenceValue 1 2 0 = 5592405 / 33554432) := by
  constructor
  · intro x hx y hy hd
    have h := (distance_le_iff_all x hx y hy).mp hd
    refine ⟨influenceValue_one x y, ?_⟩
    rcases distance_magnitude_cases h with
      ⟨e, d, v⟩ | ⟨e, d, v⟩ | ⟨e, d, v⟩ | ⟨e, d, v⟩ | ⟨e, d, v⟩ | ⟨e, d, v⟩ | ⟨e, d, v⟩ <;>
    · rw [e, d, v]
      constructor <;> norm_num [abs_le]
  · have h0 := distance_magnitude_cases (x := 0) (y := 0) (by decide)
    have h1 := distance_magnitude_cases (x := 1) (y := 0) (by decide)
    have h2 := distance_magnitude_cases (x := 2) (y := 0) (by decide)
    norm_num at h0 h1 h2
    rw [h0.2, h1.2, h2.2]
    norm_num

theorem reciprocal_decay_witness :
    influenceValue 1 1 2 = fdiv 1 (fadd 1 (distance 1 2)) ∧
      |influenceValue 1 1 2 * (1 + distance 1 2) - 1| ≤ 1 / 2 ^ 23 ∧
      |distance 1 2 * distance 1 2 - (((1 : Int) * 1 + 2 * 2 : Int) : ℚ)| ≤ 1 / 2 ^ 21 :=
  reciprocal_decay.1 1 (by decide) 2 (by decide) (by decide!)

/-- C20 as stated fails: the offsets `(0, 0)`, `(1, 0)` and `(2, 0)` lie at the
distances 0, 1 and 2 and receive the magnitudes `1`, `1/2` and the `float` nearest to
`1/3`, so the first drop is `1/2` and the second about `1/6`; no affine function of the
distance gives the magnitudes within the radius. -/
theorem decay_not_affine :
    (distance 0 0 = 0 ∧ distance 1 0 = 1 ∧ distance 2 0 = 2) ∧
    influenceValue 1 0 0 - influenceValue 1 1 0 ≠ influenceValue 1 1 0 - influenceValue 1 2 0 ∧
    ¬ ∃ a b : ℚ, ∀ x ∈ offsets, ∀ y ∈ offsets, distance x y ≤ ofInt influenceRadius →
      influenceValue 1 x y = a + b * distance x y := by
  have h0 := distance_magnitude_cases (x := 0) (y := 0) (by decide)
  have h1 := distance_magnitude_cases (x := 1) (y := 0) (by decide)
  have h2 := distance_magnitude_cases (x := 2) (y := 0) (by decide)
  norm_num at h0 h1 h2
  refine ⟨⟨h0.1, h1.1, h2.1⟩, ?_, ?_⟩
  · rw [h0.2, h1.2, h2.2]; norm_num
  · rintro ⟨a, b, h⟩
    have e0 := h 0 (by decide) 0 (by decide) (by rw [h0.1]; decide!)
    have e1 := h 1 (by decide) 0 (by decide) (by rw [h1.1]; decide!)
    have e2 := h 2 (by decide) 0 (by decide) (by rw [h2.1]; decide!)
    rw [h0.1, h0.2] at e0
    rw [h1.1, h1.2] at e1
    rw [h2.1, h2.2] at e2
    linarith

end Rts

namespace Rts.Demo2

theorem findTarget_keeps (e : EnemyUnit) (units : List Unit) :
    (findTarget e units).state = e.state ∧ (findTarget e units).toUnit = e.toUnit ∧
      (findTarget e units).autonomous = e.autonomous := by
  unfold findTarget
  cases (closestLoop calculateDistance e.position e.teamSign units).2 with
  | none => exact ⟨rfl, rfl, rfl⟩
  | some u => exact ⟨rfl, rfl, rfl⟩

/-- The decision of demo2 as a function of the sample. -/
theorem makeDecision_of_sample (e : EnemyUnit) (units : List Unit) (m : InfluenceMap) (s : ℚ)
    (hs : getInfluenceAtPosition m e.position = some s) :
    makeDecision e units m = some
      (if -1 / 2 < s then { e with state := State.Evade }
        else if s < -1 then findTarget { e with state := State.Attack } units
        else { e with state := State.Idle }) := by
  unfold makeDecision
  rw [hs]
  simp only
  split_ifs <;> rfl

/-- C21. demo2: on a field with at least one row `makeDecision` completes, and the
state it sets is determined by the sample `s` of the field at the enemy's position:
`Evade` exactly when `s > -0.5`, `Attack` exactly when `s < -1.0`, `Idle` exactly when
`-1.0 <= s <= -0.5`, whatever the previous state was.  The position, health, team
and the `alive` and `autonomous` flags are kept; the field is an argument that is
only read, and any field with the same sample at that position gives the same
result. -/
theorem makeDecision_state (e : EnemyUnit) (units : List Unit) (m : InfluenceMap)
    (hv : m.Valid) (hr : 0 < m.rows) :
    ∃ s e', getInfluenceAtPosition m e.position = some s ∧
      makeDecision e units m = some e' ∧
      (e'.state = State.Evade ↔ -1 / 2 < s) ∧
      (e'.state = State.Attack ↔ s < -1) ∧
      (e'.state = State.Idle ↔ (-1 ≤ s ∧ s ≤ -1 / 2)) ∧
      (e'.toUnit = e.toUnit ∧ e'.autonomous = e.autonomous) ∧
      (∀ previous : State, ∃ e2, makeDecision { e with state := previous } units m = some e2 ∧
        e2.state = e'.state) ∧
      (∀ m2 : InfluenceMap, getInfluenceAtPosition m2 e.position = some s →
        makeDecision e units m2 = some e') := by
  obtain ⟨s, hs⟩ := sample_total_clamp m hv hr e.position
  have hstate : ∀ e0 : EnemyUnit,
      (if -1 / 2 < s then ({ e0 with state := State.Evade } : EnemyUnit)
        else if s < -1 then findTarget { e0 with state := State.Attack } units
        else { e0 with state := State.Idle }).state
      = if -1 / 2 < s then State.Evade else if s < -1 then State.Attack else State.Idle := by
    intro e0
    split_ifs
    · rfl
    · exact (findTarget_keeps _ units).1
    · rfl
  refine ⟨s, _, hs, makeDecision_of_sample e units m s hs, ?_, ?_, ?_, ?_, ?_,
    fun m2 h2 => makeDecision_of_sample e units m2 s h2⟩
  · rw [hstate e]
    split_ifs with h1 h2 <;> simp [h1]
  · rw [hstate e]
    split_ifs with h1 h2
    · simp only [false_iff, not_lt, reduceCtorEq]; linarith
    · simp [h2]
    · simp [h2]
  · rw [hstate e]
    split_ifs with h1 h2
    · simp only [false_iff, reduceCtorEq, not_and, not_le]; intro _; exact h1
    · simp only [false_iff, reduceCtorEq, not_and, not_le]; intro h; linarith
    · simp only [true_iff]; exact ⟨not_lt.mp h2, not_lt.mp h1⟩
  · split_ifs
    · exact ⟨rfl, rfl⟩
    · exact ⟨(findTarget_keeps _ units).2.1, (findTarget_keeps _ units).2.2⟩
    · exact ⟨rfl, rfl⟩
  · intro previous
    refine ⟨_, makeDecision_of_sample { e with state := previous } units m s hs, ?_⟩
    exact (hstate _).trans (hstate e).symm

theorem makeDecision_state_witness :
    ∃ e', makeDecision (mkEnemyUnit 700 300) [mkUnit 100 300 1, mkUnit 700 300 (-1)] demoMap
        = some e' ∧
      e'.state = State.Evade ∧
      (e'.toUnit = (mkEnemyUnit 700 300).toUnit ∧
        e'.autonomous = (mkEnemyUnit 700 300).autonomous) ∧
      (∀ previous : State, ∃ e2,
        makeDecision { mkEnemyUnit 700 300 with state := previous }
          [mkUnit 100 300 1, mkUnit 700 300 (-1)] demoMap = some e2 ∧
        e2.state = e'.state) ∧
      makeDecision (mkEnemyUnit 700 300) [mkUnit 100 300 1, mkUnit 700 300 (-1)] narrowMap
        = some e' := by
  obtain ⟨s, e', hs, hm, h1, -, -, h4, h5, h6⟩ := makeDecision_state (mkEnemyUnit 700 300)
    [mkUnit 100 300 1, mkUnit 700 300 (-1)] demoMap demoMap_valid (by decide)
  have e0 : getInfluenceAtPosition demoMap (mkEnemyUnit 700 300).position = some 0 := by
    decide!
  rw [e0] at hs
  cases hs
  exact ⟨e', hm, h1.mpr (by norm_num), h4, h5, h6 narrowMap (by decide!)⟩

end Rts.Demo2

namespace Rts.Demo1

theorem wrapIndex_lt (i : Int) {size : Nat} (h : 0 < size) :
    ∃ c : Nat, wrapIndex i size = some c ∧ c < size := by
  unfold wrapIndex
  rw [if_neg (by omega)]
  exact ⟨_, rfl, Nat.mod_lt _ h⟩

/-- C22. demo1 (wrap), on a field whose grid has at least one row and one column: for
every source cell `(unitX, unitY)` within the range of a 32-bit `int` and every
offset `(x, y)` of the loops, the indices `cellX`, `cellY` that `applyInfluence`
computes with its `size_t` arithmetic are defined and lie in `[0, cols)` and
`[0, rows)`; and for every query position whose cell coordinates are within the
range of a 32-bit `int`, the indices `x`, `y` that `getInfluenceAtPosition` computes
are defined, lie in `[0, cols)` and `[0, rows)`, and the sample is the cell they
name.  The index expression of `applyInfluence` is in range for every integer `i` in
the place of `unitX + x`, so also for the value a 32-bit sum takes when it wraps
around (at `unitX = -2 ^ 31` with a negative offset). -/
theorem indices_in_range (m : InfluenceMap) (hv : m.Valid) (hr : 0 < m.rows)
    (hc : 0 < m.cols) :
    (∀ unitX unitY : Int, -2 ^ 31 ≤ unitX → unitX < 2 ^ 31 → -2 ^ 31 ≤ unitY →
      unitY < 2 ^ 31 → ∀ x ∈ offsets, ∀ y ∈ offsets,
        rowSize m.mapData = some m.cols ∧ m.mapData.length = m.rows ∧
        ∃ cellX cellY : Nat,
          wrapIndex (unitX + x) m.cols = some cellX ∧
          wrapIndex (unitY + y) m.rows = some cellY ∧
          cellX < m.cols ∧ cellY < m.rows ∧ ∃ v, cellAt m.mapData cellY cellX = some v) ∧
    (∀ p : Vector2f, -2 ^ 31 ≤ coord p.x m.cellSize → coord p.x m.cellSize < 2 ^ 31 →
      -2 ^ 31 ≤ coord p.y m.cellSize → coord p.y m.cellSize < 2 ^ 31 →
      ∃ x y : Int,
        wrapCoord p.x m.width m.cellSize = some x ∧
        wrapCoord p.y m.height m.cellSize = some y ∧
        (0 ≤ x ∧ x < m.cols) ∧ (0 ≤ y ∧ y < m.rows) ∧
        getInfluenceAtPosition m p = cellAt m.mapData y.toNat x.toNat ∧
        ∃ v, cellAt m.mapData y.toNat x.toNat = some v) ∧
    (∀ i : Int, (∃ c : Nat, wrapIndex i m.cols = some c ∧ c < m.cols) ∧
      ∃ c : Nat, wrapIndex i m.rows = some c ∧ c < m.rows) := by
  refine ⟨?_, ?_, fun i => ⟨wrapIndex_lt i hc, wrapIndex_lt i hr⟩⟩
  · intro unitX unitY _ _ _ _ x _ y _
    obtain ⟨cx, ex, hx⟩ := wrapIndex_lt (unitX + x) hc
    obtain ⟨cy, ey, hy⟩ := wrapIndex_lt (unitY + y) hr
    exact ⟨rowSize_of_rect hv.rect hr, hv.rect.1, cx, cy, ex, ey, hx, hy,
      cellAt_isSome_of_rect hv.rect hy hx⟩
  · intro p _ _ _ _
    obtain ⟨x, ex, hx0, hx1⟩ := wrapCoord_range (p := p.x) hv.cellSize_ne hv.cols_eq hc
    obtain ⟨y, ey, hy0, hy1⟩ := wrapCoord_range (p := p.y) hv.cellSize_ne hv.rows_eq hr
    refine ⟨x, y, ex, ey, ⟨hx0, hx1⟩, ⟨hy0, hy1⟩, ?_,
      cellAt_isSome_of_rect hv.rect (by omega) (by omega)⟩
    unfold getInfluenceAtPosition
    simp only [ex, ey]
    rw [if_neg (by omega)]

theorem indices_in_range_witness :
    (rowSize demoMap.mapData = some demoMap.cols ∧ demoMap.mapData.length = demoMap.rows ∧
      ∃ cellX cellY : Nat,
        wrapIndex (-21 + -3) demoMap.cols = some cellX ∧
        wrapIndex (2147483644 + 3) demoMap.rows = some cellY ∧
        cellX < demoMap.cols ∧ cellY < demoMap.rows ∧
        ∃ v, cellAt demoMap.mapData cellY cellX = some v) ∧
    (∃ x y : Int,
      wrapCoord (-840) demoMap.width demoMap.cellSize = some x ∧
      wrapCoord 100000 demoMap.height demoMap.cellSize = some y ∧
      (0 ≤ x ∧ x < demoMap.cols) ∧ (0 ≤ y ∧ y < demoMap.rows) ∧
      getInfluenceAtPosition demoMap { x := -840, y := 100000 }
        = cellAt demoMap.mapData y.toNat x.toNat ∧
      ∃ v, cellAt demoMap.mapData y.toNat x.toNat = some v) :=
  ⟨(indices_in_range demoMap demoMap_valid (by decide) (by decide)).1 (-21) 2147483644
      (by decide) (by decide) (by decide) (by decide) (-3) (by decide) 3 (by decide),
    (indices_in_range demoMap demoMap_valid (by decide) (by decide)).2.1
      { x := -840, y := 100000 } (by decide!) (by decide!) (by decide!) (by decide!)⟩

end Rts.Demo1

namespace Rts

theorem wrap_interior {i : Int} {size : Nat} (hb : size < 2 ^ 31) (h0 : 0 ≤ i)
    (h1 : i < size) : ((i + size) % 2 ^ 64).toNat % size = i.toNat := by
  rw [Demo1.wrap_eq_emod (by omega) (by omega), Int.emod_eq_of_lt h0 h1]

/-- Away from the edges the loop bodies of the two demos perform the same increment. -/
theorem hit_eq_of_interior (t : Int) {ux uy : Int} {rows cols : Nat} (hrb : rows < 2 ^ 31)
    (hcb : cols < 2 ^ 31) (hx : 3 ≤ ux ∧ ux + 4 ≤ cols) (hy : 3 ≤ uy ∧ uy + 4 ≤ rows)
    {y x : Int} (hy' : y ∈ offsets) (hx' : x ∈ offsets) :
    Demo1.hit t ux uy rows cols y x = Demo2.hit t ux uy rows cols y x := by
  rw [mem_offsets] at hy' hx'
  unfold Demo1.hit Demo2.hit
  rw [wrap_interior hrb (by omega : 0 ≤ uy + y) (by omega),
    wrap_interior hcb (by omega : 0 ≤ ux + x) (by omega)]
  by_cases hd : distance x y ≤ ofInt influenceRadius
  · rw [if_pos hd, if_pos ⟨by omega, by omega, by omega, by omega, hd⟩]
  · rw [if_neg hd, if_neg (fun h => hd h.2.2.2.2)]

theorem hits_eq_of_interior (t : Int) {ux uy : Int} {rows cols : Nat} (hrb : rows < 2 ^ 31)
    (hcb : cols < 2 ^ 31) (hx : 3 ≤ ux ∧ ux + 4 ≤ cols) (hy : 3 ≤ uy ∧ uy + 4 ≤ rows) :
    Demo1.hits t ux uy rows cols = Demo2.hits t ux uy rows cols := by
  unfold Demo1.hits Demo2.hits
  apply List.flatMap_congr
  intro y hy'
  apply List.filterMap_congr
  intro x hx'
  exact hit_eq_of_interior t hrb hcb hx hy hy' hx'

/-- C23. Away from the edges the two boundary policies coincide: on every valid field,
for every contributor list in which each source cell `(cx, cy)` satisfies
`3 <= cx <= cols - 4` and `3 <= cy <= rows - 4`, demo1's `update` and demo2's `update`
both complete and produce the same field. -/
theorem interior_policies_coincide (m : InfluenceMap) (units : List Unit) (hv : m.Valid)
    (hin : ∀ u ∈ units,
      (3 ≤ coord u.position.x m.cellSize ∧ coord u.position.x m.cellSize + 4 ≤ m.cols) ∧
        (3 ≤ coord u.position.y m.cellSize ∧ coord u.position.y m.cellSize + 4 ≤ m.rows)) :
    ∃ m', Demo1.update m units = some m' ∧ Demo2.update m units = some m' := by
  cases units with
  | nil => exact ⟨_, Demo1.update_nil_wrap m, Demo2.update_nil_clamp m⟩
  | cons u0 rest =>
    obtain ⟨⟨a1, a2⟩, ⟨b1, b2⟩⟩ := hin u0 (List.mem_cons_self _ _)
    have hr : 0 < m.rows := by omega
    have hc : 0 < m.cols := by omega
    obtain ⟨g, e, -⟩ := Demo2.update_spec_clamp m hr hv.cellSize_ne hv.rect (u0 :: rest)
    refine ⟨_, ?_, e⟩
    rw [← e, Demo1.update_eq_wrap m hr hc hv.cellSize_ne hv.rect,
      Demo2.update_eq_clamp m hr hv.cellSize_ne hv.rect]
    congr 2
    apply List.flatMap_congr
    intro u hu
    exact hits_eq_of_interior _ hv.rows_lt hv.cols_lt (hin u hu).1 (hin u hu).2

theorem interior_policies_coincide_witness :
    ∃ m', Demo1.update demoMap [mkUnit 420 300 1, mkUnit 140 140 (-1), mkUnit 660 460 1]
        = some m' ∧
      Demo2.update demoMap [mkUnit 420 300 1, mkUnit 140 140 (-1), mkUnit 660 460 1]
        = some m' :=
  interior_policies_coincide demoMap _ demoMap_valid (by
    intro u hu
    simp only [List.mem_cons, List.mem_singleton, List.not_mem_nil, or_false] at hu
    rcases hu with rfl | rfl | rfl <;> decide!)

end Rts

namespace Rts.Demo2

theorem sample_of_inside (m : InfluenceMap) (hv : m.Valid) (hr : 0 < m.rows) (p : Vector2f)
    (hin : m.Inside p) :
    getInfluenceAtPosition m p
      = cellAt m.mapData (coord p.y m.cellSize).toNat (coord p.x m.cellSize).toNat := by
  obtain ⟨⟨hx0, hx1⟩, ⟨hy0, hy1⟩⟩ := hin
  unfold getInfluenceAtPosition cellCoord
  simp only [if_neg hv.cellSize_ne]
  rw [if_neg (by omega), rowSize_of_rect hv.rect hr]
  simp only
  rw [if_neg (by omega), if_neg (by omega), hv.rect.1, if_neg (by omega)]

theorem influenceValue_enemy_source : influenceValue (-1) 0 0 = -1 := by
  rw [influenceValue_neg_one, Demo1.influenceValue_source]

/-- A binary32 position inside the world of the demo resolves to a cell of its grid. -/
theorem demoMap_inside_of_world {mx jx my jy : Nat} (hmx : mx < 2 ^ 24) (hmy : my < 2 ^ 24)
    (hx : (mx : ℚ) / 2 ^ jx < 800) (hy : (my : ℚ) / 2 ^ jy < 600) :
    demoMap.Inside { x := (mx : ℚ) / 2 ^ jx, y := (my : ℚ) / 2 ^ jy } := by
  have hcs : demoMap.cellSize = 40 := rfl
  have hcols : demoMap.cols = 20 := by decide
  have hrows : demoMap.rows = 15 := by decide
  have px : (0 : ℚ) ≤ (mx : ℚ) / 2 ^ jx := by positivity
  have py : (0 : ℚ) ≤ (my : ℚ) / 2 ^ jy := by positivity
  unfold InfluenceMap.Inside
  simp only [hcs, hcols, hrows]
  rw [coord_eq_divCell px (by norm_num), coord_eq_divCell py (by norm_num),
    divCell_eq_floor hmx (by norm_num) (by norm_num),
    divCell_eq_floor hmy (by norm_num) (by norm_num)]
  refine ⟨⟨Int.floor_nonneg.mpr (by positivity), ?_⟩,
    ⟨Int.floor_nonneg.mpr (by positivity), ?_⟩⟩
  · rw [Int.floor_lt]
    push_cast
    rw [div_lt_iff₀ (by norm_num)]
    linarith
  · rw [Int.floor_lt]
    push_cast
    rw [div_lt_iff₀ (by norm_num)]
    linarith

/-- C24. demo2: for an enemy (team `-1`) that is the only unit of the list and whose
position resolves to a cell of the grid, `update` followed by `makeDecision` samples
exactly `-1.0` at its position and sets its state to `Idle`.  On the field of the
demo, `InfluenceMap(800, 600, 40)`, every binary32 position with `0 <= x < 800` and
`0 <= y < 600` resolves to a cell of the grid. -/
theorem lone_enemy_idle (m : InfluenceMap) (e : EnemyUnit) (hv : m.Valid) (hr : 0 < m.rows)
    (ht : e.teamSign = -1) (hin : m.Inside e.position) :
    (∃ m' e', update m [e.toUnit] = some m' ∧
      getInfluenceAtPosition m' e.position = some (-1) ∧
      makeDecision e [e.toUnit] m' = some e' ∧ e'.state = State.Idle ∧
      e'.state ≠ State.Evade ∧ e'.state ≠ State.Attack) ∧
    (∀ mx jx my jy : Nat, mx < 2 ^ 24 → my < 2 ^ 24 →
      (mx : ℚ) / 2 ^ jx < 800 → (my : ℚ) / 2 ^ jy < 600 →
      demoMap.Inside { x := (mx : ℚ) / 2 ^ jx, y := (my : ℚ) / 2 ^ jy }) := by
  refine ⟨?_, fun mx jx my jy h1 h2 h3 h4 => demoMap_inside_of_world h1 h2 h3 h4⟩
  obtain ⟨g, eu, hg, hcell⟩ := update_spec_clamp m hr hv.cellSize_ne hv.rect [e.toUnit]
  have hv' := hv.with_grid hg
  obtain ⟨⟨hx0, hx1⟩, ⟨hy0, hy1⟩⟩ := hin
  have hs : getInfluenceAtPosition { m with mapData := g } e.position = some (-1) := by
    rw [sample_of_inside _ hv' hr e.position ⟨⟨hx0, hx1⟩, ⟨hy0, hy1⟩⟩]
    show cellAt g (coord e.position.y m.cellSize).toNat (coord e.position.x m.cellSize).toNat
      = _
    rw [hcell _ _ (by omega) (by omega)]
    simp only [List.flatMap_cons, List.flatMap_nil, List.append_nil]
    rw [valuesAt_hits_clamp _ _ _ (by omega) (by omega)]
    rw [Int.toNat_of_nonneg hx0, Int.toNat_of_nonneg hy0, sub_self, sub_self]
    rw [if_pos (by norm_num), ht, influenceValue_enemy_source, fsum_singleton]
    have := rnd_intCast (i := -1) (by decide)
    simpa using this
  have hd := makeDecision_of_sample e [e.toUnit] _ (-1) hs
  rw [if_neg (by norm_num), if_neg (by norm_num)] at hd
  exact ⟨_, _, eu, hs, hd, rfl, by simp, by simp⟩

theorem lone_enemy_idle_witness :
    (∃ m' e', update demoMap [(mkEnemyUnit 700 300).toUnit] = some m' ∧
      getInfluenceAtPosition m' (mkEnemyUnit 700 300).position = some (-1) ∧
      makeDecision (mkEnemyUnit 700 300) [(mkEnemyUnit 700 300).toUnit] m' = some e' ∧
      e'.state = State.Idle ∧ e'.state ≠ State.Evade ∧ e'.state ≠ State.Attack) ∧
    demoMap.Inside { x := ((1599 : Nat) : ℚ) / 2 ^ 1, y := ((1199 : Nat) : ℚ) / 2 ^ 1 } :=
  ⟨(lone_enemy_idle demoMap (mkEnemyUnit 700 300) demoMap_valid (by decide) rfl
      (by unfold InfluenceMap.Inside; decide!)).1,
    (lone_enemy_idle demoMap (mkEnemyUnit 700 300) demoMap_valid (by decide) rfl
      (by unfold InfluenceMap.Inside; decide!)).2 1599 1 1199 1 (by decide) (by decide) (by norm_num) (by norm_num)⟩

end Rts.Demo2

namespace Rts

theorem fsub_nonneg_of_le {a b : ℚ} (h : b ≤ a) : 0 ≤ fsub a b :=
  rnd_nonneg (sub_nonneg.mpr h)

theorem wrapStep_exact (p : ℚ) (extent : Int) (he0 : 0 < extent) (he1 : extent < 2 ^ 24)
    (h0 : -(extent : ℚ) ≤ p) (h1 : p < 2 * (extent : ℚ)) (hex : ExactWrap p extent) :
    (0 ≤ wrapStep p extent ∧ wrapStep p extent < extent) ∧
      (∃ k : Int, wrapStep p extent = p + k * extent) ∧
      (0 ≤ p → p < extent → wrapStep p extent = p) := by
  have hof : ofInt extent = extent := by
    unfold ofInt
    exact rnd_intCast (by rw [abs_of_pos he0]; exact he1)
  have hpos : (0 : ℚ) < extent := by exact_mod_cast he0
  unfold wrapStep
  rw [hof]
  by_cases hneg : p < 0
  · have e1 : fadd p extent = p + extent := hex.1 hneg
    simp only [if_pos hneg, e1]
    rw [if_neg (by linarith)]
    exact ⟨⟨by linarith, by linarith⟩, ⟨1, by push_cast; ring⟩, fun h => absurd hneg (not_lt.mpr h)⟩
  · simp only [if_neg hneg]
    by_cases hge : (extent : ℚ) ≤ p
    · have e2 : fsub p extent = p - extent := hex.2 hge
      rw [if_pos hge, e2]
      exact ⟨⟨by linarith, by linarith⟩, ⟨-1, by push_cast; ring⟩,
        fun _ h => absurd hge (not_le.mpr h)⟩
    · rw [if_neg hge]
      exact ⟨⟨not_lt.mp hneg, not_le.mp hge⟩, ⟨0, by push_cast; ring⟩, fun _ _ => rfl⟩

theorem rnd_grid {i : Int} (h0 : 0 ≤ i) (h1 : i < 2 ^ 24) : rnd ((i : ℚ) / 8192) = (i : ℚ) / 8192 := by
  have h := roundTo_of_repr 24 (-126) i (-13) (by rw [abs_of_nonneg h0]; exact h1) (by norm_num)
  have e : pow2 (-13) = 1 / 8192 := by rw [pow2_eq_zpow]; norm_num
  rw [e] at h
  have e2 : (i : ℚ) / 8192 = (i : ℚ) * (1 / 8192) := by ring
  rw [e2]
  exact h

/-- On the grid of the multiples of `1 / 8192` the operations of a wraparound step
are exact, for an extent of at most 2048. -/
theorem exactWrap_grid (i : Int) {extent : Int} (he0 : 0 < extent) (he1 : extent ≤ 2048)
    (h0 : -(extent : ℚ) ≤ (i : ℚ) / 8192) (h1 : (i : ℚ) / 8192 < 2 * (extent : ℚ)) :
    ExactWrap ((i : ℚ) / 8192) extent := by
  have hlo : -(extent * 8192) ≤ i := by
    have : -((extent : ℚ) * 8192) ≤ (i : ℚ) := by
      have := (le_div_iff₀ (by norm_num : (0 : ℚ) < 8192)).mp h0
      linarith
    exact_mod_cast this
  have hhi : i < 2 * extent * 8192 := by
    have : (i : ℚ) < 2 * (extent : ℚ) * 8192 := (div_lt_iff₀ (by norm_num : (0 : ℚ) < 8192)).mp h1
    exact_mod_cast this
  constructor
  · intro hneg
    have hi : i < 0 := by
      have : (i : ℚ) < 0 := by
        have := (div_lt_iff₀ (by norm_num : (0 : ℚ) < 8192)).mp hneg
        linarith
      exact_mod_cast this
    have e : (i : ℚ) / 8192 + extent = ((i + extent * 8192 : Int) : ℚ) / 8192 := by
      push_cast; ring
    rw [e]
    exact rnd_grid (by omega) (by omega)
  · intro hge
    have hi : extent * 8192 ≤ i := by
      have : (extent : ℚ) * 8192 ≤ (i : ℚ) := (le_div_iff₀ (by norm_num : (0 : ℚ) < 8192)).mp hge
      exact_mod_cast this
    have e : (i : ℚ) / 8192 - extent = ((i - extent * 8192 : Int) : ℚ) / 8192 := by
      push_cast; ring
    rw [e]
    exact rnd_grid (by omega) (by omega)

/-- C26. The single wraparound step of `Unit::updateGraphics`, when its `float`
additions are exact: for a position with `-SCREEN_WIDTH <= x < 2 * SCREEN_WIDTH` and
`-SCREEN_HEIGHT <= y < 2 * SCREEN_HEIGHT` the position afterwards satisfies
`0 <= x < SCREEN_WIDTH` and `0 <= y < SCREEN_HEIGHT`, differs from the original by a
multiple of the screen size in each coordinate, and is the original if that was in
bounds; nothing else of the unit changes.  The additions are exact for every
position in that range on the grid of the multiples of `1 / 8192`. -/
theorem updateGraphics_wraps (u : Unit)
    (hx : -(SCREEN_WIDTH : ℚ) ≤ u.position.x ∧ u.position.x < 2 * (SCREEN_WIDTH : ℚ))
    (hy : -(SCREEN_HEIGHT : ℚ) ≤ u.position.y ∧ u.position.y < 2 * (SCREEN_HEIGHT : ℚ))
    (ex : ExactWrap u.position.x SCREEN_WIDTH) (ey : ExactWrap u.position.y SCREEN_HEIGHT) :
    ((0 ≤ u.updateGraphics.position.x ∧ u.updateGraphics.position.x < SCREEN_WIDTH) ∧
      (0 ≤ u.updateGraphics.position.y ∧ u.updateGraphics.position.y < SCREEN_HEIGHT)) ∧
    ((∃ k : Int, u.updateGraphics.position.x = u.position.x + k * SCREEN_WIDTH) ∧
      (∃ k : Int, u.updateGraphics.position.y = u.position.y + k * SCREEN_HEIGHT)) ∧
    (0 ≤ u.position.x → u.position.x < SCREEN_WIDTH → 0 ≤ u.position.y →
      u.position.y < SCREEN_HEIGHT → u.updateGraphics = u) ∧
    (u.updateGraphics.health = u.health ∧ u.updateGraphics.alive = u.alive ∧
      u.updateGraphics.teamSign = u.teamSign) ∧
    (∀ i : Int, -(SCREEN_WIDTH : ℚ) ≤ (i : ℚ) / 8192 → (i : ℚ) / 8192 < 2 * (SCREEN_WIDTH : ℚ) →
      ExactWrap ((i : ℚ) / 8192) SCREEN_WIDTH) ∧
    (∀ i : Int, -(SCREEN_HEIGHT : ℚ) ≤ (i : ℚ) / 8192 →
      (i : ℚ) / 8192 < 2 * (SCREEN_HEIGHT : ℚ) → ExactWrap ((i : ℚ) / 8192) SCREEN_HEIGHT) := by
  obtain ⟨bx, kx, ix⟩ := wrapStep_exact u.position.x SCREEN_WIDTH (by decide) (by decide)
    hx.1 hx.2 ex
  obtain ⟨bY, ky, iy⟩ := wrapStep_exact u.position.y SCREEN_HEIGHT (by decide) (by decide)
    hy.1 hy.2 ey
  refine ⟨⟨bx, bY⟩, ⟨kx, ky⟩, ?_, ⟨rfl, rfl, rfl⟩,
    fun i h0 h1 => exactWrap_grid i (by decide) (by decide) h0 h1,
    fun i h0 h1 => exactWrap_grid i (by decide) (by decide) h0 h1⟩
  intro a b c d
  unfold Unit.updateGraphics
  rw [ix a b, iy c d]

/-- In `float` arithmetic the step is not exact everywhere: for `x = -2 ^ -30` the sum
`x + 800` rounds to `800.0f`, the second test fires, and the position becomes `0`. -/
theorem wrapStep_small_negative :
    fadd (-1 / 2 ^ 30) (ofInt SCREEN_WIDTH) = 800 ∧ wrapStep (-1 / 2 ^ 30) SCREEN_WIDTH = 0 := by
  decide!

theorem updateGraphics_wraps_witness :
    ((0 ≤ (mkUnit (-101 / 2) 700 1).updateGraphics.position.x ∧
        (mkUnit (-101 / 2) 700 1).updateGraphics.position.x < SCREEN_WIDTH) ∧
      (0 ≤ (mkUnit (-101 / 2) 700 1).updateGraphics.position.y ∧
        (mkUnit (-101 / 2) 700 1).updateGraphics.position.y < SCREEN_HEIGHT)) ∧
    ((∃ k : Int, (mkUnit (-101 / 2) 700 1).updateGraphics.position.x
        = (mkUnit (-101 / 2) 700 1).position.x + k * SCREEN_WIDTH) ∧
      (∃ k : Int, (mkUnit (-101 / 2) 700 1).updateGraphics.position.y
        = (mkUnit (-101 / 2) 700 1).position.y + k * SCREEN_HEIGHT)) ∧
    (mkUnit (-101 / 2) 700 1).updateGraphics.position = { x := 1499 / 2, y := 100 } ∧
    (mkUnit 100 300 1).updateGraphics = mkUnit 100 300 1 ∧
    ExactWrap (((-413696 : Int) : ℚ) / 8192) SCREEN_WIDTH ∧
    ExactWrap (((5734400 : Int) : ℚ) / 8192) SCREEN_HEIGHT :=
  ⟨(updateGraphics_wraps (mkUnit (-101 / 2) 700 1) (by decide!) (by decide!)
      (by unfold ExactWrap; decide!) (by unfold ExactWrap; decide!)).1,
    (updateGraphics_wraps (mkUnit (-101 / 2) 700 1) (by decide!) (by decide!)
      (by unfold ExactWrap; decide!) (by unfold ExactWrap; decide!)).2.1,
    by decide!,
    (updateGraphics_wraps (mkUnit 100 300 1) (by decide!) (by decide!)
      (by unfold ExactWrap; decide!) (by unfold ExactWrap; decide!)).2.2.1
      (by decide!) (by decide!) (by decide!) (by decide!),
    (updateGraphics_wraps (mkUnit 100 300 1) (by decide!) (by decide!)
      (by unfold ExactWrap; decide!) (by unfold ExactWrap; decide!)).2.2.2.2.1 (-413696)
      (by decide!) (by decide!),
    (updateGraphics_wraps (mkUnit 100 300 1) (by decide!) (by decide!)
      (by unfold ExactWrap; decide!) (by unfold ExactWrap; decide!)).2.2.2.2.2 5734400
      (by decide!) (by decide!)⟩

end Rts

namespace Demo5

theorem takeWhile_getElem {α : Type} (P : α → Bool) :
    ∀ (l : List α) (k : Nat), k < (l.takeWhile P).length →
      ∃ x, l[k]? = some x ∧ P x = true := by
  intro l
  induction l with
  | nil => intro k h; simp at h
  | cons a l ih =>
    intro k h
    by_cases hp : P a = true
    · rw [List.takeWhile_cons_of_pos hp] at h
      cases k with
      | zero => exact ⟨a, by simp, hp⟩
      | succ k =>
        simp only [List.length_cons, Nat.add_lt_add_iff_right] at h
        simpa using ih k h
    · rw [List.takeWhile_cons_of_neg hp] at h
      simp at h

theorem takeWhile_length_getElem {α : Type} (P : α → Bool) :
    ∀ (l : List α), (l.takeWhile P).length < l.length →
      ∃ x, l[(l.takeWhile P).length]? = some x ∧ P x = false := by
  intro l
  induction l with
  | nil => intro h; simp at h
  | cons a l ih =>
    intro h
    by_cases hp : P a = true
    · rw [List.takeWhile_cons_of_pos hp] at h ⊢
      simp only [List.length_cons, Nat.add_lt_add_iff_right] at h
      simpa using ih h
    · rw [List.takeWhile_cons_of_neg hp]
      exact ⟨a, by simp, by simpa using hp⟩

theorem beforeEnd_length_le (program : List Instruction) :
    (beforeEnd program).length ≤ program.length :=
  (List.takeWhile_sublist _).length_le

theorem iterations_le (program : List Instruction) : iterations program ≤ program.length := by
  unfold iterations
  have := beforeEnd_length_le program
  split_ifs <;> omega

theorem program_split (program : List Instruction) :
    ∃ rest, program = beforeEnd program ++ rest :=
  ⟨program.dropWhile (fun ins => decide (ins.opCode ≠ OpCode.END)),
    (List.takeWhile_append_dropWhile _ program).symm⟩

/-- Before the first `END`: the instruction at index `k` is not `END` and is one of
`beforeEnd program`. -/
theorem instruction_before {program : List Instruction} {k : Nat}
    (hk : k < (beforeEnd program).length) :
    ∃ ins, program[k]? = some ins ∧ ins.opCode ≠ OpCode.END ∧ ins ∈ beforeEnd program := by
  obtain ⟨x, hx, hp⟩ := takeWhile_getElem _ program k hk
  refine ⟨x, hx, by simpa using hp, ?_⟩
  have hx' : (beforeEnd program)[k]? = some x := by
    obtain ⟨t, ht⟩ := program_split program
    rw [ht, List.getElem?_append_left hk] at hx
    exact hx
  exact List.getElem?_mem hx'

theorem instruction_at_end {program : List Instruction}
    (h : (beforeEnd program).length < program.length) :
    ∃ ins, program[(beforeEnd program).length]? = some ins ∧ ins.opCode = OpCode.END := by
  obtain ⟨x, hx, hp⟩ := takeWhile_length_getElem _ program h
  exact ⟨x, hx, by simpa using hp⟩


theorem colourBefore_succ {program : List Instruction} {k : Nat} {ins : Instruction}
    (h : program[k]? = some ins) :
    colourBefore program (k + 1) =
      if ins.opCode = OpCode.SET_COLOR then
        { r := Rts.toInt (ins.operands.getD 0 0), g := Rts.toInt (ins.operands.getD 1 0),
          b := Rts.toInt (ins.operands.getD 2 0), a := 255 }
      else colourBefore program k := by
  unfold colourBefore
  rw [List.take_succ, h]
  simp only [Option.toList_some, List.reverse_append, List.reverse_singleton,
    List.singleton_append, List.find?_cons]
  by_cases hc : ins.opCode = OpCode.SET_COLOR
  · simp [hc]
  · simp [hc]

theorem shapes_succ (program : List Instruction) (k : Nat) :
    (List.range (k + 1)).filterMap (shapeAt program)
      = (List.range k).filterMap (shapeAt program) ++ (shapeAt program k).toList := by
  rw [List.range_succ, List.filterMap_append]
  congr 1

theorem operand_eq_getD {l : List ℚ} {i : Nat} (h : i < l.length) :
    l[i]? = some (l.getD i 0) := by
  rw [List.getD_eq_getElem?_getD, List.getElem?_eq_getElem h]
  rfl

/-- One iteration of the loop at an instruction before the first `END`. -/
theorem executeInstruction_before {program : List Instruction} {k : Nat}
    (hk : k < (beforeEnd program).length)
    (hw : ∀ ins ∈ beforeEnd program, ins.WellFormed) :
    executeInstruction (stateAt program k) = some (stateAt program (k + 1)) := by
  obtain ⟨ins, hins, hne, hmem⟩ := instruction_before hk
  have hwf := hw ins hmem
  have hcol := colourBefore_succ hins
  have hsh := shapes_succ program k
  unfold executeInstruction
  have e0 : (stateAt program k).program[(stateAt program k).currentIndex]? = some ins := hins
  rw [e0]
  simp only
  unfold Instruction.WellFormed at hwf
  cases hop : ins.opCode with
  | DRAW_RECTANGLE =>
    rw [hop] at hwf
    simp only at hwf
    rw [operand_eq_getD (by omega : 0 < ins.operands.length),
      operand_eq_getD (by omega : 1 < ins.operands.length),
      operand_eq_getD (by omega : 2 < ins.operands.length),
      operand_eq_getD (by omega : 3 < ins.operands.length)]
    simp only
    rw [hop] at hcol
    have hs : shapeAt program k = some (Shape.rectangle (ins.operands.getD 0 0)
        (ins.operands.getD 1 0) (ins.operands.getD 2 0) (ins.operands.getD 3 0)
        (colourBefore program k)) := by
      unfold shapeAt; rw [hins]; simp only [hop]
    rw [hs] at hsh
    unfold stateAt
    simp only [hsh, hcol, Option.toList_some]
    rfl
  | DRAW_CIRCLE =>
    rw [hop] at hwf
    simp only at hwf
    rw [operand_eq_getD (by omega : 0 < ins.operands.length),
      operand_eq_getD (by omega : 1 < ins.operands.length),
      operand_eq_getD (by omega : 2 < ins.operands.length)]
    simp only
    rw [hop] at hcol
    have hs : shapeAt program k = some (Shape.circle (ins.operands.getD 0 0)
        (ins.operands.getD 1 0) (ins.operands.getD 2 0) (colourBefore program k)) := by
      unfold shapeAt; rw [hins]; simp only [hop]
    rw [hs] at hsh
    unfold stateAt
    simp only [hsh, hcol, Option.toList_some]
    rfl
  | SET_COLOR =>
    rw [hop] at hwf
    simp only at hwf
    rw [operand_eq_getD (by omega : 0 < ins.operands.length),
      operand_eq_getD (by omega : 1 < ins.operands.length),
      operand_eq_getD (by omega : 2 < ins.operands.length)]
    simp only
    rw [hop] at hcol
    have hs : shapeAt program k = none := by
      unfold shapeAt; rw [hins]; simp only [hop]
    rw [hs] at hsh
    unfold stateAt
    simp only [hsh, hcol, Option.toList_none, List.append_nil, if_true]
  | END => exact absurd hop hne

/-- The iteration at the first `END`. -/
theorem executeInstruction_end {program : List Instruction}
    (h : (beforeEnd program).length < program.length) :
    executeInstruction (stateAt program (beforeEnd program).length)
      = some { stateAt program (beforeEnd program).length with
          currentIndex := program.length } := by
  obtain ⟨ins, hins, hop⟩ := instruction_at_end h
  unfold executeInstruction
  have e0 : (stateAt program (beforeEnd program).length).program[
      (stateAt program (beforeEnd program).length).currentIndex]? = some ins := hins
  rw [e0]
  simp only [hop]
  rfl


theorem run_done (fuel : Nat) (s : BytecodeInterpreter)
    (h : ¬ s.currentIndex < s.program.length) : run fuel s = Outcome.finished s := by
  cases fuel with
  | zero => unfold run; rw [if_neg h]
  | succ fuel => unfold run; rw [if_neg h]

theorem finalState_eq_of_no_end {program : List Instruction}
    (h : (beforeEnd program).length = program.length) :
    stateAt program (beforeEnd program).length = finalState program := by
  unfold finalState
  conv_lhs => rw [show stateAt program (beforeEnd program).length
    = { stateAt program (beforeEnd program).length with
        currentIndex := (beforeEnd program).length } from rfl]
  rw [h]

/-- The run from the state before instruction `k`, for every bound on the iterations. -/
theorem run_from (program : List Instruction)
    (hw : ∀ ins ∈ beforeEnd program, ins.WellFormed) :
    ∀ (fuel k : Nat), k ≤ (beforeEnd program).length →
      run fuel (stateAt program k) =
        if fuel + k < iterations program then Outcome.fuelExhausted (stateAt program (k + fuel))
        else Outcome.finished (finalState program) := by
  have hle := beforeEnd_length_le program
  intro fuel
  induction fuel with
  | zero =>
    intro k hk
    unfold run
    have e1 : (stateAt program k).currentIndex = k := rfl
    have e2 : (stateAt program k).program = program := rfl
    rw [e1, e2]
    unfold iterations
    by_cases hend : (beforeEnd program).length < program.length
    · rw [if_pos hend, if_pos (by omega : k < program.length), if_pos (by omega)]
      rfl
    · rw [if_neg hend]
      by_cases hkp : k < (beforeEnd program).length
      · rw [if_pos (by omega : k < program.length), if_pos (by omega)]
        rfl
      · have hk' : k = (beforeEnd program).length := by omega
        rw [if_neg (by omega : ¬ k < program.length), if_neg (by omega), hk']
        exact congrArg Outcome.finished (finalState_eq_of_no_end (by omega))
  | succ fuel ih =>
    intro k hk
    unfold run
    have e1 : (stateAt program k).currentIndex = k := rfl
    have e2 : (stateAt program k).program = program := rfl
    rw [e1, e2]
    by_cases hkp : k < (beforeEnd program).length
    · rw [if_pos (by omega : k < program.length), executeInstruction_before hkp hw]
      simp only
      rw [ih (k + 1) (by omega)]
      have e3 : k + 1 + fuel = k + (fuel + 1) := by omega
      rw [e3]
      by_cases hc : fuel + 1 + k < iterations program
      · rw [if_pos hc, if_pos (by omega)]
      · rw [if_neg hc, if_neg (by omega)]
    · have hk' : k = (beforeEnd program).length := by omega
      subst hk'
      unfold iterations
      by_cases hend : (beforeEnd program).length < program.length
      · rw [if_pos hend, executeInstruction_end hend]
        simp only
        rw [if_pos hend, if_neg (by omega)]
        exact run_done fuel _ (by
          show ¬ program.length < program.length
          omega)
      · rw [if_neg hend, if_neg hend, if_neg (by omega)]
        exact congrArg Outcome.finished (finalState_eq_of_no_end (by omega))


theorem new_eq_stateAt (program : List Instruction) :
    BytecodeInterpreter.new program = stateAt program 0 := rfl

theorem colourBefore_append (b rest : List Instruction) {i : Nat} (h : i ≤ b.length) :
    colourBefore (b ++ rest) i = colourBefore b i := by
  unfold colourBefore
  rw [List.take_append_of_le_length h]

theorem shapeAt_append (b rest : List Instruction) {i : Nat} (h : i < b.length) :
    shapeAt (b ++ rest) i = shapeAt b i := by
  unfold shapeAt
  rw [List.getElem?_append_left h, colourBefore_append b rest h.le]

theorem filterMap_range_congr {f g : Nat → Option Shape} :
    ∀ n : Nat, (∀ i, i < n → f i = g i) →
      (List.range n).filterMap f = (List.range n).filterMap g := by
  intro n h
  apply List.filterMap_congr
  intro i hi
  exact h i (List.mem_range.mp hi)

/-- The final shapes and colour are determined by the instructions before the first
`END`. -/
theorem finalState_of_beforeEnd (program : List Instruction) :
    (finalState program).shapes
        = (List.range (beforeEnd program).length).filterMap (shapeAt (beforeEnd program)) ∧
      (finalState program).currentColor
        = colourBefore (beforeEnd program) (beforeEnd program).length := by
  obtain ⟨rest, hrest⟩ := program_split program
  constructor
  · show (List.range (beforeEnd program).length).filterMap (shapeAt program) = _
    apply filterMap_range_congr
    intro i hi
    conv_lhs => rw [hrest]
    exact shapeAt_append _ rest hi
  · show colourBefore program (beforeEnd program).length = _
    have e : colourBefore program (beforeEnd program).length
        = colourBefore (beforeEnd program ++ rest) (beforeEnd program).length :=
      congrArg (fun p => colourBefore p (beforeEnd program).length) hrest
    rw [e]
    exact colourBefore_append _ rest le_rfl

/-- C27. For a program whose instructions before the first `END` have the operands
they read, `run` terminates: the loop is left after exactly `iterations program`
iterations, one per instruction before the first `END` and one for that `END`, with
`currentIndex == program.size()`; the bound `program.size()` on the iterations is
always enough.  The iteration number `k + 1` runs with `currentIndex == k`, at most
the index of the first `END`, so no instruction after it is executed, and the
shapes and colour at the end are determined by the instructions before it. -/
theorem run_terminates (program : List Instruction)
    (hw : ∀ ins ∈ beforeEnd program, ins.WellFormed) :
    (∀ fuel, iterations program ≤ fuel →
      run fuel (BytecodeInterpreter.new program) = Outcome.finished (finalState program)) ∧
    run program.length (BytecodeInterpreter.new program)
      = Outcome.finished (finalState program) ∧
    ((finalState program).currentIndex = program.length ∧
      (finalState program).program = program) ∧
    (∀ k, k < iterations program →
      ∃ s, run k (BytecodeInterpreter.new program) = Outcome.fuelExhausted s ∧
        s.currentIndex = k ∧ k ≤ (beforeEnd program).length) ∧
    (∀ program' : List Instruction, beforeEnd program' = beforeEnd program →
      (finalState program').shapes = (finalState program).shapes ∧
        (finalState program').currentColor = (finalState program).currentColor) := by
  have key := run_from program hw
  have hit : iterations program ≤ (beforeEnd program).length + 1 := by
    unfold iterations; split_ifs <;> omega
  refine ⟨?_, ?_, ⟨rfl, rfl⟩, ?_, ?_⟩
  · intro fuel hf
    rw [new_eq_stateAt, key fuel 0 (Nat.zero_le _), if_neg (by omega)]
  · rw [new_eq_stateAt, key _ 0 (Nat.zero_le _), if_neg (by have := iterations_le program; omega)]
  · intro k hk
    refine ⟨stateAt program (0 + k), ?_, by show 0 + k = k; omega, by omega⟩
    rw [new_eq_stateAt, key k 0 (Nat.zero_le _), if_pos (by omega)]
  · intro program' h'
    obtain ⟨a1, a2⟩ := finalState_of_beforeEnd program
    obtain ⟨b1, b2⟩ := finalState_of_beforeEnd program'
    rw [a1, a2, b1, b2, h']
    exact ⟨rfl, rfl⟩

theorem sampleProgram_beforeEnd :
    beforeEnd sampleProgram = sampleProgram.take 3 := rfl

theorem sampleProgram_wellFormed : ∀ ins ∈ beforeEnd sampleProgram, ins.WellFormed := by
  intro ins h
  rw [sampleProgram_beforeEnd] at h
  simp only [sampleProgram, List.take_succ_cons, List.take_zero, List.mem_cons,
    List.mem_singleton, List.not_mem_nil, or_false] at h
  rcases h with rfl | rfl | rfl <;> simp [Instruction.WellFormed]

theorem run_terminates_witness :
    run 4 (BytecodeInterpreter.new sampleProgram)
        = Outcome.finished (finalState sampleProgram) ∧
      run sampleProgram.length (BytecodeInterpreter.new sampleProgram)
        = Outcome.finished (finalState sampleProgram) ∧
      ((finalState sampleProgram).currentIndex = sampleProgram.length ∧
        (finalState sampleProgram).program = sampleProgram) ∧
      (∃ s, run 3 (BytecodeInterpreter.new sampleProgram) = Outcome.fuelExhausted s ∧
        s.currentIndex = 3 ∧ 3 ≤ (beforeEnd sampleProgram).length) ∧
      ((finalState (sampleProgram.take 3)).shapes = (finalState sampleProgram).shapes ∧
        (finalState (sampleProgram.take 3)).currentColor
          = (finalState sampleProgram).currentColor) :=
  ⟨(run_terminates sampleProgram sampleProgram_wellFormed).1 4 (by decide!),
    (run_terminates sampleProgram sampleProgram_wellFormed).2.1,
    (run_terminates sampleProgram sampleProgram_wellFormed).2.2.1,
    (run_terminates sampleProgram sampleProgram_wellFormed).2.2.2.1 3 (by decide!),
    (run_terminates sampleProgram sampleProgram_wellFormed).2.2.2.2 (sampleProgram.take 3)
      (by decide!)⟩


end Demo5

namespace SpaceTrader

theorem wrapInt32_of_fits {i : Int} (h0 : -2 ^ 31 ≤ i) (h1 : i < 2 ^ 31) : wrapInt32 i = i := by
  unfold wrapInt32
  omega

theorem wrapInt32_range (i : Int) : -2 ^ 31 ≤ wrapInt32 i ∧ wrapInt32 i < 2 ^ 31 := by
  unfold wrapInt32
  omega

theorem names_addCargo (cargo : List CargoItem) (name : String) (quantity : Int) :
    names (addCargo cargo name quantity)
      = if name ∈ names cargo then names cargo else names cargo ++ [name] := by
  induction cargo with
  | nil => simp [addCargo, names]
  | cons item rest ih =>
    unfold names at ih ⊢
    unfold addCargo
    by_cases h : item.name = name
    · simp [h]
    · have h' : ¬ name = item.name := fun e => h e.symm
      simp only [if_neg h, List.map_cons, List.mem_cons, h', false_or, ih]
      split_ifs <;> simp

theorem quantityOf_addCargo (cargo : List CargoItem) (name : String) (quantity : Int) :
    quantityOf (addCargo cargo name quantity) name
      = if name ∈ names cargo then wrapInt32 (quantityOf cargo name + quantity)
        else quantity := by
  induction cargo with
  | nil => simp [addCargo, quantityOf, names]
  | cons item rest ih =>
    unfold quantityOf names at ih ⊢
    unfold addCargo
    by_cases h : item.name = name
    · simp [h, List.find?_cons]
    · have h' : ¬ name = item.name := fun e => h e.symm
      rw [if_neg h]
      simp only [List.find?_cons, h, decide_False, List.map_cons, List.mem_cons, h', false_or]
      exact ih

theorem others_addCargo (cargo : List CargoItem) (name : String) (quantity : Int) :
    others (addCargo cargo name quantity) name = others cargo name := by
  induction cargo with
  | nil => simp [addCargo, others]
  | cons item rest ih =>
    unfold others at ih ⊢
    unfold addCargo
    by_cases h : item.name = name
    · simp [h, List.filter_cons]
    · simp only [if_neg h, List.filter_cons, ih]

theorem addCargo_absent (cargo : List CargoItem) (name : String) (quantity : Int)
    (h : name ∉ names cargo) :
    quantityOf cargo name = 0 ∧
      addCargo cargo name quantity = cargo ++ [{ name := name, quantity := quantity }] := by
  induction cargo with
  | nil => simp [addCargo, quantityOf]
  | cons item rest ih =>
    unfold names at h ih
    simp only [List.map_cons, List.mem_cons, not_or] at h
    have hne : ¬ item.name = name := fun e => h.1 e.symm
    obtain ⟨q0, e0⟩ := ih h.2
    constructor
    · unfold quantityOf at q0 ⊢
      simp only [List.find?_cons, hne, decide_False]
      exact q0
    · unfold addCargo
      rw [if_neg hne, e0]
      rfl

/-- C29, with the range of `int` made explicit.  `Ship::addCargo` merges by name: for a
cargo list with pairwise distinct names and every `(name, quantity)`, afterwards the
names are still pairwise distinct; the quantity held under `name` is the former one
plus `quantity` whenever that sum fits a 32-bit `int`, and in general the sum wrapped
around modulo `2 ^ 32`; the former quantity is `0` for an absent name, and then
exactly one entry `(name, quantity)` is appended at the end; for a present name the
list of names is unchanged; and the entries under all other names are unchanged in
value and order. -/
theorem addCargo_merges (cargo : List CargoItem) (name : String) (quantity : Int)
    (hd : (names cargo).Nodup) :
    (names (addCargo cargo name quantity)).Nodup ∧
    (-2 ^ 31 ≤ quantityOf cargo name + quantity → quantityOf cargo name + quantity < 2 ^ 31 →
      quantityOf (addCargo cargo name quantity) name = quantityOf cargo name + quantity) ∧
    (name ∈ names cargo →
      quantityOf (addCargo cargo name quantity) name
        = wrapInt32 (quantityOf cargo name + quantity)) ∧
    (name ∉ names cargo → quantityOf cargo name = 0 ∧
      quantityOf (addCargo cargo name quantity) name = quantity ∧
      addCargo cargo name quantity = cargo ++ [{ name := name, quantity := quantity }]) ∧
    (name ∈ names cargo → names (addCargo cargo name quantity) = names cargo) ∧
    others (addCargo cargo name quantity) name = others cargo name ∧
    (∀ other : String, other ≠ name →
      quantityOf (addCargo cargo name quantity) other = quantityOf cargo other) := by
  refine ⟨?_, ?_, ?_, ?_, ?_, others_addCargo cargo name quantity, ?_⟩
  · rw [names_addCargo]
    split_ifs with h
    · exact hd
    · exact List.nodup_append.mpr ⟨hd, List.nodup_singleton _, by
        intro a ha hb
        simp only [List.mem_singleton] at hb
        exact h (hb ▸ ha)⟩
  · intro h0 h1
    rw [quantityOf_addCargo]
    split_ifs with h
    · exact wrapInt32_of_fits h0 h1
    · rw [(addCargo_absent cargo name quantity h).1, zero_add]
  · intro h
    rw [quantityOf_addCargo, if_pos h]
  · intro h
    refine ⟨(addCargo_absent cargo name quantity h).1, ?_,
      (addCargo_absent cargo name quantity h).2⟩
    rw [quantityOf_addCargo, if_neg h]
  · intro h
    rw [names_addCargo, if_pos h]
  · intro other hne
    induction cargo with
    | nil =>
      simp [addCargo, quantityOf, List.find?_cons, Ne.symm hne]
    | cons item rest ih =>
      unfold names at hd
      simp only [List.map_cons, List.nodup_cons] at hd
      have ih' := ih hd.2
      unfold quantityOf at ih' ⊢
      unfold addCargo
      by_cases h : item.name = name
      · have h2 : ¬ item.name = other := fun e => hne (e.symm.trans h)
        simp [h, List.find?_cons, h2, Ne.symm hne]
      · simp only [if_neg h, List.find?_cons]
        by_cases h3 : item.name = other
        · simp [h3]
        · simp only [h3, decide_False]
          exact ih'

/-- The cargo that the constructor of `Ship` loads has pairwise distinct names. -/
theorem initial_cargo_nodup :
    (names [{ name := "Fuel", quantity := 100 }, { name := "Food", quantity := 50 },
      { name := "Metal", quantity := 30 }]).Nodup := by
  simp [names]

theorem addCargo_merges_witness :
    (names (addCargo [{ name := "Fuel", quantity := 100 }, { name := "Food", quantity := 50 },
        { name := "Metal", quantity := 30 }] "Food" 25)).Nodup ∧
      quantityOf (addCargo [{ name := "Fuel", quantity := 100 }, { name := "Food", quantity := 50 },
        { name := "Metal", quantity := 30 }] "Food" 25) "Food"
        = quantityOf [{ name := "Fuel", quantity := 100 }, { name := "Food", quantity := 50 },
          { name := "Metal", quantity := 30 }] "Food" + 25 ∧
      quantityOf (addCargo [{ name := "Fuel", quantity := 100 }, { name := "Food", quantity := 50 },
        { name := "Metal", quantity := 30 }] "Food" 25) "Food" = 75 ∧
      quantityOf (addCargo [{ name := "Fuel", quantity := 100 }, { name := "Food", quantity := 50 },
        { name := "Metal", quantity := 30 }] "Fuel" 2147483647) "Fuel"
        = wrapInt32 (quantityOf [{ name := "Fuel", quantity := 100 },
          { name := "Food", quantity := 50 }, { name := "Metal", quantity := 30 }] "Fuel"
          + 2147483647) ∧
      addCargo [{ name := "Fuel", quantity := 100 }, { name := "Food", quantity := 50 },
        { name := "Metal", quantity := 30 }] "Ore" 5
        = [{ name := "Fuel", quantity := 100 }, { name := "Food", quantity := 50 },
          { name := "Metal", quantity := 30 }] ++ [{ name := "Ore", quantity := 5 }] ∧
      names (addCargo [{ name := "Fuel", quantity := 100 }, { name := "Food", quantity := 50 },
        { name := "Metal", quantity := 30 }] "Food" 25)
        = names [{ name := "Fuel", quantity := 100 }, { name := "Food", quantity := 50 },
          { name := "Metal", quantity := 30 }] ∧
      quantityOf (addCargo [{ name := "Fuel", quantity := 100 }, { name := "Food", quantity := 50 },
        { name := "Metal", quantity := 30 }] "Food" 25) "Metal"
        = quantityOf [{ name := "Fuel", quantity := 100 }, { name := "Food", quantity := 50 },
          { name := "Metal", quantity := 30 }] "Metal" :=
  ⟨(addCargo_merges _ "Food" 25 initial_cargo_nodup).1,
    (addCargo_merges _ "Food" 25 initial_cargo_nodup).2.1 (by decide) (by decide),
    by decide,
    (addCargo_merges _ "Fuel" 2147483647 initial_cargo_nodup).2.2.1 (by simp [names]),
    ((addCargo_merges _ "Ore" 5 initial_cargo_nodup).2.2.2.1 (by simp [names])).2.2,
    (addCargo_merges _ "Food" 25 initial_cargo_nodup).2.2.2.2.1 (by simp [names]),
    (addCargo_merges _ "Food" 25 initial_cargo_nodup).2.2.2.2.2.2 "Metal" (by decide)⟩

/-- C29 as stated fails: the cargo of a new ship holds 100 units of fuel, and
`addCargo("Fuel", 2147483647)` leaves `-2147483549` under that name, not
`100 + 2147483647 = 2147483747`, which no `int` holds.  The names, the other entries
and their order are as the claim says. -/
theorem addCargo_overflow_counterexample :
    (names [{ name := "Fuel", quantity := 100 }, { name := "Food", quantity := 50 },
      { name := "Metal", quantity := 30 }]).Nodup ∧
    addCargo [{ name := "Fuel", quantity := 100 }, { name := "Food", quantity := 50 },
        { name := "Metal", quantity := 30 }] "Fuel" 2147483647
      = [{ name := "Fuel", quantity := -2147483549 }, { name := "Food", quantity := 50 },
        { name := "Metal", quantity := 30 }] ∧
    quantityOf (addCargo [{ name := "Fuel", quantity := 100 }, { name := "Food", quantity := 50 },
        { name := "Metal", quantity := 30 }] "Fuel" 2147483647) "Fuel" = -2147483549 ∧
    quantityOf (addCargo [{ name := "Fuel", quantity := 100 }, { name := "Food", quantity := 50 },
        { name := "Metal", quantity := 30 }] "Fuel" 2147483647) "Fuel"
      ≠ quantityOf [{ name := "Fuel", quantity := 100 }, { name := "Food", quantity := 50 },
        { name := "Metal", quantity := 30 }] "Fuel" + 2147483647 := by
  refine ⟨by simp [names], by decide, by decide, by decide⟩

end SpaceTrader

namespace Rts

theorem foldlM_some {α β : Type} (g : β → α → β) (l : List α) :
    ∀ b : β, l.foldlM (fun b a => some (g b a)) b = some (l.foldl g b) := by
  induction l with
  | nil => intro b; rfl
  | cons a l ih =>
    intro b
    rw [List.foldlM_cons, List.foldl_cons]
    exact ih (g b a)

/-- A scan that keeps the first strictly smaller value: it either keeps the start,
which no element undercuts, or ends at the first element of least value. -/
theorem scan_first_min {α : Type} (val : α → ℚ) :
    ∀ (ds : List α) (acc : ℚ × α),
      (ds.foldl (fun (acc : ℚ × α) (d : α) => if val d < acc.1 then (val d, d) else acc) acc
          = acc ∧
        ∀ d ∈ ds, acc.1 ≤ val d) ∨
      (∃ (i : Nat) (d : α), ds[i]? = some d ∧
        ds.foldl (fun (acc : ℚ × α) (d : α) => if val d < acc.1 then (val d, d) else acc) acc
          = (val d, d) ∧
        val d < acc.1 ∧
        ∀ (j : Nat) (d' : α), ds[j]? = some d' → val d ≤ val d' ∧ (j < i → val d < val d')) := by
  intro ds
  induction ds with
  | nil => intro acc; exact Or.inl ⟨rfl, fun d h => absurd h (List.not_mem_nil d)⟩
  | cons a ds ih =>
    intro acc
    rw [List.foldl_cons]
    by_cases ha : val a < acc.1
    · rw [if_pos ha]
      rcases ih (val a, a) with ⟨hr, hall⟩ | ⟨i, d, hd, hr, hlt, hmin⟩
      · refine Or.inr ⟨0, a, by simp, hr, ha, ?_⟩
        intro j d' hj
        cases j with
        | zero =>
          simp only [List.getElem?_cons_zero, Option.some.injEq] at hj
          subst hj
          exact ⟨le_rfl, fun h => absurd h (Nat.lt_irrefl 0)⟩
        | succ j =>
          rw [List.getElem?_cons_succ] at hj
          exact ⟨hall d' (List.getElem?_mem hj), fun h => absurd h (Nat.not_lt_zero _)⟩
      · refine Or.inr ⟨i + 1, d, by rw [List.getElem?_cons_succ]; exact hd, hr,
          lt_trans hlt ha, ?_⟩
        intro j d' hj
        cases j with
        | zero =>
          simp only [List.getElem?_cons_zero, Option.some.injEq] at hj
          subst hj
          exact ⟨hlt.le, fun _ => hlt⟩
        | succ j =>
          rw [List.getElem?_cons_succ] at hj
          exact ⟨(hmin j d' hj).1, fun h => (hmin j d' hj).2 (by omega)⟩
    · rw [if_neg ha]
      rcases ih acc with ⟨hr, hall⟩ | ⟨i, d, hd, hr, hlt, hmin⟩
      · refine Or.inl ⟨hr, ?_⟩
        intro d hd
        rcases List.mem_cons.mp hd with rfl | h
        · exact not_lt.mp ha
        · exact hall d h
      · refine Or.inr ⟨i + 1, d, by rw [List.getElem?_cons_succ]; exact hd, hr, hlt, ?_⟩
        intro j d' hj
        cases j with
        | zero =>
          simp only [List.getElem?_cons_zero, Option.some.injEq] at hj
          subst hj
          have : val d < val a := lt_of_lt_of_le hlt (not_lt.mp ha)
          exact ⟨this.le, fun _ => this⟩
        | succ j =>
          rw [List.getElem?_cons_succ] at hj
          exact ⟨(hmin j d' hj).1, fun h => (hmin j d' hj).2 (by omega)⟩

end Rts

namespace Rts.Demo1

theorem findTarget_keeps_wrap (e : EnemyUnit) (units : List Unit) :
    (findTarget e units).state = e.state ∧ (findTarget e units).toUnit = e.toUnit := by
  unfold findTarget
  cases (closestLoop calculateWrappedDistance e.position e.teamSign units).2 with
  | none => exact ⟨rfl, rfl⟩
  | some u => exact ⟨rfl, rfl⟩

theorem fsum_lt_floatMax (l : List ℚ) (hl : ∀ v ∈ l, |v| ≤ 1) : fsum l < floatMax := by
  have h := abs_foldl_fadd_le l hl 0 0 (by simp)
  have h2 : ((min (0 + l.length) (2 ^ 24) : Nat) : ℚ) ≤ ((2 ^ 24 : Nat) : ℚ) := by
    exact_mod_cast Nat.min_le_right _ _
  have h3 : fsum l ≤ ((2 ^ 24 : Nat) : ℚ) := le_trans (le_trans (le_abs_self _) h) h2
  have h4 : ((2 ^ 24 : Nat) : ℚ) < floatMax := by unfold floatMax; norm_num
  exact lt_of_le_of_lt h3 h4

/-- After demo1's `update` on units of team `+1` or `-1` every cell is below the largest
`float`. -/
theorem cells_lt_floatMax (m0 m : InfluenceMap) (units : List Unit) (hv : m0.Valid)
    (hr : 0 < m0.rows) (hc : 0 < m0.cols)
    (hsign : ∀ u ∈ units, u.teamSign = 1 ∨ u.teamSign = -1)
    (hu : update m0 units = some m) :
    ∀ r c v, cellAt m.mapData r c = some v → v < floatMax := by
  obtain ⟨g, e, hg, hcell⟩ := update_spec_wrap m0 hr hc hv.cellSize_ne hv.rect units
  rw [e] at hu
  cases hu
  apply cells_of_inRange hg (fun v => v < floatMax)
  intro r c h1 h2
  refine ⟨_, hcell r c h1 h2, fsum_lt_floatMax _ ?_⟩
  intro v hv'
  simp only [List.mem_flatMap] at hv'
  obtain ⟨u, hu', hv2⟩ := hv'
  obtain ⟨x, y, hxy, rfl⟩ := values_form_wrap _ _ _ _ _ r c v hv2
  exact abs_influenceValue_le (hsign u hu') hxy

theorem scanDirection_eq (m : InfluenceMap) (position : Vector2f) (val : Vector2f → ℚ)
    (hval : ∀ p, getInfluenceAtPosition m p = some (val p)) (acc : ℚ × Vector2f)
    (dir : Vector2f) :
    scanDirection m position acc dir
      = some (if val (checkPos position dir) < acc.1 then (val (checkPos position dir), dir)
          else acc) := by
  unfold scanDirection
  rw [hval]
  simp only
  split_ifs <;> rfl

end Rts.Demo1

namespace Rts

theorem rnd_grid_int {i : Int} (h : |i| < 2 ^ 24) : rnd ((i : ℚ) / 8192) = (i : ℚ) / 8192 := by
  have h' := roundTo_of_repr 24 (-126) i (-13) h (by norm_num)
  have e : pow2 (-13) = 1 / 8192 := by rw [pow2_eq_zpow]; norm_num
  rw [e] at h'
  have e2 : (i : ℚ) / 8192 = (i : ℚ) * (1 / 8192) := by ring
  rw [e2]
  exact h'

/-- One coordinate of the point that demo1's `makeDecision` probes, for a coordinate
`i / 8192` inside the world and a direction component `c`: the `float` operations are
exact, the wrapped coordinate lies in `[0, extent)` and differs from
`i / 8192 + 20 * c` by a multiple of the extent; the target coordinate is
`i / 8192 + 50 * c`. -/
theorem probe_coord_grid (i : Int) (c : ℚ) (extent : Int) (hc : c = -1 ∨ c = 0 ∨ c = 1)
    (he0 : 20 ≤ extent) (he1 : extent ≤ 1024) (h0 : 0 ≤ i) (h1 : i < extent * 8192) :
    (0 ≤ wrapStep (fadd ((i : ℚ) / 8192) (fmul c 20)) extent ∧
      wrapStep (fadd ((i : ℚ) / 8192) (fmul c 20)) extent < extent) ∧
    (∃ k : Int, wrapStep (fadd ((i : ℚ) / 8192) (fmul c 20)) extent
      = (i : ℚ) / 8192 + 20 * c + k * extent) ∧
    fadd ((i : ℚ) / 8192) (fmul c 50) = (i : ℚ) / 8192 + 50 * c := by
  obtain ⟨j, rfl, hj⟩ : ∃ j : Int, c = (j : ℚ) ∧ -1 ≤ j ∧ j ≤ 1 := by
    rcases hc with rfl | rfl | rfl
    · exact ⟨-1, by norm_num, by norm_num, by norm_num⟩
    · exact ⟨0, by norm_num, by norm_num, by norm_num⟩
    · exact ⟨1, by norm_num, by norm_num, by norm_num⟩
  have m20 : fmul (j : ℚ) 20 = ((j * 20 : Int) : ℚ) := by
    unfold fmul
    have := rnd_intCast (i := j * 20) (by rw [abs_lt]; constructor <;> omega)
    rw [← this]; push_cast; rfl
  have m50 : fmul (j : ℚ) 50 = ((j * 50 : Int) : ℚ) := by
    unfold fmul
    have := rnd_intCast (i := j * 50) (by rw [abs_lt]; constructor <;> omega)
    rw [← this]; push_cast; rfl
  have a20 : fadd ((i : ℚ) / 8192) (fmul (j : ℚ) 20) = ((i + 163840 * j : Int) : ℚ) / 8192 := by
    rw [m20]
    unfold fadd
    have := rnd_grid_int (i := i + 163840 * j) (by rw [abs_lt]; constructor <;> omega)
    rw [← this]
    congr 1
    push_cast
    ring
  have a50 : fadd ((i : ℚ) / 8192) (fmul (j : ℚ) 50) = ((i + 409600 * j : Int) : ℚ) / 8192 := by
    rw [m50]
    unfold fadd
    have := rnd_grid_int (i := i + 409600 * j) (by rw [abs_lt]; constructor <;> omega)
    rw [← this]
    congr 1
    push_cast
    ring
  have hlo : -(extent : ℚ) ≤ ((i + 163840 * j : Int) : ℚ) / 8192 := by
    rw [le_div_iff₀ (by norm_num : (0 : ℚ) < 8192)]
    have : -extent * 8192 ≤ i + 163840 * j := by omega
    exact_mod_cast this
  have hhi : ((i + 163840 * j : Int) : ℚ) / 8192 < 2 * (extent : ℚ) := by
    rw [div_lt_iff₀ (by norm_num : (0 : ℚ) < 8192)]
    have : i + 163840 * j < 2 * extent * 8192 := by omega
    exact_mod_cast this
  obtain ⟨hb, ⟨k, hk⟩, -⟩ := wrapStep_exact _ extent (by omega) (by omega) hlo hhi
    (exactWrap_grid (i + 163840 * j) (by omega) (by omega) hlo hhi)
  rw [a20, a50]
  refine ⟨hb, ⟨k, ?_⟩, ?_⟩
  · rw [hk]; push_cast; ring
  · push_cast; ring

end Rts

namespace Rts.Demo1

/-- C30. demo1, on a field with a non-empty grid whose cells are below the largest
`float` (as they are after every `update` on units of team `+1` or `-1`):
`makeDecision` completes; when the sample at the enemy's position is `> -0.5` it sets
`targetPosition` to `position + d * 50.0f`, where `d` is the first of the eight
directions N, NE, E, SE, S, SW, W, NW whose sample at the point
`position + d * 20.0f`, wrapped by one step into the screen, is least among the
eight, and changes nothing else, the state included; when the sample is `<= -0.5` it
sets the state to `Attack`.  For a position inside the screen on the grid of the
multiples of `1 / 8192` the `float` operations are exact: the probed point lies in
`[0, 800) x [0, 600)` and differs from `position + 20 * d` by multiples of the screen
size, and the target is `position + 50 * d`. -/
theorem makeDecision_least_influence (e : EnemyUnit) (units : List Unit) (m : InfluenceMap)
    (hv : m.Valid) (hr : 0 < m.rows) (hc : 0 < m.cols)
    (hfin : ∀ r c v, cellAt m.mapData r c = some v → v < floatMax) :
    (∃ s, getInfluenceAtPosition m e.position = some s ∧
      (-1 / 2 < s →
        ∃ (i : Nat) (d : Vector2f) (v : ℚ), directions[i]? = some d ∧
          getInfluenceAtPosition m
            { x := wrapStep (fadd e.position.x (fmul d.x 20)) SCREEN_WIDTH,
              y := wrapStep (fadd e.position.y (fmul d.y 20)) SCREEN_HEIGHT } = some v ∧
          (∀ (j : Nat) (d' : Vector2f), directions[j]? = some d' →
            ∃ v', getInfluenceAtPosition m
                { x := wrapStep (fadd e.position.x (fmul d'.x 20)) SCREEN_WIDTH,
                  y := wrapStep (fadd e.position.y (fmul d'.y 20)) SCREEN_HEIGHT } = some v' ∧
              v ≤ v' ∧ (j < i → v < v')) ∧
          makeDecision e units m = some
            { e with targetPosition :=
                { x := fadd e.position.x (fmul d.x 50), y := fadd e.position.y (fmul d.y 50) } }) ∧
      (s ≤ -1 / 2 →
        ∃ e', makeDecision e units m = some e' ∧ e'.state = State.Attack ∧
          e'.toUnit = e.toUnit)) ∧
    directions = [{ x := 0, y := -1 }, { x := 1, y := -1 }, { x := 1, y := 0 },
      { x := 1, y := 1 }, { x := 0, y := 1 }, { x := -1, y := 1 }, { x := -1, y := 0 },
      { x := -1, y := -1 }] ∧
    (∀ ix iy : Int, 0 ≤ ix → ix < 800 * 8192 → 0 ≤ iy → iy < 600 * 8192 →
      e.position = { x := (ix : ℚ) / 8192, y := (iy : ℚ) / 8192 } →
      ∀ d ∈ directions,
        ((0 ≤ wrapStep (fadd e.position.x (fmul d.x 20)) SCREEN_WIDTH ∧
            wrapStep (fadd e.position.x (fmul d.x 20)) SCREEN_WIDTH < 800) ∧
          (0 ≤ wrapStep (fadd e.position.y (fmul d.y 20)) SCREEN_HEIGHT ∧
            wrapStep (fadd e.position.y (fmul d.y 20)) SCREEN_HEIGHT < 600)) ∧
        (∃ k : Int, wrapStep (fadd e.position.x (fmul d.x 20)) SCREEN_WIDTH
          = e.position.x + 20 * d.x + k * 800) ∧
        (∃ k : Int, wrapStep (fadd e.position.y (fmul d.y 20)) SCREEN_HEIGHT
          = e.position.y + 20 * d.y + k * 600) ∧
        fadd e.position.x (fmul d.x 50) = e.position.x + 50 * d.x ∧
        fadd e.position.y (fmul d.y 50) = e.position.y + 50 * d.y) ∧
    (∀ (m0 m1 : InfluenceMap) (units0 : List Unit), m0.Valid → 0 < m0.rows → 0 < m0.cols →
      (∀ u ∈ units0, u.teamSign = 1 ∨ u.teamSign = -1) → update m0 units0 = some m1 →
      ∀ r c v, cellAt m1.mapData r c = some v → v < floatMax) := by
  refine ⟨?_, rfl, ?_,
    fun m0 m1 units0 h1 h2 h3 h4 h5 => cells_lt_floatMax m0 m1 units0 h1 h2 h3 h4 h5⟩
  · have hval : ∀ p, getInfluenceAtPosition m p
        = some ((getInfluenceAtPosition m p).getD 0) := by
      intro p
      obtain ⟨v, hv'⟩ := sample_total_wrap m hv hr hc p
      rw [hv']; rfl
    have hlt : ∀ p, (getInfluenceAtPosition m p).getD 0 < floatMax := by
      intro p
      obtain ⟨r, c, _, _, es⟩ := sample_eq_cellAt_wrap m hv hr hc p
      have h := hval p
      rw [es] at h
      rw [es]
      exact hfin r c _ h
    refine ⟨_, hval e.position, ?_, ?_⟩
    · intro hs
      have hfold : directions.foldlM (scanDirection m e.position)
          (floatMax, { x := 0, y := 0 })
          = some (directions.foldl
              (fun (acc : ℚ × Vector2f) (d : Vector2f) =>
                if (getInfluenceAtPosition m (checkPos e.position d)).getD 0 < acc.1 then
                  ((getInfluenceAtPosition m (checkPos e.position d)).getD 0, d)
                else acc)
              (floatMax, { x := 0, y := 0 })) := by
        rw [← foldlM_some]
        congr 1
        funext acc dir
        exact scanDirection_eq m e.position _ hval acc dir
      rcases scan_first_min (fun d => (getInfluenceAtPosition m (checkPos e.position d)).getD 0)
          directions (floatMax, { x := 0, y := 0 }) with ⟨-, hall⟩ | ⟨i, d, hd, hres, -, hmin⟩
      · exfalso
        have h1 := hall { x := 0, y := -1 } (by decide)
        have h2 := hlt (checkPos e.position { x := 0, y := -1 })
        exact absurd h2 (not_lt.mpr h1)
      · refine ⟨i, d, _, hd, hval (checkPos e.position d), ?_, ?_⟩
        · intro j d' hj
          exact ⟨_, hval (checkPos e.position d'), (hmin j d' hj).1, (hmin j d' hj).2⟩
        · unfold makeDecision
          rw [hval e.position]
          simp only
          rw [if_pos hs, hfold, hres]
          rfl
    · intro hs
      refine ⟨findTarget { e with state := State.Attack } units, ?_,
        (findTarget_keeps_wrap _ units).1, (findTarget_keeps_wrap _ units).2⟩
      unfold makeDecision
      rw [hval e.position]
      simp only
      rw [if_neg (not_lt.mpr hs)]
  · intro ix iy hx0 hx1 hy0 hy1 hpos d hd
    have hdx : d.x = -1 ∨ d.x = 0 ∨ d.x = 1 := by
      simp only [directions, List.mem_cons, List.mem_singleton, List.not_mem_nil, or_false] at hd
      rcases hd with rfl | rfl | rfl | rfl | rfl | rfl | rfl | rfl <;> simp
    have hdy : d.y = -1 ∨ d.y = 0 ∨ d.y = 1 := by
      simp only [directions, List.mem_cons, List.mem_singleton, List.not_mem_nil, or_false] at hd
      rcases hd with rfl | rfl | rfl | rfl | rfl | rfl | rfl | rfl <;> simp
    have ex : e.position.x = (ix : ℚ) / 8192 := by rw [hpos]
    have ey : e.position.y = (iy : ℚ) / 8192 := by rw [hpos]
    rw [ex, ey]
    obtain ⟨bx, kx, tx⟩ := probe_coord_grid ix d.x SCREEN_WIDTH hdx (by decide)
      (by decide) hx0 hx1
    obtain ⟨bY, ky, ty⟩ := probe_coord_grid iy d.y SCREEN_HEIGHT hdy (by decide)
      (by decide) hy0 hy1
    exact ⟨⟨bx, bY⟩, kx, ky, tx, ty⟩

theorem demoMap_cells_lt : ∀ r c v, cellAt demoMap.mapData r c = some v → v < floatMax := by
  apply cells_of_inRange demoMap_valid.rect (fun v => v < floatMax)
  intro r c h1 h2
  have h1' : r < 15 := h1
  have h2' : c < 20 := h2
  exact ⟨0, cellAt_replicate 0 h1' h2', by unfold floatMax; norm_num⟩

/-- The field of the demo with every cell at `-1.0` is a valid field. -/
theorem hostile_valid :
    ({ demoMap with mapData := List.replicate 15 (List.replicate 20 (-1)) } :
      InfluenceMap).Valid := by
  apply demoMap_valid.with_grid
  refine ⟨by simp; rfl, ?_⟩
  intro row hrow
  simp only [List.mem_replicate] at hrow
  rw [hrow.2]; simp; rfl

theorem hostile_cells_lt : ∀ r c v,
    cellAt ({ demoMap with mapData := List.replicate 15 (List.replicate 20 (-1)) } :
      InfluenceMap).mapData r c = some v → v < floatMax := by
  apply cells_of_inRange hostile_valid.rect (fun v => v < floatMax)
  intro r c h1 h2
  have h1' : r < 15 := h1
  have h2' : c < 20 := h2
  exact ⟨-1, cellAt_replicate (-1) h1' h2', by unfold floatMax; norm_num⟩

/-- A run of the decision on the field of the demo: a player unit at `(420, 260)`, the enemy at
`(420, 300)`.  The eight probed samples, in the order N, NE, E, SE, S, SW, W, NW, and
the sample at the enemy's position; the least is that of SE, and the target becomes
`(470, 350)`. -/
theorem decision_run :
    (update demoMap [mkUnit 420 260 1]).bind (fun m1 =>
      some (directions.map (fun d => getInfluenceAtPosition m1
          { x := wrapStep (fadd (mkEnemyUnit 420 300).position.x (fmul d.x 20)) SCREEN_WIDTH,
            y := wrapStep (fadd (mkEnemyUnit 420 300).position.y (fmul d.y 20)) SCREEN_HEIGHT }),
        getInfluenceAtPosition m1 (mkEnemyUnit 420 300).position,
        makeDecision (mkEnemyUnit 420 300) [mkUnit 420 260 1] m1))
    = some ([some (1 / 2), some (3474675 / 8388608), some (3474675 / 8388608),
        some (5184445 / 16777216), some (11184811 / 33554432), some (11184811 / 33554432),
        some (1 / 2), some (1 / 2)],
      some (1 / 2),
      some { mkEnemyUnit 420 300 with targetPosition := { x := 470, y := 350 } }) := by
  decide!

theorem makeDecision_least_influence_witness :
    (∃ m1, update demoMap [mkUnit 420 260 1] = some m1 ∧
      directions.map (fun d => getInfluenceAtPosition m1
          { x := wrapStep (fadd (mkEnemyUnit 420 300).position.x (fmul d.x 20)) SCREEN_WIDTH,
            y := wrapStep (fadd (mkEnemyUnit 420 300).position.y (fmul d.y 20)) SCREEN_HEIGHT })
        = [some (1 / 2), some (3474675 / 8388608), some (3474675 / 8388608),
          some (5184445 / 16777216), some (11184811 / 33554432), some (11184811 / 33554432),
          some (1 / 2), some (1 / 2)] ∧
      makeDecision (mkEnemyUnit 420 300) [mkUnit 420 260 1] m1
        = some { mkEnemyUnit 420 300 with targetPosition := { x := 470, y := 350 } } ∧
      ∃ (i : Nat) (d : Vector2f) (v : ℚ), directions[i]? = some d ∧
        getInfluenceAtPosition m1
          { x := wrapStep (fadd (mkEnemyUnit 420 300).position.x (fmul d.x 20)) SCREEN_WIDTH,
            y := wrapStep (fadd (mkEnemyUnit 420 300).position.y (fmul d.y 20)) SCREEN_HEIGHT }
          = some v ∧
        (∀ (j : Nat) (d' : Vector2f), directions[j]? = some d' →
          ∃ v', getInfluenceAtPosition m1
              { x := wrapStep (fadd (mkEnemyUnit 420 300).position.x (fmul d'.x 20))
                  SCREEN_WIDTH,
                y := wrapStep (fadd (mkEnemyUnit 420 300).position.y (fmul d'.y 20))
                  SCREEN_HEIGHT } = some v' ∧
            v ≤ v' ∧ (j < i → v < v')) ∧
        makeDecision (mkEnemyUnit 420 300) [mkUnit 420 260 1] m1 = some
          { mkEnemyUnit 420 300 with targetPosition :=
              { x := fadd (mkEnemyUnit 420 300).position.x (fmul d.x 50),
                y := fadd (mkEnemyUnit 420 300).position.y (fmul d.y 50) } }) ∧
    (∃ e', makeDecision (mkEnemyUnit 420 300) [mkUnit 100 300 1]
        { demoMap with mapData := List.replicate 15 (List.replicate 20 (-1)) } = some e' ∧
      e'.state = State.Attack ∧ e'.toUnit = (mkEnemyUnit 420 300).toUnit) ∧
    (((0 ≤ wrapStep (fadd (mkEnemyUnit 10 10).position.x (fmul (-1) 20)) SCREEN_WIDTH ∧
          wrapStep (fadd (mkEnemyUnit 10 10).position.x (fmul (-1) 20)) SCREEN_WIDTH < 800) ∧
        (0 ≤ wrapStep (fadd (mkEnemyUnit 10 10).position.y (fmul (-1) 20)) SCREEN_HEIGHT ∧
          wrapStep (fadd (mkEnemyUnit 10 10).position.y (fmul (-1) 20)) SCREEN_HEIGHT < 600)) ∧
      (∃ k : Int, wrapStep (fadd (mkEnemyUnit 10 10).position.x (fmul (-1) 20)) SCREEN_WIDTH
        = (mkEnemyUnit 10 10).position.x + 20 * (-1) + k * 800) ∧
      (∃ k : Int, wrapStep (fadd (mkEnemyUnit 10 10).position.y (fmul (-1) 20)) SCREEN_HEIGHT
        = (mkEnemyUnit 10 10).position.y + 20 * (-1) + k * 600) ∧
      fadd (mkEnemyUnit 10 10).position.x (fmul (-1) 50)
        = (mkEnemyUnit 10 10).position.x + 50 * (-1) ∧
      fadd (mkEnemyUnit 10 10).position.y (fmul (-1) 50)
        = (mkEnemyUnit 10 10).position.y + 50 * (-1)) ∧
    (wrapStep (fadd (mkEnemyUnit 10 10).position.x (fmul (-1) 20)) SCREEN_WIDTH = 790 ∧
      wrapStep (fadd (mkEnemyUnit 10 10).position.y (fmul (-1) 20)) SCREEN_HEIGHT = 590) ∧
    (∀ r c v, cellAt ({ demoMap with mapData := resetMap demoMap.mapData } :
      InfluenceMap).mapData r c = some v → v < floatMax) := by
  obtain ⟨g, hu, hg, -⟩ := update_spec_wrap demoMap (by decide : 0 < demoMap.rows)
    (by decide : 0 < demoMap.cols) demoMap_valid.cellSize_ne demoMap_valid.rect
    [mkUnit 420 260 1]
  have hv1 : ({ demoMap with mapData := g } : InfluenceMap).Valid := demoMap_valid.with_grid hg
  have hfin1 := cells_lt_floatMax demoMap _ [mkUnit 420 260 1] demoMap_valid (by decide)
    (by decide) (by simp [mkUnit]) hu
  have hrun := decision_run
  rw [hu] at hrun
  have hrun2 := Option.some.inj hrun
  simp only [Prod.mk.injEq] at hrun2
  obtain ⟨hlist, hsample, hdec⟩ := hrun2
  obtain ⟨s, hs, h1, -⟩ := (makeDecision_least_influence (mkEnemyUnit 420 300)
    [mkUnit 420 260 1] { demoMap with mapData := g } hv1 (show 0 < demoMap.rows by decide)
    (show 0 < demoMap.cols by decide) hfin1).1
  rw [hsample] at hs
  cases hs
  obtain ⟨s', hs', -, h2⟩ := (makeDecision_least_influence (mkEnemyUnit 420 300)
    [mkUnit 100 300 1] { demoMap with mapData := List.replicate 15 (List.replicate 20 (-1)) }
    hostile_valid (by decide) (by decide) hostile_cells_lt).1
  have e1 : getInfluenceAtPosition
      { demoMap with mapData := List.replicate 15 (List.replicate 20 (-1)) }
      (mkEnemyUnit 420 300).position = some (-1) := by
    decide!
  rw [e1] at hs'
  cases hs'
  exact ⟨⟨_, hu, hlist, hdec, h1 (by norm_num)⟩, h2 (by norm_num),
    (makeDecision_least_influence (mkEnemyUnit 10 10) [] demoMap demoMap_valid (by decide)
      (by decide) demoMap_cells_lt).2.2.1 81920 81920 (by decide) (by decide) (by decide)
      (by decide) (by decide!) { x := -1, y := -1 } (by decide),
    by decide!,
    (makeDecision_least_influence (mkEnemyUnit 420 300) [] demoMap
      demoMap_valid (by decide) (by decide) demoMap_cells_lt).2.2.2 demoMap _ []
      demoMap_valid (by decide) (by decide) (by simp) (update_nil_wrap demoMap)⟩

end Rts.Demo1
